import Mathlib

/-!
# OSPRD ramdisk lock protocol (osprd.c)

A shallow embedding of the locking and notification code of `osprd.c`:
the hand-rolled pid and ticket lists, `incrementTicket`, the deadlock scan
`checkForOtherLocks`, `osprd_ioctl`, `osprd_close_last`, `osprd_setup`.

Conventions of the embedding.

* A C pointer to a heap list (`struct pidList*`, `struct ticketList*`) is an
  `Option`: `none` is `NULL`.  The chain of nodes hanging off `head` is a Lean
  list, first node first.
* `unsigned` values are naturals reduced modulo `UINT = 2^32` at every
  arithmetic operation.
* `current` is a `task`: its pid and the open entries of its descriptor table.
  `file2osprd` resolves a file to the index of its ramdisk in `osprds`.
* The blocking calls are cut at `wait_event_interruptible`: `osprd_ioctl`
  returns an `Outcome` that is either a returned value or the point of the wait,
  and the code after the wait is a separate function.
* The sector store (`data`), the request queue and the spinlocks carry no lock
  state and are left out.
* `removeFromPidList` and `removeFromTicketList` go on reading the head node
  after `kfree`; the embedding reads it with the contents it had when freed.
-/

namespace Osprd

/-- The size of an OSPRD sector. -/
def SECTOR_SIZE : Nat := 512

/-- Flag added to a file's `f_flags` to mark it locked. -/
def F_OSPRD_LOCKED : Nat := 0x80000

/-- Modulus of the C type `unsigned`. -/
def UINT : Nat := 4294967296

/-- Width of `unsigned long` / `ssize_t` on the i386 kernel the module targets. -/
def BITS_PER_LONG : Nat := 32

/-- Exclusive upper bound of `pid_t` (a signed 32-bit `int`). -/
def PID_LIMIT : Nat := 2147483648

def EDEADLK : Int := 35
def EBUSY : Int := 16
def EINVAL : Int := 22
def ENOTTY : Int := 25
def ERESTARTSYS : Int := 512

/-- `struct process`; `info` is `info->pid`, the only part of the task that is read. -/
structure process where
  info : Nat
  reqNotif : Int
  sectors : List Int
  sect : Nat
deriving DecidableEq, Repr

/-- `struct pidList`: the nodes reachable from `head` (each node is its `proc`)
and the `size` field. -/
structure pidList where
  head : List process
  size : Nat
deriving DecidableEq, Repr

/-- `struct ticketList`. -/
structure ticketList where
  head : List Nat
  size : Nat
deriving DecidableEq, Repr

/-- `osprd_info_t`, the lock and notification fields. -/
structure osprd_info where
  ticket_head : Nat
  ticket_tail : Nat
  readProcs : Option pidList
  writeProcs : Option pidList
  exitedTickets : Option ticketList
  isHoldingOtherLocks : Int
  notifProcs : Option pidList
  writeNlkProcs : Option pidList
deriving DecidableEq, Repr

/-- `struct file`: `osprd` is what `file2osprd` finds behind the inode (the index
of the ramdisk in `osprds`, or nothing for another kind of file),
`f_mode_write` is `f_mode & FMODE_WRITE`. -/
structure file where
  osprd : Option Nat
  f_mode_write : Bool
  f_flags : Nat
deriving DecidableEq, Repr

/-- `struct task_struct`: the pid and the open files of the descriptor table. -/
structure task where
  pid : Nat
  files : List file
deriving DecidableEq, Repr

/-- A record as `kzalloc` plus the three assignments of the lock paths leave it. -/
def newProc (pid : Nat) (reqNotif : Int) (sect : Nat) : process :=
  { info := pid, reqNotif := reqNotif, sectors := List.replicate 32 0, sect := sect }

/-- `x - 1` on `unsigned`. -/
def udec (x : Nat) : Nat := (x + UINT - 1) % UINT

/-- `x + 1` on `unsigned`. -/
def uinc (x : Nat) : Nat := (x + 1) % UINT

/-- `addToPidList`: allocate the list when `*l == NULL`, push the node at the head. -/
def addToPidList (l : Option pidList) (p : process) : Option pidList :=
  let l0 : pidList := match l with
    | none => { head := [], size := 0 }
    | some x => x
  some { head := p :: l0.head, size := uinc l0.size }

/-- The `while (cur->next != NULL)` loop of `removeFromPidList`, run on the nodes
after `cur`: `some` of the chain with the first node of pid `p` unlinked (the
loop returned), `none` when the loop ran off the end. -/
def unlinkNextPid : List process → Nat → Option (List process)
  | [], _ => none
  | n :: rest, p =>
    if n.info = p then some rest
    else match unlinkNextPid rest p with
      | some r => some (n :: r)
      | none => none

/-- `removeFromPidList`.  When the head node matches it is unlinked and freed, and
the loop then starts from that freed node, whose `next` field is read as left.
If the following node matches too, the unlink is written into the freed node:
`head` keeps pointing at the second node, `size` is decremented twice and the
function returns.  `*l == NULL` is not reached: every call is guarded by
`isInPidList`. -/
def removeFromPidList (l : Option pidList) (p : Nat) : Option pidList :=
  match l with
  | none => none
  | some pl =>
    match pl.head with
    | [] => some pl
    | cur :: next =>
      if cur.info = p then
        let l1 : pidList := { head := next, size := udec pl.size }
        match next with
        | [] => if l1.size = 0 then none else some l1
        | n :: rest =>
          if n.info = p then some { head := n :: rest, size := udec l1.size }
          else match unlinkNextPid rest p with
            | some r => some { head := n :: r, size := udec l1.size }
            | none => if l1.size = 0 then none else some l1
      else
        match unlinkNextPid next p with
        | some r => some { head := cur :: r, size := udec pl.size }
        | none => if pl.size = 0 then none else some pl

/-- `isInPidList`: the first record of pid `p`, or `NULL`. -/
def isInPidList (l : Option pidList) (p : Nat) : Option process :=
  match l with
  | none => none
  | some pl => pl.head.find? (fun q => decide (q.info = p))

/-- `addToTicketList`: as `addToPidList`, but `size` is not incremented. -/
def addToTicketList (l : Option ticketList) (t : Nat) : Option ticketList :=
  let l0 : ticketList := match l with
    | none => { head := [], size := 0 }
    | some x => x
  some { head := t :: l0.head, size := l0.size }

/-- The `while (cur->next != NULL)` loop of `removeFromTicketList`. -/
def unlinkNextTicket : List Nat → Nat → Option (List Nat)
  | [], _ => none
  | n :: rest, t =>
    if n = t then some rest
    else match unlinkNextTicket rest t with
      | some r => some (n :: r)
      | none => none

/-- `removeFromTicketList`, same shape as `removeFromPidList`. -/
def removeFromTicketList (l : Option ticketList) (t : Nat) : Option ticketList :=
  match l with
  | none => none
  | some tl =>
    match tl.head with
    | [] => some tl
    | cur :: next =>
      if cur = t then
        let l1 : ticketList := { head := next, size := udec tl.size }
        match next with
        | [] => if l1.size = 0 then none else some l1
        | n :: rest =>
          if n = t then some { head := n :: rest, size := udec l1.size }
          else match unlinkNextTicket rest t with
            | some r => some { head := n :: r, size := udec l1.size }
            | none => if l1.size = 0 then none else some l1
      else
        match unlinkNextTicket next t with
        | some r => some { head := cur :: r, size := udec tl.size }
        | none => if tl.size = 0 then none else some tl

/-- `isInTicketList`: 1 if `t` is in the list and 0 otherwise. -/
def isInTicketList (l : Option ticketList) (t : Nat) : Int :=
  match l with
  | none => 0
  | some tl => if t ∈ tl.head then 1 else 0

/-- Number of nodes of a ticket list (`NULL` has none). -/
def ticketNodes (l : Option ticketList) : Nat :=
  match l with
  | none => 0
  | some tl => tl.head.length

/-- The `while (1)` loop of `incrementTicket`.  `fuel` bounds the number of
iterations; every iteration that does not break unlinks a node of
`exitedTickets`, so `ticketNodes d.exitedTickets` iterations are enough
(`incrementTicketLoop_break`). -/
def incrementTicketLoop : Nat → osprd_info → osprd_info
  | 0, d => d
  | fuel + 1, d =>
    if isInTicketList d.exitedTickets d.ticket_tail = 0 then d
    else incrementTicketLoop fuel
      { d with exitedTickets := removeFromTicketList d.exitedTickets d.ticket_tail,
               ticket_tail := uinc d.ticket_tail }

/-- `incrementTicket`: increment `ticket_tail` so that exited tickets are avoided. -/
def incrementTicket (d : osprd_info) : osprd_info :=
  incrementTicketLoop (ticketNodes d.exitedTickets) { d with ticket_tail := uinc d.ticket_tail }

/-- `file2osprd`. -/
def file2osprd (filp : file) : Option Nat := filp.osprd

/-- `checkForOtherLocks(filp, data)` run by `current = cur`; `data` is the device
`osprds[i]` the ioctl is working on, so a file on ramdisk `i` is read through
`data`. -/
def checkForOtherLocks (osprds : Nat → osprd_info) (i : Nat) (cur : task)
    (filp : file) (data : osprd_info) : osprd_info :=
  match file2osprd filp with
  | none => data
  | some e =>
    let dev := if e = i then data else osprds e
    if (isInPidList dev.writeProcs cur.pid).isSome || (isInPidList dev.readProcs cur.pid).isSome then
      { data with isHoldingOtherLocks := 1 }
    else data

/-- `for_each_open_file(current, checkForOtherLocks, d)`. -/
def for_each_open_file (osprds : Nat → osprd_info) (i : Nat) (cur : task)
    (d : osprd_info) : osprd_info :=
  cur.files.foldl (fun data filp => checkForOtherLocks osprds i cur filp data) d

/-- C logical negation `!x` of an integer constant. -/
def lnot (x : Nat) : Nat := if x = 0 then 1 else 0

/-- `osprd_setup`: the lock fields of a freshly set-up device. -/
def osprd_setup : osprd_info :=
  { ticket_head := 0, ticket_tail := 0, readProcs := none, writeProcs := none,
    exitedTickets := none, isHoldingOtherLocks := 0, notifProcs := none,
    writeNlkProcs := none }

/-- The ioctl command numbers of `osprd.h`. -/
inductive Cmd where
  | OSPRDIOCSECTOR
  | OSPRDIOCNOTIFY
  | OSPRDIOCACQUIRE
  | OSPRDIOCTRYACQUIRE
  | OSPRDIOCRELEASE
  | other
deriving DecidableEq, Repr

/-- How a call of `osprd_ioctl` proceeds: it returns `r`, or it reaches the
`wait_event_interruptible` of OSPRDIOCACQUIRE holding `curTicket`, or the one of
OSPRDIOCNOTIFY watching `sectors[sector]` of the record it registered. -/
inductive Outcome where
  | ret (r : Int) (d : osprd_info) (filp : file)
  | acquireWait (curTicket : Nat) (d : osprd_info) (filp : file)
  | notifyWait (sector : Nat) (d : osprd_info) (filp : file)
deriving DecidableEq, Repr

/-- `(ssize_t) arg` for an `unsigned long arg`. -/
def ssize_t_of (arg : Nat) : Int :=
  let a := arg % 2 ^ BITS_PER_LONG
  if a < 2 ^ (BITS_PER_LONG - 1) then (a : Int) else (a : Int) - 2 ^ BITS_PER_LONG

/-- `((ssize_t) arg) / SECTOR_SIZE` stored into the `unsigned sect`. -/
def sectorOfArg (arg : Nat) : Nat :=
  (Int.tdiv (ssize_t_of arg) (SECTOR_SIZE : Int) % (UINT : Int)).toNat

/-- `tmp->sect = v` for `tmp = isInPidList(l, p)`: the first record of pid `p`. -/
def setSect : List process → Nat → Nat → List process
  | [], _, _ => []
  | q :: rest, p, v => if q.info = p then { q with sect := v } :: rest else q :: setSect rest p v

/-- `osprd_ioctl(inode, filp, cmd, arg)` called by `current = cur` on a file of
ramdisk `i` (`d = file2osprd(filp) = &osprds[i]`), up to its return or its wait. -/
def osprd_ioctl (osprds : Nat → osprd_info) (i : Nat) (cur : task) (filp : file)
    (cmd : Cmd) (arg : Nat) : Outcome :=
  let d := osprds i
  let filp_writable := filp.f_mode_write
  match cmd with
  | Cmd.OSPRDIOCSECTOR =>
    if d.notifProcs ≠ none then
      match isInPidList d.writeProcs cur.pid with
      | some _ =>
        let wp := match d.writeProcs with
          | some pl => some { pl with head := setSect pl.head cur.pid (sectorOfArg arg) }
          | none => none
        Outcome.ret 0 { d with writeProcs := wp } filp
      | none =>
        Outcome.ret 0
          { d with writeNlkProcs := addToPidList d.writeNlkProcs (newProc cur.pid 0 (sectorOfArg arg)) }
          filp
    else Outcome.ret 0 d filp
  | Cmd.OSPRDIOCNOTIFY =>
    let d1 := { d with notifProcs := addToPidList d.notifProcs (newProc cur.pid 1 0) }
    let sector := if arg ≠ 0 then arg - 1 else 0
    Outcome.notifyWait sector d1 filp
  | Cmd.OSPRDIOCACQUIRE =>
    let curTicket := d.ticket_head
    let d1 := { d with ticket_head := uinc d.ticket_head }
    if filp_writable then
      if (isInPidList d1.writeProcs cur.pid).isSome || (isInPidList d1.readProcs cur.pid).isSome then
        Outcome.ret (-EDEADLK) (incrementTicket { d1 with isHoldingOtherLocks := 0 }) filp
      else
        let d2 := for_each_open_file osprds i cur d1
        if d2.isHoldingOtherLocks ≠ 0 then
          Outcome.ret (-EDEADLK) (incrementTicket { d2 with isHoldingOtherLocks := 0 }) filp
        else Outcome.acquireWait curTicket d2 filp
    else
      if (isInPidList d1.readProcs cur.pid).isSome || (isInPidList d1.writeProcs cur.pid).isSome then
        Outcome.ret (-EDEADLK) (incrementTicket { d1 with isHoldingOtherLocks := 0 }) filp
      else
        let d2 := for_each_open_file osprds i cur d1
        if d2.isHoldingOtherLocks ≠ 0 then
          Outcome.ret (-EDEADLK) (incrementTicket { d2 with isHoldingOtherLocks := 0 }) filp
        else Outcome.acquireWait curTicket d2 filp
  | Cmd.OSPRDIOCTRYACQUIRE =>
    let d1 := for_each_open_file osprds i cur d
    if d1.writeProcs = none ∧ d1.isHoldingOtherLocks = 0 ∧
        (!filp_writable || decide (d1.readProcs = none)) = true then
      let d2 := { d1 with ticket_head := uinc d1.ticket_head }
      if filp_writable then
        Outcome.ret 0
          (incrementTicket { d2 with writeProcs := addToPidList d2.writeProcs (newProc cur.pid 0 0) })
          { filp with f_flags := filp.f_flags ||| F_OSPRD_LOCKED }
      else
        Outcome.ret 0
          (incrementTicket { d2 with readProcs := addToPidList d2.readProcs (newProc cur.pid 0 0) })
          { filp with f_flags := filp.f_flags ||| F_OSPRD_LOCKED }
    else Outcome.ret (-EBUSY) d1 filp
  | Cmd.OSPRDIOCRELEASE =>
    let d1 := if (isInPidList d.writeProcs cur.pid).isSome then
        { d with writeProcs := removeFromPidList d.writeProcs cur.pid } else d
    let d2 := if (isInPidList d1.readProcs cur.pid).isSome then
        { d1 with readProcs := removeFromPidList d1.readProcs cur.pid } else d1
    let d3 := if (isInPidList d2.notifProcs cur.pid).isSome then
        { d2 with notifProcs := removeFromPidList d2.notifProcs cur.pid } else d2
    let d4 := if (isInPidList d3.writeNlkProcs cur.pid).isSome then
        { d3 with writeNlkProcs := removeFromPidList d3.writeNlkProcs cur.pid } else d3
    let f := if d4.readProcs = none ∧ d4.writeProcs = none then
        { filp with f_flags := filp.f_flags &&& lnot F_OSPRD_LOCKED } else filp
    Outcome.ret 0 d4 f
  | Cmd.other => Outcome.ret (-ENOTTY) d filp

/-- The condition of the `wait_event_interruptible` of OSPRDIOCACQUIRE, lines
601 to 603 (write) and 673 to 674 (read). -/
def acquire_pred (filp_writable : Bool) (curTicket : Nat) (d : osprd_info) : Bool :=
  if filp_writable then
    decide (curTicket = d.ticket_tail) && decide (d.readProcs = none) && decide (d.writeProcs = none)
  else
    decide (curTicket = d.ticket_tail) && decide (d.writeProcs = none)

/-- OSPRDIOCACQUIRE after `wait_event_interruptible` returned 0: lines 621 to 634
(write) and 691 to 704 (read). -/
def acquire_granted (cur : task) (filp : file) (d : osprd_info) : Outcome :=
  if filp.f_mode_write then
    Outcome.ret 0
      (incrementTicket { d with writeProcs := addToPidList d.writeProcs (newProc cur.pid 0 0) })
      { filp with f_flags := filp.f_flags ||| F_OSPRD_LOCKED }
  else
    Outcome.ret 0
      (incrementTicket { d with readProcs := addToPidList d.readProcs (newProc cur.pid 0 0) })
      { filp with f_flags := filp.f_flags ||| F_OSPRD_LOCKED }

/-- OSPRDIOCACQUIRE after `wait_event_interruptible` returned nonzero: lines 608
to 614 (write) and 678 to 684 (read). -/
def acquire_interrupted (filp : file) (curTicket : Nat) (d : osprd_info) : Outcome :=
  if d.ticket_tail = curTicket then Outcome.ret (-ERESTARTSYS) (incrementTicket d) filp
  else Outcome.ret (-ERESTARTSYS)
    { d with exitedTickets := addToTicketList d.exitedTickets curTicket } filp

/-- OSPRDIOCNOTIFY after its wait, lines 505 to 511 (write mode) and 517 to 523
(read mode); `waitRet` is what `wait_event_interruptible` returned, 0 when the
condition held and `-ERESTARTSYS` when a signal ended the wait.  The body of the
`if` is empty in both branches (its `return -ERESTARTSYS` is commented out) and
`r = 0` follows. -/
def notify_woken (filp : file) (waitRet : Int) (d : osprd_info) : Outcome :=
  if filp.f_mode_write then
    if waitRet ≠ 0 then Outcome.ret 0 d filp else Outcome.ret 0 d filp
  else
    if waitRet ≠ 0 then Outcome.ret 0 d filp else Outcome.ret 0 d filp

/-- `osprd_close_last(inode, filp)` run by `current = cur`.  The result is the
return value and, when a ramdisk was resolved, its new state and the file. -/
def osprd_close_last (osprds : Nat → osprd_info) (cur : task) (filp : Option file) :
    Int × Option (osprd_info × file) :=
  match filp with
  | none => (0, none)
  | some fl =>
    match file2osprd fl with
    | none => (1, none)
    | some i =>
      let d := osprds i
      let d1 := if (isInPidList d.writeProcs cur.pid).isSome then
          { d with writeProcs := removeFromPidList d.writeProcs cur.pid } else d
      let d2 := if (isInPidList d1.readProcs cur.pid).isSome then
          { d1 with readProcs := removeFromPidList d1.readProcs cur.pid } else d1
      let d3 := if (isInPidList d2.notifProcs cur.pid).isSome then
          { d2 with notifProcs := removeFromPidList d2.notifProcs cur.pid } else d2
      let d4 := if (isInPidList d3.writeNlkProcs cur.pid).isSome then
          { d3 with writeNlkProcs := removeFromPidList d3.writeNlkProcs cur.pid } else d3
      let f := if d4.readProcs = none ∧ d4.writeProcs = none then
          { fl with f_flags := fl.f_flags &&& lnot F_OSPRD_LOCKED } else fl
      (0, some (d4, f))

/-- The notification part of the write branch of `osprd_process_request`, lines
375 to 390, run by `current = cur`.  `none` stands for the two accesses that
leave the records: `p->sect` with `p == NULL`, and `sectors[p->sect]` with
`p->sect` outside the 32 entries. -/
def osprd_process_request_write (cur : task) (d : osprd_info) : Option osprd_info :=
  match d.notifProcs with
  | none => some d
  | some nl =>
    let p := match isInPidList d.writeProcs cur.pid with
      | some q => some q
      | none => isInPidList d.writeNlkProcs cur.pid
    match nl.head with
    | [] => some d
    | _ :: _ =>
      match p with
      | none => none
      | some q =>
        if q.sect < 32 then
          let marked := nl.head.map
            (fun r => { r with reqNotif := 0, sectors := r.sectors.set q.sect 1 })
          some { d with notifProcs := some { nl with head := marked } }
        else none

/-- A task asleep in the `wait_event_interruptible` of OSPRDIOCACQUIRE: its pid,
its local `curTicket` and the file it called on. -/
structure Waiter where
  pid : Nat
  curTicket : Nat
  filp : file
deriving DecidableEq, Repr

/-- One ramdisk together with the tasks asleep in OSPRDIOCACQUIRE on it. -/
structure Sys where
  d : osprd_info
  blocked : List Waiter
deriving DecidableEq, Repr

/-- A task that can enter the driver on a file of ramdisk `i`: its pid is a
`pid_t`, it is not asleep in OSPRDIOCACQUIRE, and the file is in its table. -/
def callerOK (i : Nat) (s : Sys) (cur : task) (filp : file) : Prop :=
  cur.pid < PID_LIMIT ∧ (∀ w ∈ s.blocked, w.pid ≠ cur.pid) ∧ filp ∈ cur.files ∧
    file2osprd filp = some i

/-- The atomic steps of ramdisk `i`: an ioctl up to its return or its wait, the
end of an OSPRDIOCACQUIRE wait (granted with the condition true, or
interrupted), a last close, and the notification of a write.  The other
ramdisks `osprds` are arbitrary at every step. -/
inductive Step (i : Nat) : Sys → Sys → Prop where
  | ioctl_ret (s : Sys) (osprds : Nat → osprd_info) (cur : task) (filp : file) (cmd : Cmd)
      (arg : Nat) (r : Int) (d2 : osprd_info) (f2 : file) :
      osprds i = s.d → callerOK i s cur filp →
      osprd_ioctl osprds i cur filp cmd arg = Outcome.ret r d2 f2 →
      Step i s { d := d2, blocked := s.blocked }
  | ioctl_acquireWait (s : Sys) (osprds : Nat → osprd_info) (cur : task) (filp : file)
      (cmd : Cmd) (arg : Nat) (t : Nat) (d2 : osprd_info) (f2 : file) :
      osprds i = s.d → callerOK i s cur filp →
      osprd_ioctl osprds i cur filp cmd arg = Outcome.acquireWait t d2 f2 →
      Step i s { d := d2, blocked := { pid := cur.pid, curTicket := t, filp := f2 } :: s.blocked }
  | ioctl_notifyWait (s : Sys) (osprds : Nat → osprd_info) (cur : task) (filp : file)
      (cmd : Cmd) (arg : Nat) (sec : Nat) (d2 : osprd_info) (f2 : file) :
      osprds i = s.d → callerOK i s cur filp →
      osprd_ioctl osprds i cur filp cmd arg = Outcome.notifyWait sec d2 f2 →
      Step i s { d := d2, blocked := s.blocked }
  | granted (s : Sys) (w : Waiter) (files : List file) (r : Int) (d2 : osprd_info) (f2 : file) :
      w ∈ s.blocked → acquire_pred w.filp.f_mode_write w.curTicket s.d = true →
      acquire_granted { pid := w.pid, files := files } w.filp s.d = Outcome.ret r d2 f2 →
      Step i s { d := d2, blocked := s.blocked.erase w }
  | interrupted (s : Sys) (w : Waiter) (r : Int) (d2 : osprd_info) (f2 : file) :
      w ∈ s.blocked →
      acquire_interrupted w.filp w.curTicket s.d = Outcome.ret r d2 f2 →
      Step i s { d := d2, blocked := s.blocked.erase w }
  | close (s : Sys) (osprds : Nat → osprd_info) (cur : task) (filp : file) (r : Int)
      (d2 : osprd_info) (f2 : file) :
      osprds i = s.d → (∀ w ∈ s.blocked, w.pid ≠ cur.pid) → file2osprd filp = some i →
      osprd_close_last osprds cur (some filp) = (r, some (d2, f2)) →
      Step i s { d := d2, blocked := s.blocked }
  | write (s : Sys) (cur : task) (d2 : osprd_info) :
      osprd_process_request_write cur s.d = some d2 →
      Step i s { d := d2, blocked := s.blocked }

/-- The states of ramdisk `i` reached from `osprd_setup` with nobody asleep. -/
inductive Reachable (i : Nat) : Sys → Prop where
  | setup : Reachable i { d := osprd_setup, blocked := [] }
  | step (s t : Sys) : Reachable i s → Step i s t → Reachable i t

/-- The pids recorded in a pid list, head first. -/
def holders (l : Option pidList) : List Nat :=
  match l with
  | none => []
  | some pl => pl.head.map (fun q => q.info)

/-- The state an `Outcome` leaves the ramdisk in. -/
def Outcome.dev : Outcome → osprd_info
  | Outcome.ret _ d _ => d
  | Outcome.acquireWait _ d _ => d
  | Outcome.notifyWait _ d _ => d

/-- The file as an `Outcome` leaves it. -/
def Outcome.file : Outcome → file
  | Outcome.ret _ _ f => f
  | Outcome.acquireWait _ _ f => f
  | Outcome.notifyWait _ _ f => f

/-- The value returned, when the call returned. -/
def Outcome.retval : Outcome → Option Int
  | Outcome.ret r _ _ => some r
  | Outcome.acquireWait _ _ _ => none
  | Outcome.notifyWait _ _ _ => none

/-- What `checkForOtherLocks` tests on one file: `current` is in the write or
read list of the ramdisk behind it. -/
def scanHit (osprds : Nat → osprd_info) (i : Nat) (pid : Nat) (d : osprd_info)
    (f : file) : Bool :=
  match file2osprd f with
  | none => false
  | some e =>
    (isInPidList (if e = i then d else osprds e).writeProcs pid).isSome ||
      (isInPidList (if e = i then d else osprds e).readProcs pid).isSome

/-- A table of ramdisks whose entry 0 is `d`; the others are as set up. -/
def world (d : osprd_info) : Nat → osprd_info :=
  fun j => if j = 0 then d else osprd_setup

/-- A file on ramdisk 0 opened for reading (`w = false`) or writing, with the
given `f_flags`. -/
def fileOn0 (w : Bool) (flags : Nat) : file :=
  { osprd := some 0, f_mode_write := w, f_flags := flags }

/-- A task whose only open file is `f`. -/
def taskOf (pid : Nat) (f : file) : task := { pid := pid, files := [f] }

/-- Ramdisk 0 after task 1 took the read lock with OSPRDIOCTRYACQUIRE. -/
def readHeldDev : osprd_info :=
  { osprd_setup with
    ticket_head := 1, ticket_tail := 1,
    readProcs := some { head := [newProc 1 0 0], size := 1 } }

/-- Ramdisk 0 after task 1, holding the read lock, called OSPRDIOCTRYACQUIRE a
second time. -/
def staleFlagDev : osprd_info := { readHeldDev with isHoldingOtherLocks := 1 }

/-- Ramdisk 0 after task 1 took the write lock with OSPRDIOCTRYACQUIRE. -/
def writeHeldDev : osprd_info :=
  { osprd_setup with
    ticket_head := 1, ticket_tail := 1,
    writeProcs := some { head := [newProc 1 0 0], size := 1 } }

/-- Ramdisk 0 with task 1 holding a lock taken by OSPRDIOCTRYACQUIRE and task 2
asleep in OSPRDIOCACQUIRE for the write lock with ticket 1. -/
def queuedSys (d : osprd_info) : Sys :=
  { d := { d with ticket_head := 2 },
    blocked := [{ pid := 2, curTicket := 1, filp := fileOn0 true 0 }] }

/-- Ramdisk 0 after task 1 called OSPRDIOCNOTIFY twice and task 2 once. -/
def notifDev : osprd_info :=
  { osprd_setup with
    notifProcs := some { head := [newProc 2 1 0, newProc 1 1 0, newProc 1 1 0], size := 3 } }

/-- Representation invariant of a holder list: a non-NULL list has at least one
node and a `size` equal to the number of nodes; no pid occurs twice; every pid
is a `pid_t`. -/
def WFpl (l : Option pidList) : Prop :=
  (∀ pl, l = some pl → pl.head ≠ [] ∧ pl.size = pl.head.length) ∧
  (holders l).Nodup ∧ ∀ x ∈ holders l, x < PID_LIMIT

/-- The guarded removal `if (isInPidList(l, p)) removeFromPidList(&l, p);`. -/
def dropPid (l : Option pidList) (p : Nat) : Option pidList :=
  if (isInPidList l p).isSome then removeFromPidList l p else l

/-- The value of `isHoldingOtherLocks` after the deadlock scan run by `cur` on
ramdisk `i` in state `d`. -/
def scannedFlag (osprds : Nat → osprd_info) (i : Nat) (cur : task) (d : osprd_info) : Int :=
  if cur.files.any (scanHit osprds i cur.pid d) = true then 1 else d.isHoldingOtherLocks

/-- The test of OSPRDIOCTRYACQUIRE, line 721, after the scan. -/
def tryCond (osprds : Nat → osprd_info) (i : Nat) (cur : task) (filp : file) : Prop :=
  (osprds i).writeProcs = none ∧ scannedFlag osprds i cur (osprds i) = 0 ∧
    (filp.f_mode_write = false ∨ (osprds i).readProcs = none)

/-- The invariant of the reachable states. -/
def Inv (s : Sys) : Prop :=
  (s.d.readProcs = none ∨ s.d.writeProcs = none) ∧
  (holders s.d.writeProcs).length ≤ 1 ∧
  WFpl s.d.readProcs ∧ WFpl s.d.writeProcs ∧
  (s.blocked.map (fun w => w.pid)).Nodup ∧
  ∀ w ∈ s.blocked, w.pid < PID_LIMIT ∧ w.pid ∉ holders s.d.readProcs ∧
    w.pid ∉ holders s.d.writeProcs

/-- The condition of the `wait_event_interruptible` of OSPRDIOCNOTIFY, lines 506
to 507 and 518 to 519, on the record `newProc` the call registered:
`newProc->reqNotif == 0 && newProc->sectors[sector] == 1`.  `none` stands for a
read of `sectors[sector]` outside the 32 entries. -/
def notify_pred (p : process) (sector : Nat) : Option Bool :=
  if p.reqNotif = 0 then
    match p.sectors[sector]? with
    | some v => some (decide (v = 1))
    | none => none
  else some false

/-- The lookup of lines 378 to 380: the record of `current` in `writeProcs`, or
else in `writeNlkProcs`. -/
def writerRecord (d : osprd_info) (cur : task) : Option process :=
  match isInPidList d.writeProcs cur.pid with
  | some q => some q
  | none => isInPidList d.writeNlkProcs cur.pid

/-- The two assignments of lines 382 and 385 on one record of `notifProcs`. -/
def markWritten (sect : Nat) (r : process) : process :=
  { r with reqNotif := 0, sectors := r.sectors.set sect 1 }

/-- The write notification run for the writers `ws` one after the other. -/
def processWrites : List task → osprd_info → Option osprd_info
  | [], d => some d
  | w :: ws, d =>
    match osprd_process_request_write w d with
    | some d2 => processWrites ws d2
    | none => none

/-- The recorded target sector of writer `w` in state `d` (0 without a record). -/
def writerSect (d : osprd_info) (w : task) : Nat :=
  match writerRecord d w with
  | some q => q.sect
  | none => 0

/-- The table `osprds` with ramdisk `i` in state `d`. -/
def setDev (osprds : Nat → osprd_info) (i : Nat) (d : osprd_info) : Nat → osprd_info :=
  fun j => if j = i then d else osprds j

/-- The caller is in no reader or writer list of a ramdisk other than `i` that
one of its open files is on. -/
def noLocksElsewhere (osprds : Nat → osprd_info) (i : Nat) (cur : task) : Prop :=
  ∀ f ∈ cur.files, ∀ e, file2osprd f = some e → e ≠ i →
    cur.pid ∉ holders (osprds e).readProcs ∧ cur.pid ∉ holders (osprds e).writeProcs

/-- OSPRDIOCRELEASE called on ramdisk `i` by each of `rel` in turn. -/
def releaseAll (osprds : Nat → osprd_info) (i : Nat) :
    List (task × file) → osprd_info → osprd_info
  | [], d => d
  | c :: rest, d =>
    releaseAll osprds i rest
      (osprd_ioctl (setDev osprds i d) i c.1 c.2 Cmd.OSPRDIOCRELEASE 0).dev

/-- The states of ramdisk `i` reached from `osprd_setup`, with the number of
tickets handed out on the way: the steps that change `ticket_head`. -/
inductive ReachableN (i : Nat) : Nat → Sys → Prop where
  | setup : ReachableN i 0 { d := osprd_setup, blocked := [] }
  | step (n : Nat) (s t : Sys) : ReachableN i n s → Step i s t →
      ReachableN i (if t.d.ticket_head = s.d.ticket_head then n else n + 1) t

/-- The tickets stored in a ticket list, head first. -/
def tickets (l : Option ticketList) : List Nat :=
  match l with
  | none => []
  | some tl => tl.head

/-- `O_SYNC` of the i386 kernel, set on every file by `osprd_open`. -/
def O_SYNC : Nat := 4096

/-- Ramdisk 0 after task 1 registered with OSPRDIOCNOTIFY for sector 0, task 2
called OSPRDIOCSECTOR with offset 0 and a write of task 2 was processed. -/
def notifiedDev : osprd_info :=
  { osprd_setup with
    notifProcs := some { head := [markWritten 0 (newProc 1 1 0)], size := 1 },
    writeNlkProcs := some { head := [newProc 2 0 0], size := 1 } }

/-- A ramdisk whose `ticket_tail` is the last value of `unsigned` and whose
`ticket_head` has wrapped to 0. -/
def wrapDev : osprd_info :=
  { osprd_setup with ticket_head := 0, ticket_tail := 4294967295 }

/-- The ticket invariant of the reachable states, `n` tickets having been handed
out: `ticket_head` is `n`, `ticket_tail` has not passed it, and every ticket in
`exitedTickets` or held by a sleeping task was handed out. -/
def TicketInv (n : Nat) (s : Sys) : Prop :=
  s.d.ticket_head = n ∧ s.d.ticket_tail ≤ n ∧
  (∀ x ∈ tickets s.d.exitedTickets, x < n) ∧ ∀ w ∈ s.blocked, w.curTicket < n

/-- A ramdisk with nobody holding or waiting after `k` tickets were handed out
and served. -/
def tickDev (k : Nat) : osprd_info :=
  { osprd_setup with ticket_head := k, ticket_tail := k }

/-- The task asleep on `wrapDev`: pid 1 with the last ticket of `unsigned`, on a
file opened for reading. -/
def wrapWaiter : Waiter :=
  { pid := 1, curTicket := 4294967295, filp := fileOn0 false O_SYNC }

/-- A task asleep in OSPRDIOCACQUIRE with ticket 0 on a file opened for reading. -/
def firstWaiter : Waiter :=
  { pid := 1, curTicket := 0, filp := fileOn0 false O_SYNC }

/-- A freshly set-up ramdisk after one ticket was handed out. -/
def issuedDev : osprd_info := { osprd_setup with ticket_head := 1 }

/-- The list `readProcs` points to when the tasks `pids` took the read lock one
after the other, the last one first. -/
def readersList : List Nat → Option pidList
  | [] => none
  | p :: ps => some { head := (p :: ps).map (fun x => newProc x 0 0), size := (p :: ps).length }

/-- A ramdisk on which the tasks `pids` took the read lock one after the other
from `osprd_setup`, each with OSPRDIOCACQUIRE. -/
def readersDev (pids : List Nat) : osprd_info :=
  { osprd_setup with
    ticket_head := pids.length, ticket_tail := pids.length, readProcs := readersList pids }

/-- Ramdisk `i` written by its holder `pid` alone after `k` tickets. -/
def writerDev (k pid : Nat) : osprd_info :=
  { osprd_setup with
    ticket_head := k, ticket_tail := k,
    writeProcs := some { head := [newProc pid 0 0], size := 1 } }

/-- A file on ramdisk 0 as `osprd_open` leaves it, opened for reading. -/
def readFile : file := fileOn0 false O_SYNC

/-- A file on ramdisk 0 as `osprd_open` leaves it, opened for writing. -/
def writeFile : file := fileOn0 true O_SYNC

/-- A task with pid `p` whose only open file is `readFile`. -/
def readerTask (p : Nat) : task := taskOf p readFile

/-- Task 4, whose only open file is `writeFile`. -/
def writerTask : task := taskOf 4 writeFile

/-- A `size` field of a ticket list that the decrements of `removeFromTicketList`
cannot bring to 0 while nodes are left: `size` is an `unsigned` that is 0 (as
`addToTicketList` leaves it, the decrement then wraps) or at least the number of
nodes. -/
def sizeSafe (l : Option ticketList) : Prop :=
  match l with
  | none => True
  | some tl => tl.size < UINT ∧ (tl.size = 0 ∨ tl.head.length ≤ tl.size)

/-- A ramdisk whose `exitedTickets` holds the tickets 5 and 9 with `size` 1, the
ticket 4 being served. -/
def staleSizeDev : osprd_info :=
  { osprd_setup with
    ticket_head := 10, ticket_tail := 4,
    exitedTickets := some { head := [5, 9], size := 1 } }

/-- A ramdisk whose `exitedTickets` holds the tickets 6 and 5 as two calls of
`addToTicketList` leave them, the ticket 4 being served. -/
def skipDev : osprd_info :=
  { osprd_setup with
    ticket_head := 7, ticket_tail := 4,
    exitedTickets := some { head := [6, 5], size := 0 } }

/-- Ramdisk 0 after task 1 called OSPRDIOCNOTIFY once. -/
def oneNotifDev : osprd_info :=
  { osprd_setup with notifProcs := some { head := [newProc 1 1 0], size := 1 } }

/-- Ramdisk 0 after task 1 called OSPRDIOCNOTIFY and task 2 called OSPRDIOCSECTOR
with the byte offset 16384. -/
def farSectorDev : osprd_info :=
  { oneNotifDev with writeNlkProcs := some { head := [newProc 2 0 32], size := 1 } }

/-- Ramdisk 0 with task 1 holding the write lock, task 2 asleep in
OSPRDIOCACQUIRE with ticket 1, and ticket 2 given up by an interrupted wait. -/
def exitedSys : Sys :=
  { d := { writeHeldDev with
           ticket_head := 3,
           exitedTickets := some { head := [2], size := 0 } },
    blocked := [{ pid := 2, curTicket := 1, filp := fileOn0 true 0 }] }

/-- How far the `unsigned` field `size` of a ticket list has gone below 0: the
list is allocated with `size` 0, `addToTicketList` leaves `size` alone and every
unlinked node decrements it, so after `k` removals `size` is 2^32 - k. -/
def sizeDeficit (l : Option ticketList) : Nat :=
  match l with
  | none => 0
  | some tl => if tl.size = 0 then 0 else UINT - tl.size

/-- The invariant of `exitedTickets` in the reachable states, `n` tickets having
been handed out: no two sleeping tasks share a ticket, no sleeping task has its
ticket in `exitedTickets`, `exitedTickets` holds no ticket twice, and the
removals recorded in `size`, the nodes and the sleeping tasks together are at
most `n`. -/
def ExitedInv (n : Nat) (s : Sys) : Prop :=
  (s.blocked.map (fun w => w.curTicket)).Nodup ∧
  (∀ w ∈ s.blocked, w.curTicket ∉ tickets s.d.exitedTickets) ∧
  (tickets s.d.exitedTickets).Nodup ∧
  (∀ tl, s.d.exitedTickets = some tl → tl.size < UINT) ∧
  sizeDeficit s.d.exitedTickets + ticketNodes s.d.exitedTickets + s.blocked.length ≤ n

/-- A ramdisk whose `exitedTickets` holds the tickets 5 and 6 with `size` 1, the
ticket 4 being served. -/
def restDev : osprd_info :=
  { osprd_setup with
    ticket_head := 7, ticket_tail := 4,
    exitedTickets := some { head := [5, 6], size := 1 } }

/-- Ramdisk 0 after task 1 called OSPRDIOCNOTIFY once, task 2 called
OSPRDIOCSECTOR with byte offset 1536 (sector 3) and task 3 called OSPRDIOCSECTOR
with byte offset 2560 (sector 5). -/
def targetsDev : osprd_info :=
  { oneNotifDev with
    writeNlkProcs := some { head := [newProc 3 0 5, newProc 2 0 3], size := 2 } }

/-- Ramdisk 0 in state `targetsDev` after task 1 called OSPRDIOCNOTIFY again. -/
def targetsWaitDev : osprd_info :=
  { targetsDev with
    notifProcs := some { head := [newProc 1 1 0, newProc 1 1 0], size := 2 } }

/-! ## The ticket loop and the deadlock scan -/

theorem incrementTicketLoop_frame (n : Nat) (d : osprd_info) :
    (incrementTicketLoop n d).readProcs = d.readProcs ∧
    (incrementTicketLoop n d).writeProcs = d.writeProcs ∧
    (incrementTicketLoop n d).ticket_head = d.ticket_head ∧
    (incrementTicketLoop n d).isHoldingOtherLocks = d.isHoldingOtherLocks ∧
    (incrementTicketLoop n d).notifProcs = d.notifProcs ∧
    (incrementTicketLoop n d).writeNlkProcs = d.writeNlkProcs := by
  induction n generalizing d with
  | zero => simp [incrementTicketLoop]
  | succ k ih =>
    unfold incrementTicketLoop
    split
    · simp
    · have h := ih { d with
        exitedTickets := removeFromTicketList d.exitedTickets d.ticket_tail,
        ticket_tail := uinc d.ticket_tail }
      simpa using h

theorem incrementTicket_frame (d : osprd_info) :
    (incrementTicket d).readProcs = d.readProcs ∧
    (incrementTicket d).writeProcs = d.writeProcs ∧
    (incrementTicket d).ticket_head = d.ticket_head ∧
    (incrementTicket d).isHoldingOtherLocks = d.isHoldingOtherLocks ∧
    (incrementTicket d).notifProcs = d.notifProcs ∧
    (incrementTicket d).writeNlkProcs = d.writeNlkProcs := by
  have h := incrementTicketLoop_frame (ticketNodes d.exitedTickets)
    { d with ticket_tail := uinc d.ticket_tail }
  simpa [incrementTicket] using h

theorem scanHit_flag (osprds : Nat → osprd_info) (i pid : Nat) (d : osprd_info) (v : Int)
    (f : file) :
    scanHit osprds i pid { d with isHoldingOtherLocks := v } f = scanHit osprds i pid d f := by
  unfold scanHit
  cases file2osprd f with
  | none => rfl
  | some e => by_cases h : e = i <;> simp [h]

theorem checkForOtherLocks_eq (osprds : Nat → osprd_info) (i : Nat) (cur : task) (f : file)
    (d : osprd_info) :
    checkForOtherLocks osprds i cur f d =
      { d with isHoldingOtherLocks :=
          if scanHit osprds i cur.pid d f = true then 1 else d.isHoldingOtherLocks } := by
  unfold checkForOtherLocks scanHit
  cases file2osprd f with
  | none => simp
  | some e =>
    simp only []
    split <;> split <;> simp_all

theorem foldl_checkForOtherLocks (osprds : Nat → osprd_info) (i : Nat) (cur : task)
    (fs : List file) (d : osprd_info) :
    fs.foldl (fun data filp => checkForOtherLocks osprds i cur filp data) d =
      { d with isHoldingOtherLocks :=
          if fs.any (scanHit osprds i cur.pid d) = true then 1 else d.isHoldingOtherLocks } := by
  induction fs generalizing d with
  | nil => simp
  | cons f rest ih =>
    rw [List.foldl_cons, ih, checkForOtherLocks_eq]
    have hs : scanHit osprds i cur.pid
        { d with isHoldingOtherLocks :=
            if scanHit osprds i cur.pid d f = true then 1 else d.isHoldingOtherLocks } =
        scanHit osprds i cur.pid d := by
      funext g
      exact scanHit_flag osprds i cur.pid d _ g
    rw [hs]
    by_cases h1 : scanHit osprds i cur.pid d f = true
    · simp [h1]
    · simp [h1]

/-- The deadlock scan only writes `isHoldingOtherLocks`: it sets it to 1 when
some open file of `current` is on a ramdisk that records `current` as a reader
or writer, and leaves it as it was otherwise. -/
theorem for_each_open_file_eq (osprds : Nat → osprd_info) (i : Nat) (cur : task)
    (d : osprd_info) :
    for_each_open_file osprds i cur d =
      { d with isHoldingOtherLocks :=
          if cur.files.any (scanHit osprds i cur.pid d) = true then 1
          else d.isHoldingOtherLocks } :=
  foldl_checkForOtherLocks osprds i cur cur.files d

/-! ## Acquire: the deadlock returns -/

/-- C3. If the caller is recorded as a reader or writer of the target ramdisk,
or of any ramdisk it has an open file on, OSPRDIOCACQUIRE (read or write mode)
returns -EDEADLK without reaching its wait, and leaves `readProcs`, `writeProcs`
and the file of the target ramdisk as they were. -/
theorem acquire_deadlock_when_holding (osprds : Nat → osprd_info) (i : Nat) (cur : task)
    (filp : file) (arg : Nat)
    (h : (isInPidList (osprds i).readProcs cur.pid).isSome = true ∨
         (isInPidList (osprds i).writeProcs cur.pid).isSome = true ∨
         ∃ f ∈ cur.files, ∃ e, file2osprd f = some e ∧
           ((isInPidList (osprds e).readProcs cur.pid).isSome = true ∨
            (isInPidList (osprds e).writeProcs cur.pid).isSome = true)) :
    ∃ d2, osprd_ioctl osprds i cur filp Cmd.OSPRDIOCACQUIRE arg =
        Outcome.ret (-EDEADLK) d2 filp ∧
      d2.readProcs = (osprds i).readProcs ∧ d2.writeProcs = (osprds i).writeProcs := by
  by_cases hself : (isInPidList (osprds i).readProcs cur.pid).isSome = true ∨
      (isInPidList (osprds i).writeProcs cur.pid).isSome = true
  · have hself2 : (isInPidList (osprds i).writeProcs cur.pid).isSome = true ∨
        (isInPidList (osprds i).readProcs cur.pid).isSome = true := hself.symm
    refine ⟨incrementTicket
      { osprds i with
        ticket_head := uinc (osprds i).ticket_head,
        isHoldingOtherLocks := 0 }, ?_, ?_, ?_⟩
    · unfold osprd_ioctl
      cases hw : filp.f_mode_write <;> simp [hself, hself2]
    · exact (incrementTicket_frame _).1
    · exact (incrementTicket_frame _).2.1
  · have hr : (isInPidList (osprds i).readProcs cur.pid).isSome = false := by
      cases hx : (isInPidList (osprds i).readProcs cur.pid).isSome
      · rfl
      · exact absurd (Or.inl hx) hself
    have hwr : (isInPidList (osprds i).writeProcs cur.pid).isSome = false := by
      cases hx : (isInPidList (osprds i).writeProcs cur.pid).isSome
      · rfl
      · exact absurd (Or.inr hx) hself
    have hother : ∃ f ∈ cur.files, ∃ e, file2osprd f = some e ∧
        ((isInPidList (osprds e).readProcs cur.pid).isSome = true ∨
         (isInPidList (osprds e).writeProcs cur.pid).isSome = true) := by
      rcases h with h | h | h
      · exact absurd (Or.inl h) hself
      · exact absurd (Or.inr h) hself
      · exact h
    obtain ⟨f, hf, e, he, hhold⟩ := hother
    have hne : e ≠ i := by
      intro hei
      subst hei
      rcases hhold with h1 | h1
      · rw [hr] at h1; cases h1
      · rw [hwr] at h1; cases h1
    have hany : cur.files.any (scanHit osprds i cur.pid
        { osprds i with ticket_head := uinc (osprds i).ticket_head }) = true := by
      rw [List.any_eq_true]
      refine ⟨f, hf, ?_⟩
      unfold scanHit
      rw [he]
      simp only [hne, if_false]
      rcases hhold with h1 | h1
      · simp [h1]
      · simp [h1]
    refine ⟨incrementTicket
      { osprds i with
        ticket_head := uinc (osprds i).ticket_head,
        isHoldingOtherLocks := 0 }, ?_, ?_, ?_⟩
    · unfold osprd_ioctl
      cases hw : filp.f_mode_write <;>
        simp [hr, hwr, for_each_open_file_eq, hany]
    · exact (incrementTicket_frame _).1
    · exact (incrementTicket_frame _).2.1

/-! ## Concrete states of ramdisk 0 -/

theorem callerOK_fresh (d : osprd_info) (pid : Nat) (f : file) (hp : pid < PID_LIMIT)
    (hf : file2osprd f = some 0) : callerOK 0 { d := d, blocked := [] } (taskOf pid f) f :=
  ⟨hp, by simp, by simp [taskOf], hf⟩

theorem readHeld_reachable : Reachable 0 { d := readHeldDev, blocked := [] } :=
  Reachable.step _ _ Reachable.setup
    (Step.ioctl_ret { d := osprd_setup, blocked := [] } (world osprd_setup)
      (taskOf 1 (fileOn0 false 0)) (fileOn0 false 0) Cmd.OSPRDIOCTRYACQUIRE 0 0 readHeldDev
      (fileOn0 false F_OSPRD_LOCKED) rfl (callerOK_fresh _ _ _ (by decide) rfl) (by decide))

theorem staleFlag_reachable : Reachable 0 { d := staleFlagDev, blocked := [] } :=
  Reachable.step _ _ readHeld_reachable
    (Step.ioctl_ret { d := readHeldDev, blocked := [] } (world readHeldDev)
      (taskOf 1 (fileOn0 false F_OSPRD_LOCKED)) (fileOn0 false F_OSPRD_LOCKED)
      Cmd.OSPRDIOCTRYACQUIRE 0 (-EBUSY) staleFlagDev
      (fileOn0 false F_OSPRD_LOCKED) rfl (callerOK_fresh _ _ _ (by decide) rfl) (by decide))

theorem writeHeld_reachable : Reachable 0 { d := writeHeldDev, blocked := [] } :=
  Reachable.step _ _ Reachable.setup
    (Step.ioctl_ret { d := osprd_setup, blocked := [] } (world osprd_setup)
      (taskOf 1 (fileOn0 true 0)) (fileOn0 true 0) Cmd.OSPRDIOCTRYACQUIRE 0 0 writeHeldDev
      (fileOn0 true F_OSPRD_LOCKED) rfl (callerOK_fresh _ _ _ (by decide) rfl) (by decide))

theorem queued_write_reachable : Reachable 0 (queuedSys writeHeldDev) :=
  Reachable.step _ _ writeHeld_reachable
    (Step.ioctl_acquireWait { d := writeHeldDev, blocked := [] } (world writeHeldDev)
      (taskOf 2 (fileOn0 true 0)) (fileOn0 true 0) Cmd.OSPRDIOCACQUIRE 0 1
      (queuedSys writeHeldDev).d (fileOn0 true 0) rfl
      (callerOK_fresh _ _ _ (by decide) rfl) (by decide))

theorem queued_read_reachable : Reachable 0 (queuedSys readHeldDev) :=
  Reachable.step _ _ readHeld_reachable
    (Step.ioctl_acquireWait { d := readHeldDev, blocked := [] } (world readHeldDev)
      (taskOf 2 (fileOn0 true 0)) (fileOn0 true 0) Cmd.OSPRDIOCACQUIRE 0 1
      (queuedSys readHeldDev).d (fileOn0 true 0) rfl
      (callerOK_fresh _ _ _ (by decide) rfl) (by decide))

theorem notif_reachable : Reachable 0 { d := notifDev, blocked := [] } :=
  Reachable.step _ _
    (Reachable.step _ _
      (Reachable.step _ _ Reachable.setup
        (Step.ioctl_notifyWait { d := osprd_setup, blocked := [] } (world osprd_setup)
          (taskOf 1 (fileOn0 false 0)) (fileOn0 false 0) Cmd.OSPRDIOCNOTIFY 0 0
          { osprd_setup with notifProcs := some { head := [newProc 1 1 0], size := 1 } }
          (fileOn0 false 0) rfl (callerOK_fresh _ _ _ (by decide) rfl) (by decide)))
      (Step.ioctl_notifyWait _
        (world { osprd_setup with notifProcs := some { head := [newProc 1 1 0], size := 1 } })
        (taskOf 1 (fileOn0 false 0)) (fileOn0 false 0) Cmd.OSPRDIOCNOTIFY 0 0
        { osprd_setup with
          notifProcs := some { head := [newProc 1 1 0, newProc 1 1 0], size := 2 } }
        (fileOn0 false 0) rfl (callerOK_fresh _ _ _ (by decide) rfl) (by decide)))
    (Step.ioctl_notifyWait _
      (world { osprd_setup with
        notifProcs := some { head := [newProc 1 1 0, newProc 1 1 0], size := 2 } })
      (taskOf 2 (fileOn0 false 0)) (fileOn0 false 0) Cmd.OSPRDIOCNOTIFY 0 0 notifDev
      (fileOn0 false 0) rfl (callerOK_fresh _ _ _ (by decide) rfl) (by decide))

/-- C3, at a concrete input: task 1 holds the read lock of ramdisk 0 and calls
OSPRDIOCACQUIRE on it again. -/
theorem acquire_deadlock_when_holding_witness :
    ∃ d2, osprd_ioctl (world readHeldDev) 0 (taskOf 1 (fileOn0 false F_OSPRD_LOCKED))
        (fileOn0 false F_OSPRD_LOCKED) Cmd.OSPRDIOCACQUIRE 0 =
        Outcome.ret (-EDEADLK) d2 (fileOn0 false F_OSPRD_LOCKED) ∧
      d2.readProcs = (world readHeldDev 0).readProcs ∧
      d2.writeProcs = (world readHeldDev 0).writeProcs :=
  acquire_deadlock_when_holding (world readHeldDev) 0 (taskOf 1 (fileOn0 false F_OSPRD_LOCKED))
    (fileOn0 false F_OSPRD_LOCKED) 0 (Or.inl (by decide))

/-! ## Where the code leaves the ticket order and the deadlock rule -/

/-- C2 fails on the code. Task 1 holds the write lock of ramdisk 0 and task 2
sleeps in OSPRDIOCACQUIRE with ticket 1. When task 1 calls OSPRDIOCACQUIRE again
it gets -EDEADLK and `incrementTicket` moves `ticket_tail` from 1 to 2, past the
ticket task 2 is still waiting with: the state with ticket 1 asleep and
`ticket_tail = 2` is reachable. The same happens when a read lock is held
and task 3 takes a second read lock with OSPRDIOCTRYACQUIRE. -/
theorem ticket_tail_passes_waiting_ticket :
    Reachable 0 (queuedSys writeHeldDev) ∧
    (queuedSys writeHeldDev).blocked = [{ pid := 2, curTicket := 1, filp := fileOn0 true 0 }] ∧
    osprd_ioctl (world (queuedSys writeHeldDev).d) 0 (taskOf 1 (fileOn0 true F_OSPRD_LOCKED))
        (fileOn0 true F_OSPRD_LOCKED) Cmd.OSPRDIOCACQUIRE 0 =
      Outcome.ret (-EDEADLK) { writeHeldDev with ticket_head := 3, ticket_tail := 2 }
        (fileOn0 true F_OSPRD_LOCKED) ∧
    Reachable 0 (queuedSys readHeldDev) ∧
    (osprd_ioctl (world (queuedSys readHeldDev).d) 0 (taskOf 3 (fileOn0 false 0))
        (fileOn0 false 0) Cmd.OSPRDIOCTRYACQUIRE 0).retval = some 0 ∧
    (osprd_ioctl (world (queuedSys readHeldDev).d) 0 (taskOf 3 (fileOn0 false 0))
        (fileOn0 false 0) Cmd.OSPRDIOCTRYACQUIRE 0).dev.ticket_tail = 2 ∧
    Reachable 0
      { d := { writeHeldDev with ticket_head := 3, ticket_tail := 2 },
        blocked := [{ pid := 2, curTicket := 1, filp := fileOn0 true 0 }] } :=
  ⟨queued_write_reachable, rfl, by decide, queued_read_reachable, by decide, by decide,
    Reachable.step _ _ queued_write_reachable
      (Step.ioctl_ret (queuedSys writeHeldDev) (world (queuedSys writeHeldDev).d)
        (taskOf 1 (fileOn0 true F_OSPRD_LOCKED)) (fileOn0 true F_OSPRD_LOCKED)
        Cmd.OSPRDIOCACQUIRE 0 (-EDEADLK)
        { writeHeldDev with ticket_head := 3, ticket_tail := 2 }
        (fileOn0 true F_OSPRD_LOCKED) rfl
        ⟨by decide, by decide, by simp [taskOf], rfl⟩ (by decide))⟩

/-- C4 fails on the code. After task 1, holding the read lock of ramdisk 0, had
OSPRDIOCTRYACQUIRE refused, `isHoldingOtherLocks` is left at 1. Task 2 is in no
reader or writer list of any ramdisk, and its OSPRDIOCACQUIRE on ramdisk 0
returns -EDEADLK. -/
theorem acquire_deadlock_from_stale_flag :
    Reachable 0 { d := staleFlagDev, blocked := [] } ∧
    (∀ e, isInPidList (world staleFlagDev e).readProcs 2 = none ∧
      isInPidList (world staleFlagDev e).writeProcs 2 = none) ∧
    osprd_ioctl (world staleFlagDev) 0 (taskOf 2 (fileOn0 false 0)) (fileOn0 false 0)
        Cmd.OSPRDIOCACQUIRE 0 =
      Outcome.ret (-EDEADLK) { readHeldDev with ticket_head := 2, ticket_tail := 2 }
        (fileOn0 false 0) := by
  refine ⟨staleFlag_reachable, ?_, by decide⟩
  intro e
  by_cases he : e = 0
  · subst he; decide
  · simp [world, he, osprd_setup, isInPidList]

/-- C5 fails on the code. In the same state no writer holds ramdisk 0, task 2
holds no lock on any ramdisk and asks for a read lock, yet its
OSPRDIOCTRYACQUIRE returns -EBUSY. -/
theorem tryacquire_busy_from_stale_flag :
    Reachable 0 { d := staleFlagDev, blocked := [] } ∧
    staleFlagDev.writeProcs = none ∧
    (∀ e, isInPidList (world staleFlagDev e).readProcs 2 = none ∧
      isInPidList (world staleFlagDev e).writeProcs 2 = none) ∧
    osprd_ioctl (world staleFlagDev) 0 (taskOf 2 (fileOn0 false 0)) (fileOn0 false 0)
        Cmd.OSPRDIOCTRYACQUIRE 0 =
      Outcome.ret (-EBUSY) staleFlagDev (fileOn0 false 0) := by
  refine ⟨staleFlag_reachable, rfl, ?_, by decide⟩
  intro e
  by_cases he : e = 0
  · subst he; decide
  · simp [world, he, osprd_setup, isInPidList]

/-- C6 fails on the code. Task 1 holds the read lock of ramdisk 0 and task 2 is
queued for the write lock with ticket 1. OSPRDIOCACQUIRE by task 3 in read mode
reaches its wait with ticket 2 and a false wait condition, but
OSPRDIOCTRYACQUIRE by task 3 in read mode returns 0 and takes the lock. -/
theorem tryacquire_ok_where_acquire_waits :
    Reachable 0 (queuedSys readHeldDev) ∧
    osprd_ioctl (world (queuedSys readHeldDev).d) 0 (taskOf 3 (fileOn0 false 0))
        (fileOn0 false 0) Cmd.OSPRDIOCACQUIRE 0 =
      Outcome.acquireWait 2 { readHeldDev with ticket_head := 3 } (fileOn0 false 0) ∧
    acquire_pred false 2 { readHeldDev with ticket_head := 3 } = false ∧
    (osprd_ioctl (world (queuedSys readHeldDev).d) 0 (taskOf 3 (fileOn0 false 0))
        (fileOn0 false 0) Cmd.OSPRDIOCTRYACQUIRE 0).retval = some 0 ∧
    holders (osprd_ioctl (world (queuedSys readHeldDev).d) 0 (taskOf 3 (fileOn0 false 0))
        (fileOn0 false 0) Cmd.OSPRDIOCTRYACQUIRE 0).dev.readProcs = [3, 1] :=
  ⟨queued_read_reachable, by decide, by decide, by decide, by decide⟩

/-! ## Release and close -/

/-- OSPRDIOCRELEASE returns 0 whatever the state and the caller. -/
theorem release_retval (osprds : Nat → osprd_info) (i : Nat) (cur : task) (filp : file)
    (arg : Nat) :
    (osprd_ioctl osprds i cur filp Cmd.OSPRDIOCRELEASE arg).retval = some 0 := by
  simp [osprd_ioctl, Outcome.retval]

/-- C7 fails on the code. On a freshly set-up ramdisk, OSPRDIOCRELEASE by task 1,
which is in neither `readProcs` nor `writeProcs`, returns 0 and not -EINVAL. -/
theorem release_without_lock_returns_zero :
    isInPidList osprd_setup.readProcs 1 = none ∧
    isInPidList osprd_setup.writeProcs 1 = none ∧
    osprd_ioctl (world osprd_setup) 0 (taskOf 1 (fileOn0 false 0)) (fileOn0 false 0)
        Cmd.OSPRDIOCRELEASE 0 = Outcome.ret 0 osprd_setup (fileOn0 false 0) ∧
    (osprd_ioctl (world osprd_setup) 0 (taskOf 1 (fileOn0 false 0)) (fileOn0 false 0)
        Cmd.OSPRDIOCRELEASE 0).retval ≠ some (-EINVAL) := by
  decide

/-- C9. On a file of ramdisk `i`, `osprd_close_last` returns 0 and leaves the
ramdisk (all of its fields) and the file flags exactly as OSPRDIOCRELEASE by
the same caller on the same file does, the removal of the caller from
`notifProcs` and `writeNlkProcs` included. -/
theorem close_last_eq_release (osprds : Nat → osprd_info) (i : Nat) (cur : task)
    (filp : file) (arg : Nat) (h : file2osprd filp = some i) :
    osprd_close_last osprds cur (some filp) =
      (0, some ((osprd_ioctl osprds i cur filp Cmd.OSPRDIOCRELEASE arg).dev,
                (osprd_ioctl osprds i cur filp Cmd.OSPRDIOCRELEASE arg).file)) ∧
    (osprd_ioctl osprds i cur filp Cmd.OSPRDIOCRELEASE arg).retval = some 0 := by
  constructor
  · simp only [osprd_close_last, h, osprd_ioctl, Outcome.dev, Outcome.file]
  · exact release_retval osprds i cur filp arg

/-- C9, at a concrete input: task 2 closes its file on ramdisk 0 while it is
registered in `notifProcs`. -/
theorem close_last_eq_release_witness :
    osprd_close_last (world notifDev) (taskOf 2 (fileOn0 false 0)) (some (fileOn0 false 0)) =
      (0, some ((osprd_ioctl (world notifDev) 0 (taskOf 2 (fileOn0 false 0)) (fileOn0 false 0)
                  Cmd.OSPRDIOCRELEASE 0).dev,
                (osprd_ioctl (world notifDev) 0 (taskOf 2 (fileOn0 false 0)) (fileOn0 false 0)
                  Cmd.OSPRDIOCRELEASE 0).file)) ∧
    (osprd_ioctl (world notifDev) 0 (taskOf 2 (fileOn0 false 0)) (fileOn0 false 0)
      Cmd.OSPRDIOCRELEASE 0).retval = some 0 :=
  close_last_eq_release (world notifDev) 0 (taskOf 2 (fileOn0 false 0)) (fileOn0 false 0) 0 rfl

/-- C10 fails on the code. Task 1 called OSPRDIOCNOTIFY twice and task 2 once, so
`notifProcs` holds the records of pids 2, 1, 1. `osprd_close_last` by task 1
unlinks one of its two records and returns: `isInPidList` still finds pid 1. -/
theorem close_leaves_notify_record :
    Reachable 0 { d := notifDev, blocked := [] } ∧
    osprd_close_last (world notifDev) (taskOf 1 (fileOn0 false 0)) (some (fileOn0 false 0)) =
      (0, some ({ osprd_setup with
          notifProcs := some { head := [newProc 2 1 0, newProc 1 1 0], size := 2 } },
        { fileOn0 false 0 with f_flags := 0 })) ∧
    isInPidList (some { head := [newProc 2 1 0, newProc 1 1 0], size := 2 }) 1 =
      some (newProc 1 1 0) :=
  ⟨notif_reachable, by decide, by decide⟩

/-! ## Holder lists -/

theorem isInPidList_isSome (l : Option pidList) (p : Nat) :
    (isInPidList l p).isSome = true ↔ p ∈ holders l := by
  cases l with
  | none => simp [isInPidList, holders]
  | some pl =>
    simp only [isInPidList, holders, List.find?_isSome, List.mem_map, decide_eq_true_eq]

theorem isInPidList_none (l : Option pidList) (p : Nat) :
    (isInPidList l p).isSome = false ↔ p ∉ holders l := by
  rw [← isInPidList_isSome]
  cases (isInPidList l p).isSome <;> simp

theorem udec_pos (x : Nat) (h0 : 0 < x) (h1 : x < UINT) : udec x = x - 1 := by
  unfold udec UINT at *
  omega

theorem uinc_lt (x : Nat) (h1 : x + 1 < UINT) : uinc x = x + 1 := by
  unfold uinc UINT at *
  omega

theorem one_lt_UINT : 1 < UINT := by decide

theorem PID_LIMIT_lt_UINT : PID_LIMIT + 1 < UINT := by decide

theorem unlinkNextPid_none (l : List process) (p : Nat)
    (h : p ∉ l.map (fun q => q.info)) : unlinkNextPid l p = none := by
  induction l with
  | nil => rfl
  | cons n rest ih =>
    simp only [List.map_cons, List.mem_cons, not_or] at h
    have hn : n.info ≠ p := fun e => h.1 e.symm
    simp [unlinkNextPid, hn, ih h.2]

theorem unlinkNextPid_some (l : List process) (p : Nat)
    (h : p ∈ l.map (fun q => q.info)) :
    ∃ r, unlinkNextPid l p = some r ∧
      r.map (fun q => q.info) = (l.map (fun q => q.info)).erase p ∧
      r.length + 1 = l.length := by
  induction l with
  | nil => simp at h
  | cons n rest ih =>
    by_cases hn : n.info = p
    · refine ⟨rest, by simp [unlinkNextPid, hn], ?_, by simp⟩
      simp [hn]
    · have h2 : p ∈ rest.map (fun q => q.info) := by
        simp only [List.map_cons, List.mem_cons] at h
        rcases h with h | h
        · exact absurd h.symm hn
        · exact h
      obtain ⟨r, hr, hmap, hlen⟩ := ih h2
      refine ⟨n :: r, by simp [unlinkNextPid, hn, hr], ?_, by simp [hlen]⟩
      simp only [List.map_cons, hmap]
      rw [List.erase_cons_tail]
      simpa using hn

theorem nodup_bounded_length (l : List Nat) (n : Nat) (hd : l.Nodup) (hb : ∀ x ∈ l, x < n) :
    l.length ≤ n := by
  have hsub : l ⊆ List.range n := fun x hx => List.mem_range.mpr (hb x hx)
  have := (List.subperm_of_subset hd hsub).length_le
  simpa using this

theorem WFpl_none : WFpl none := by
  refine ⟨?_, ?_, ?_⟩
  · intro pl h; cases h
  · simp [holders]
  · simp [holders]

theorem holders_eq_nil_of_WF (l : Option pidList) (h : WFpl l) (he : holders l = []) :
    l = none := by
  cases l with
  | none => rfl
  | some pl =>
    have := (h.1 pl rfl).1
    simp only [holders, List.map_eq_nil_iff] at he
    exact absurd he this

theorem addToPidList_WF (l : Option pidList) (q : process) (h : WFpl l)
    (hn : q.info ∉ holders l) (hb : q.info < PID_LIMIT) :
    WFpl (addToPidList l q) ∧ holders (addToPidList l q) = q.info :: holders l := by
  have hh : holders (addToPidList l q) = q.info :: holders l := by
    cases l <;> simp [addToPidList, holders]
  have hnd : (q.info :: holders l).Nodup := List.nodup_cons.mpr ⟨hn, h.2.1⟩
  have hbd : ∀ x ∈ q.info :: holders l, x < PID_LIMIT := by
    intro x hx
    rcases List.mem_cons.mp hx with hx | hx
    · rw [hx]; exact hb
    · exact h.2.2 x hx
  have hlen := nodup_bounded_length _ _ hnd hbd
  refine ⟨⟨?_, ?_, ?_⟩, hh⟩
  · intro pl hpl
    cases l with
    | none =>
      simp only [addToPidList, Option.some.injEq] at hpl
      subst hpl
      exact ⟨by simp, uinc_lt 0 one_lt_UINT⟩
    | some pl0 =>
      simp only [addToPidList, Option.some.injEq] at hpl
      subst hpl
      have h0 := (h.1 pl0 rfl).2
      simp only [holders, List.length_cons, List.length_map] at hlen
      refine ⟨by simp, ?_⟩
      simp only [List.length_cons]
      rw [h0]
      apply uinc_lt
      have := PID_LIMIT_lt_UINT
      omega
  · rw [hh]; exact hnd
  · rw [hh]; exact hbd

theorem removeFromPidList_WF (l : Option pidList) (p : Nat) (h : WFpl l)
    (hp : p ∈ holders l) :
    WFpl (removeFromPidList l p) ∧ holders (removeFromPidList l p) = (holders l).erase p := by
  have hlenb := nodup_bounded_length _ _ h.2.1 h.2.2
  have key : holders (removeFromPidList l p) = (holders l).erase p ∧
      ∀ pl, removeFromPidList l p = some pl → pl.head ≠ [] ∧ pl.size = pl.head.length := by
    cases l with
    | none => simp [holders] at hp
    | some pl =>
      obtain ⟨hne, hsz⟩ := h.1 pl rfl
      have hnd := h.2.1
      obtain ⟨hd, sz⟩ := pl
      simp only at hne hsz
      subst hsz
      simp only [holders, List.length_map] at hlenb hnd hp
      cases hd with
      | nil => exact absurd rfl hne
      | cons cur next =>
        simp only [List.map_cons, List.nodup_cons] at hnd
        simp only [List.length_cons] at hlenb
        by_cases hc : cur.info = p
        · have hnot : p ∉ next.map (fun q => q.info) := by rw [← hc]; exact hnd.1
          cases next with
          | nil =>
            have hdec : udec 1 = 0 := udec_pos 1 (by omega) one_lt_UINT
            simp [removeFromPidList, hc, holders, hdec]
          | cons n rest =>
            have hn : n.info ≠ p := by
              intro e; apply hnot; simp [e]
            have hrest : p ∉ rest.map (fun q => q.info) := by
              intro e; apply hnot; simp only [List.map_cons, List.mem_cons]; exact Or.inr e
            have hun := unlinkNextPid_none rest p hrest
            have hdec : udec (rest.length + 1 + 1) = rest.length + 1 := by
              simp only [List.length_cons] at hlenb
              rw [udec_pos _ (by omega) (by have := PID_LIMIT_lt_UINT; omega)]
              omega
            simp only [removeFromPidList, hc, if_true, hn, if_false, hun, hdec,
              List.length_cons]
            simp [holders, hc]
        · have hin : p ∈ next.map (fun q => q.info) := by
            simp only [List.map_cons, List.mem_cons] at hp
            rcases hp with hp | hp
            · exact absurd hp.symm hc
            · exact hp
          obtain ⟨r, hr, hmap, hl⟩ := unlinkNextPid_some next p hin
          have hdec : udec (next.length + 1) = next.length := by
            rw [udec_pos _ (by omega) (by have := PID_LIMIT_lt_UINT; omega)]
            omega
          simp only [removeFromPidList, hc, if_false, hr]
          refine ⟨?_, ?_⟩
          · simp only [holders, List.map_cons, hmap]
            rw [List.erase_cons_tail]
            simpa using hc
          · intro pl hpl
            simp only [Option.some.injEq] at hpl
            subst hpl
            refine ⟨by simp, ?_⟩
            simp only [List.length_cons]
            rw [hdec]; omega
  refine ⟨⟨key.2, ?_, ?_⟩, key.1⟩
  · rw [key.1]; exact h.2.1.erase p
  · rw [key.1]; intro x hx; exact h.2.2 x (List.mem_of_mem_erase hx)

theorem dropPid_none (p : Nat) : dropPid none p = none := by
  simp [dropPid, isInPidList]

theorem dropPid_WF (l : Option pidList) (p : Nat) (h : WFpl l) :
    WFpl (dropPid l p) ∧ holders (dropPid l p) = (holders l).erase p := by
  unfold dropPid
  by_cases hp : (isInPidList l p).isSome = true
  · rw [if_pos hp]
    exact removeFromPidList_WF l p h ((isInPidList_isSome l p).mp hp)
  · rw [if_neg hp]
    refine ⟨h, ?_⟩
    have : p ∉ holders l := fun hm => hp ((isInPidList_isSome l p).mpr hm)
    rw [List.erase_of_not_mem this]

/-- What OSPRDIOCRELEASE does to the holder lists and the counters. -/
theorem release_eq (osprds : Nat → osprd_info) (i : Nat) (cur : task) (filp : file)
    (arg : Nat) :
    ∃ d2 f2, osprd_ioctl osprds i cur filp Cmd.OSPRDIOCRELEASE arg = Outcome.ret 0 d2 f2 ∧
      d2.writeProcs = dropPid (osprds i).writeProcs cur.pid ∧
      d2.readProcs = dropPid (osprds i).readProcs cur.pid ∧
      d2.notifProcs = dropPid (osprds i).notifProcs cur.pid ∧
      d2.writeNlkProcs = dropPid (osprds i).writeNlkProcs cur.pid ∧
      d2.ticket_head = (osprds i).ticket_head ∧ d2.ticket_tail = (osprds i).ticket_tail ∧
      d2.exitedTickets = (osprds i).exitedTickets ∧
      d2.isHoldingOtherLocks = (osprds i).isHoldingOtherLocks ∧
      f2 = (if d2.readProcs = none ∧ d2.writeProcs = none then
        { filp with f_flags := filp.f_flags &&& lnot F_OSPRD_LOCKED } else filp) := by
  refine ⟨_, _, rfl, ?_, ?_, ?_, ?_, ?_, ?_, ?_, ?_, rfl⟩ <;>
    (try simp only [dropPid]) <;> split_ifs <;> rfl

/-- The same for `osprd_close_last` on a file of ramdisk `i`. -/
theorem close_last_eq (osprds : Nat → osprd_info) (i : Nat) (cur : task) (filp : file)
    (h : file2osprd filp = some i) :
    ∃ d2 f2, osprd_close_last osprds cur (some filp) = (0, some (d2, f2)) ∧
      d2.writeProcs = dropPid (osprds i).writeProcs cur.pid ∧
      d2.readProcs = dropPid (osprds i).readProcs cur.pid ∧
      d2.notifProcs = dropPid (osprds i).notifProcs cur.pid ∧
      d2.writeNlkProcs = dropPid (osprds i).writeNlkProcs cur.pid ∧
      d2.ticket_head = (osprds i).ticket_head ∧ d2.ticket_tail = (osprds i).ticket_tail ∧
      d2.exitedTickets = (osprds i).exitedTickets ∧
      d2.isHoldingOtherLocks = (osprds i).isHoldingOtherLocks ∧
      f2 = (if d2.readProcs = none ∧ d2.writeProcs = none then
        { filp with f_flags := filp.f_flags &&& lnot F_OSPRD_LOCKED } else filp) := by
  simp only [osprd_close_last, h]
  refine ⟨_, _, rfl, ?_, ?_, ?_, ?_, ?_, ?_, ?_, ?_, rfl⟩ <;>
    (try simp only [dropPid]) <;> split_ifs <;> rfl

/-- OSPRDIOCTRYACQUIRE when the test of line 721 fails. -/
theorem tryacquire_busy (osprds : Nat → osprd_info) (i : Nat) (cur : task) (filp : file)
    (arg : Nat) (h : ¬ tryCond osprds i cur filp) :
    osprd_ioctl osprds i cur filp Cmd.OSPRDIOCTRYACQUIRE arg =
      Outcome.ret (-EBUSY)
        { osprds i with isHoldingOtherLocks := scannedFlag osprds i cur (osprds i) } filp := by
  unfold tryCond scannedFlag at h
  simp only [osprd_ioctl, for_each_open_file_eq, scannedFlag]
  rw [if_neg]
  intro hc
  apply h
  refine ⟨hc.1, hc.2.1, ?_⟩
  have h3 := hc.2.2
  cases hw : filp.f_mode_write
  · exact Or.inl rfl
  · right
    simpa [hw] using h3

/-- OSPRDIOCTRYACQUIRE when the test of line 721 passes. -/
theorem tryacquire_ok (osprds : Nat → osprd_info) (i : Nat) (cur : task) (filp : file)
    (arg : Nat) (h : tryCond osprds i cur filp) :
    ∃ d2, osprd_ioctl osprds i cur filp Cmd.OSPRDIOCTRYACQUIRE arg =
        Outcome.ret 0 d2 { filp with f_flags := filp.f_flags ||| F_OSPRD_LOCKED } ∧
      d2.ticket_head = uinc (osprds i).ticket_head ∧
      (filp.f_mode_write = true →
        d2.writeProcs = addToPidList none (newProc cur.pid 0 0) ∧
        d2.readProcs = (osprds i).readProcs ∧ (osprds i).readProcs = none) ∧
      (filp.f_mode_write = false →
        d2.readProcs = addToPidList (osprds i).readProcs (newProc cur.pid 0 0) ∧
        d2.writeProcs = none) := by
  obtain ⟨h1, h2, h3⟩ := h
  unfold scannedFlag at h2
  have hcond : (osprds i).writeProcs = none ∧
      (if cur.files.any (scanHit osprds i cur.pid (osprds i)) = true then (1 : Int)
        else (osprds i).isHoldingOtherLocks) = 0 ∧
      (!filp.f_mode_write || decide ((osprds i).readProcs = none)) = true := by
    refine ⟨h1, h2, ?_⟩
    rcases h3 with h3 | h3
    · simp [h3]
    · simp [h3]
  by_cases hw : filp.f_mode_write = true
  · have hr : (osprds i).readProcs = none := by
      rcases h3 with h3 | h3
      · rw [hw] at h3; cases h3
      · exact h3
    refine ⟨incrementTicket
      { osprds i with
        isHoldingOtherLocks := scannedFlag osprds i cur (osprds i),
        ticket_head := uinc (osprds i).ticket_head,
        writeProcs := addToPidList (osprds i).writeProcs (newProc cur.pid 0 0) }, ?_, ?_, ?_, ?_⟩
    · simp only [osprd_ioctl, for_each_open_file_eq]
      rw [if_pos hcond]
      simp only [hw, if_true, scannedFlag]
    · exact (incrementTicket_frame _).2.2.1
    · intro _
      refine ⟨by rw [(incrementTicket_frame _).2.1]; simp only [h1], ?_, hr⟩
      rw [(incrementTicket_frame _).1]
    · intro hx; rw [hw] at hx; cases hx
  · have hw2 : filp.f_mode_write = false := by
      cases hx : filp.f_mode_write
      · rfl
      · exact absurd hx hw
    refine ⟨incrementTicket
      { osprds i with
        isHoldingOtherLocks := scannedFlag osprds i cur (osprds i),
        ticket_head := uinc (osprds i).ticket_head,
        readProcs := addToPidList (osprds i).readProcs (newProc cur.pid 0 0) }, ?_, ?_, ?_, ?_⟩
    · simp only [osprd_ioctl, for_each_open_file_eq]
      rw [if_pos hcond]
      simp [hw2, scannedFlag]
    · exact (incrementTicket_frame _).2.2.1
    · intro hx; rw [hw2] at hx; cases hx
    · intro _
      exact ⟨(incrementTicket_frame _).1, by rw [(incrementTicket_frame _).2.1]; exact h1⟩

theorem scanHit_lists (osprds : Nat → osprd_info) (i pid : Nat) (d d1 : osprd_info)
    (hr : d1.readProcs = d.readProcs) (hw : d1.writeProcs = d.writeProcs) :
    scanHit osprds i pid d1 = scanHit osprds i pid d := by
  funext f
  unfold scanHit
  cases file2osprd f with
  | none => rfl
  | some e => by_cases h : e = i <;> simp [h, hr, hw]

theorem scannedFlag_lists (osprds : Nat → osprd_info) (i : Nat) (cur : task)
    (d d1 : osprd_info) (hr : d1.readProcs = d.readProcs) (hw : d1.writeProcs = d.writeProcs)
    (hf : d1.isHoldingOtherLocks = d.isHoldingOtherLocks) :
    scannedFlag osprds i cur d1 = scannedFlag osprds i cur d := by
  unfold scannedFlag
  rw [scanHit_lists osprds i cur.pid d d1 hr hw, hf]

/-- OSPRDIOCACQUIRE reaches its wait when the caller is in neither list of the
ramdisk and the flag is 0 after the scan. -/
theorem acquire_wait (osprds : Nat → osprd_info) (i : Nat) (cur : task) (filp : file)
    (arg : Nat) (h1 : cur.pid ∉ holders (osprds i).readProcs)
    (h2 : cur.pid ∉ holders (osprds i).writeProcs)
    (h3 : scannedFlag osprds i cur (osprds i) = 0) :
    osprd_ioctl osprds i cur filp Cmd.OSPRDIOCACQUIRE arg =
      Outcome.acquireWait (osprds i).ticket_head
        { osprds i with
          ticket_head := uinc (osprds i).ticket_head,
          isHoldingOtherLocks := 0 } filp := by
  have hr := (isInPidList_none _ _).mpr h1
  have hw := (isInPidList_none _ _).mpr h2
  have h4 : scannedFlag osprds i cur
      { osprds i with ticket_head := uinc (osprds i).ticket_head } = 0 :=
    (scannedFlag_lists osprds i cur (osprds i)
      { osprds i with ticket_head := uinc (osprds i).ticket_head } rfl rfl rfl).trans h3
  unfold scannedFlag at h4
  simp only [osprd_ioctl, for_each_open_file_eq, hr, hw, h4]
  cases filp.f_mode_write <;> simp

/-- OSPRDIOCACQUIRE returns -EDEADLK in every other case, leaving the holder lists
and the file as they were. -/
theorem acquire_deadlock (osprds : Nat → osprd_info) (i : Nat) (cur : task) (filp : file)
    (arg : Nat)
    (h : ¬ (cur.pid ∉ holders (osprds i).readProcs ∧ cur.pid ∉ holders (osprds i).writeProcs ∧
      scannedFlag osprds i cur (osprds i) = 0)) :
    osprd_ioctl osprds i cur filp Cmd.OSPRDIOCACQUIRE arg =
      Outcome.ret (-EDEADLK)
        (incrementTicket
          { osprds i with
            ticket_head := uinc (osprds i).ticket_head,
            isHoldingOtherLocks := 0 }) filp := by
  by_cases hself : cur.pid ∈ holders (osprds i).readProcs ∨
      cur.pid ∈ holders (osprds i).writeProcs
  · have hs1 : (isInPidList (osprds i).readProcs cur.pid).isSome = true ∨
        (isInPidList (osprds i).writeProcs cur.pid).isSome = true := by
      rcases hself with h1 | h1
      · exact Or.inl ((isInPidList_isSome _ _).mpr h1)
      · exact Or.inr ((isInPidList_isSome _ _).mpr h1)
    have hs2 := hs1.symm
    unfold osprd_ioctl
    cases hw : filp.f_mode_write <;> simp [hs1, hs2]
  · have h1 : cur.pid ∉ holders (osprds i).readProcs := fun hx => hself (Or.inl hx)
    have h2 : cur.pid ∉ holders (osprds i).writeProcs := fun hx => hself (Or.inr hx)
    have hr := (isInPidList_none _ _).mpr h1
    have hw := (isInPidList_none _ _).mpr h2
    have h3 : scannedFlag osprds i cur (osprds i) ≠ 0 := fun hx => h ⟨h1, h2, hx⟩
    have h4 : scannedFlag osprds i cur
        { osprds i with ticket_head := uinc (osprds i).ticket_head } ≠ 0 :=
      fun hx => h3 ((scannedFlag_lists osprds i cur (osprds i)
        { osprds i with ticket_head := uinc (osprds i).ticket_head } rfl rfl rfl).symm.trans hx)
    unfold scannedFlag at h4
    simp only [] at h4
    simp only [osprd_ioctl, for_each_open_file_eq, hr, hw]
    cases filp.f_mode_write
    · simp only [Bool.false_eq_true, if_false, Bool.or_self, ne_eq]
      rw [if_pos h4]
    · simp only [if_true, Bool.false_eq_true, if_false, Bool.or_self, ne_eq]
      rw [if_pos h4]

theorem map_info_setSect (l : List process) (p v : Nat) :
    (setSect l p v).map (fun q => q.info) = l.map (fun q => q.info) := by
  induction l with
  | nil => rfl
  | cons q rest ih =>
    unfold setSect
    split
    · simp
    · simp [ih]

/-- OSPRDIOCSECTOR returns 0, does not touch `readProcs` or the counters, and
keeps the pids, the node count and the `size` of `writeProcs`. -/
theorem sector_eq (osprds : Nat → osprd_info) (i : Nat) (cur : task) (filp : file)
    (arg : Nat) :
    ∃ d2, osprd_ioctl osprds i cur filp Cmd.OSPRDIOCSECTOR arg = Outcome.ret 0 d2 filp ∧
      d2.readProcs = (osprds i).readProcs ∧
      holders d2.writeProcs = holders (osprds i).writeProcs ∧
      ((osprds i).writeProcs = none → d2.writeProcs = none) ∧
      (WFpl (osprds i).writeProcs → WFpl d2.writeProcs) ∧
      d2.ticket_head = (osprds i).ticket_head ∧ d2.ticket_tail = (osprds i).ticket_tail ∧
      d2.exitedTickets = (osprds i).exitedTickets := by
  unfold osprd_ioctl
  simp only []
  split
  · split
    · cases hwp : (osprds i).writeProcs with
      | none =>
        refine ⟨_, rfl, rfl, ?_, ?_, ?_, rfl, rfl, rfl⟩
        · simp [hwp]
        · intro _; simp
        · intro _; simp only []; exact WFpl_none
      | some pl =>
        refine ⟨_, rfl, rfl, ?_, ?_, ?_, rfl, rfl, rfl⟩
        · simp [holders, map_info_setSect]
        · intro hx; cases hx
        · intro hwf
          have hh : holders (some { pl with head := setSect pl.head cur.pid (sectorOfArg arg) }) =
              holders (some pl) := by simp [holders, map_info_setSect]
          refine ⟨?_, ?_, ?_⟩
          · intro pl2 hpl2
            simp only [Option.some.injEq] at hpl2
            subst hpl2
            have h0 := hwf.1 pl rfl
            have hl : (setSect pl.head cur.pid (sectorOfArg arg)).length = pl.head.length := by
              have := congrArg List.length (map_info_setSect pl.head cur.pid (sectorOfArg arg))
              simpa using this
            refine ⟨?_, by simp only []; rw [hl]; exact h0.2⟩
            intro hnil
            simp only [] at hnil
            rw [hnil] at hl
            exact h0.1 (List.length_eq_zero.mp hl.symm)
          · simp only []; rw [hh]; exact hwf.2.1
          · simp only []; rw [hh]; exact hwf.2.2
    · exact ⟨_, rfl, rfl, rfl, fun hx => hx, fun hx => hx, rfl, rfl, rfl⟩
  · exact ⟨_, rfl, rfl, rfl, fun hx => hx, fun hx => hx, rfl, rfl, rfl⟩

theorem notify_eq (osprds : Nat → osprd_info) (i : Nat) (cur : task) (filp : file)
    (arg : Nat) :
    osprd_ioctl osprds i cur filp Cmd.OSPRDIOCNOTIFY arg =
      Outcome.notifyWait (if arg ≠ 0 then arg - 1 else 0)
        { osprds i with
          notifProcs := addToPidList (osprds i).notifProcs (newProc cur.pid 1 0) } filp := rfl

/-! ## The invariant of the reachable states -/

theorem Inv_of_lists (d d2 : osprd_info) (b : List Waiter) (h : Inv { d := d, blocked := b })
    (hr : d2.readProcs = d.readProcs) (hw : d2.writeProcs = d.writeProcs) :
    Inv { d := d2, blocked := b } := by
  unfold Inv at *
  simp only [] at *
  rw [hr, hw]
  exact h

theorem Inv_erase (d : osprd_info) (b : List Waiter) (w : Waiter)
    (h : Inv { d := d, blocked := b }) : Inv { d := d, blocked := b.erase w } := by
  obtain ⟨h1, h2, h3, h4, h5, h6⟩ := h
  refine ⟨h1, h2, h3, h4, ?_, ?_⟩
  · exact h5.sublist ((List.erase_sublist w b).map _)
  · intro x hx
    exact h6 x (List.mem_of_mem_erase hx)

theorem Inv_erase_ne (d : osprd_info) (b : List Waiter) (w : Waiter)
    (h : Inv { d := d, blocked := b }) (hw : w ∈ b) :
    ∀ x ∈ b.erase w, x.pid ≠ w.pid := by
  have h5 : (b.map (fun w => w.pid)).Nodup := h.2.2.2.2.1
  have hnd : b.Nodup := List.Nodup.of_map _ h5
  intro x hx hpid
  have hx2 := (List.Nodup.mem_erase_iff hnd).mp hx
  have hinj := List.inj_on_of_nodup_map h5
  exact hx2.1 (hinj hx2.2 hw hpid)

theorem Inv_add_write (d d2 : osprd_info) (b : List Waiter) (pid : Nat)
    (h : Inv { d := d, blocked := b }) (hr0 : d.readProcs = none)
    (hr : d2.readProcs = d.readProcs)
    (hw : d2.writeProcs = addToPidList none (newProc pid 0 0))
    (hp : pid < PID_LIMIT) (hb : ∀ w ∈ b, w.pid ≠ pid) :
    Inv { d := d2, blocked := b } := by
  obtain ⟨_, _, h3, _, h5, h6⟩ := h
  have hadd := addToPidList_WF none (newProc pid 0 0) WFpl_none (by simp [holders]) hp
  have hh : holders d2.writeProcs = [pid] := by
    rw [hw, hadd.2]; simp [holders, newProc]
  refine ⟨Or.inl (by simp only []; rw [hr, hr0]), ?_, ?_, ?_, h5, ?_⟩
  · simp only []; rw [hh]; simp
  · simp only []; rw [hr]; exact h3
  · simp only []; rw [hw]; exact hadd.1
  · intro w hwb
    simp only []
    rw [hr, hh]
    refine ⟨(h6 w hwb).1, (h6 w hwb).2.1, ?_⟩
    simpa using hb w hwb

theorem Inv_add_read (d d2 : osprd_info) (b : List Waiter) (pid : Nat)
    (h : Inv { d := d, blocked := b }) (hw : d2.writeProcs = none)
    (hr : d2.readProcs = addToPidList d.readProcs (newProc pid 0 0))
    (hn : pid ∉ holders d.readProcs)
    (hp : pid < PID_LIMIT) (hb : ∀ w ∈ b, w.pid ≠ pid) :
    Inv { d := d2, blocked := b } := by
  obtain ⟨_, _, h3, _, h5, h6⟩ := h
  have hadd := addToPidList_WF d.readProcs (newProc pid 0 0) h3 hn hp
  have hh : holders d2.readProcs = pid :: holders d.readProcs := by
    rw [hr, hadd.2]; rfl
  refine ⟨Or.inr hw, ?_, ?_, ?_, h5, ?_⟩
  · simp only []; rw [hw]; simp [holders]
  · simp only []; rw [hr]; exact hadd.1
  · simp only []; rw [hw]; exact WFpl_none
  · intro w hwb
    simp only []
    rw [hw, hh]
    refine ⟨(h6 w hwb).1, ?_, by simp [holders]⟩
    simp only [List.mem_cons, not_or]
    exact ⟨hb w hwb, (h6 w hwb).2.1⟩

theorem Inv_drop (d d2 : osprd_info) (b : List Waiter) (p : Nat)
    (h : Inv { d := d, blocked := b })
    (hr : d2.readProcs = dropPid d.readProcs p) (hw : d2.writeProcs = dropPid d.writeProcs p) :
    Inv { d := d2, blocked := b } := by
  obtain ⟨h1, h2, h3, h4, h5, h6⟩ := h
  simp only [] at h1 h2 h3 h4 h5 h6
  have hdr := dropPid_WF d.readProcs p h3
  have hdw := dropPid_WF d.writeProcs p h4
  refine ⟨?_, ?_, ?_, ?_, h5, ?_⟩
  · simp only []
    rcases h1 with h1 | h1
    · left; rw [hr, h1]; exact dropPid_none p
    · right; rw [hw, h1]; exact dropPid_none p
  · simp only []
    rw [hw, hdw.2]
    exact le_trans (List.erase_sublist p _).length_le h2
  · simp only []; rw [hr]; exact hdr.1
  · simp only []; rw [hw]; exact hdw.1
  · intro w hwb
    simp only []
    rw [hr, hw, hdr.2, hdw.2]
    exact ⟨(h6 w hwb).1, fun hx => (h6 w hwb).2.1 (List.mem_of_mem_erase hx),
      fun hx => (h6 w hwb).2.2 (List.mem_of_mem_erase hx)⟩

theorem Inv_setup : Inv { d := osprd_setup, blocked := [] } := by
  refine ⟨Or.inl rfl, by simp [holders, osprd_setup], WFpl_none, WFpl_none, by simp, by simp⟩

/-- When the test of OSPRDIOCTRYACQUIRE passes for a caller whose table holds the
file, the caller is in neither holder list of the ramdisk. -/
theorem tryCond_not_holder (osprds : Nat → osprd_info) (i : Nat) (cur : task) (filp : file)
    (h : tryCond osprds i cur filp) (hf : filp ∈ cur.files) (hi : file2osprd filp = some i) :
    cur.pid ∉ holders (osprds i).readProcs ∧ cur.pid ∉ holders (osprds i).writeProcs := by
  have h2 := h.2.1
  unfold scannedFlag at h2
  by_cases hany : cur.files.any (scanHit osprds i cur.pid (osprds i)) = true
  · rw [if_pos hany] at h2
    exact absurd h2 (by decide)
  · have hfile : scanHit osprds i cur.pid (osprds i) filp = false := by
      cases hx : scanHit osprds i cur.pid (osprds i) filp
      · rfl
      · exact absurd (List.any_eq_true.mpr ⟨filp, hf, hx⟩) hany
    unfold scanHit at hfile
    rw [hi] at hfile
    simp only [if_true, Bool.or_eq_false_iff] at hfile
    exact ⟨(isInPidList_none _ _).mp hfile.2, (isInPidList_none _ _).mp hfile.1⟩

theorem ioctl_acquireWait_cmd (osprds : Nat → osprd_info) (i : Nat) (cur : task) (filp : file)
    (cmd : Cmd) (arg t : Nat) (d2 : osprd_info) (f2 : file)
    (h : osprd_ioctl osprds i cur filp cmd arg = Outcome.acquireWait t d2 f2) :
    cmd = Cmd.OSPRDIOCACQUIRE := by
  cases cmd with
  | OSPRDIOCSECTOR =>
    obtain ⟨d, hd, _⟩ := sector_eq osprds i cur filp arg
    rw [hd] at h; cases h
  | OSPRDIOCNOTIFY => rw [notify_eq] at h; cases h
  | OSPRDIOCACQUIRE => rfl
  | OSPRDIOCTRYACQUIRE =>
    by_cases hc : tryCond osprds i cur filp
    · obtain ⟨d, hd, _⟩ := tryacquire_ok osprds i cur filp arg hc
      rw [hd] at h; cases h
    · rw [tryacquire_busy osprds i cur filp arg hc] at h; cases h
  | OSPRDIOCRELEASE =>
    obtain ⟨d, f, hd, _⟩ := release_eq osprds i cur filp arg
    rw [hd] at h; cases h
  | other => simp [osprd_ioctl] at h

theorem ioctl_notifyWait_lists (osprds : Nat → osprd_info) (i : Nat) (cur : task)
    (filp : file) (cmd : Cmd) (arg sec : Nat) (d2 : osprd_info) (f2 : file)
    (h : osprd_ioctl osprds i cur filp cmd arg = Outcome.notifyWait sec d2 f2) :
    cmd = Cmd.OSPRDIOCNOTIFY ∧ d2.readProcs = (osprds i).readProcs ∧
      d2.writeProcs = (osprds i).writeProcs := by
  cases cmd with
  | OSPRDIOCSECTOR =>
    obtain ⟨d, hd, _⟩ := sector_eq osprds i cur filp arg
    rw [hd] at h; cases h
  | OSPRDIOCNOTIFY =>
    rw [notify_eq] at h
    simp only [Outcome.notifyWait.injEq] at h
    obtain ⟨_, hd, _⟩ := h
    subst hd
    exact ⟨rfl, rfl, rfl⟩
  | OSPRDIOCACQUIRE =>
    by_cases hc : cur.pid ∉ holders (osprds i).readProcs ∧
        cur.pid ∉ holders (osprds i).writeProcs ∧ scannedFlag osprds i cur (osprds i) = 0
    · rw [acquire_wait osprds i cur filp arg hc.1 hc.2.1 hc.2.2] at h; cases h
    · rw [acquire_deadlock osprds i cur filp arg hc] at h; cases h
  | OSPRDIOCTRYACQUIRE =>
    by_cases hc : tryCond osprds i cur filp
    · obtain ⟨d, hd, _⟩ := tryacquire_ok osprds i cur filp arg hc
      rw [hd] at h; cases h
    · rw [tryacquire_busy osprds i cur filp arg hc] at h; cases h
  | OSPRDIOCRELEASE =>
    obtain ⟨d, f, hd, _⟩ := release_eq osprds i cur filp arg
    rw [hd] at h; cases h
  | other => simp [osprd_ioctl] at h

theorem process_request_write_lists (cur : task) (d d2 : osprd_info)
    (h : osprd_process_request_write cur d = some d2) :
    d2.readProcs = d.readProcs ∧ d2.writeProcs = d.writeProcs ∧
      d2.ticket_head = d.ticket_head ∧ d2.ticket_tail = d.ticket_tail ∧
      d2.exitedTickets = d.exitedTickets := by
  unfold osprd_process_request_write at h
  split at h
  · cases h; exact ⟨rfl, rfl, rfl, rfl, rfl⟩
  · simp only [] at h
    split at h
    · cases h; exact ⟨rfl, rfl, rfl, rfl, rfl⟩
    · split at h
      · cases h
      · split at h
        · cases h; exact ⟨rfl, rfl, rfl, rfl, rfl⟩
        · cases h

theorem Step_Inv (i : Nat) (s t : Sys) (hs : Inv s) (hst : Step i s t) : Inv t := by
  cases hst with
  | ioctl_ret osprds cur filp cmd arg r d2 f2 hd hc hio =>
    obtain ⟨db, bl⟩ := s
    simp only [] at hd hc ⊢
    subst hd
    obtain ⟨hpid, hnb, hfile, hfi⟩ := hc
    simp only [] at hnb
    cases cmd with
    | OSPRDIOCSECTOR =>
      obtain ⟨d, hd, h1, h2, h3, h4, _⟩ := sector_eq osprds i cur filp arg
      rw [hd] at hio
      simp only [Outcome.ret.injEq] at hio
      obtain ⟨_, hdd, _⟩ := hio
      subst hdd
      obtain ⟨a1, a2, a3, a4, a5, a6⟩ := hs
      simp only [] at a1 a2 a3 a4 a5 a6
      refine ⟨?_, ?_, ?_, h4 a4, a5, ?_⟩
      · rcases a1 with a1 | a1
        · left; simp only []; rw [h1]; exact a1
        · right; exact h3 a1
      · simp only []; rw [h2]; exact a2
      · simp only []; rw [h1]; exact a3
      · intro w hw
        simp only []
        rw [h1, h2]
        exact a6 w hw
    | OSPRDIOCNOTIFY => rw [notify_eq] at hio; cases hio
    | OSPRDIOCACQUIRE =>
      by_cases hcnd : cur.pid ∉ holders (osprds i).readProcs ∧
          cur.pid ∉ holders (osprds i).writeProcs ∧ scannedFlag osprds i cur (osprds i) = 0
      · rw [acquire_wait osprds i cur filp arg hcnd.1 hcnd.2.1 hcnd.2.2] at hio; cases hio
      · rw [acquire_deadlock osprds i cur filp arg hcnd] at hio
        simp only [Outcome.ret.injEq] at hio
        obtain ⟨_, hdd, _⟩ := hio
        subst hdd
        exact Inv_of_lists _ _ _ hs (incrementTicket_frame _).1 (incrementTicket_frame _).2.1
    | OSPRDIOCTRYACQUIRE =>
      by_cases hcnd : tryCond osprds i cur filp
      · obtain ⟨d, hd, _, hwr, hrd⟩ := tryacquire_ok osprds i cur filp arg hcnd
        rw [hd] at hio
        simp only [Outcome.ret.injEq] at hio
        obtain ⟨_, hdd, _⟩ := hio
        subst hdd
        have hnot := tryCond_not_holder osprds i cur filp hcnd hfile hfi
        cases hfw : filp.f_mode_write
        · obtain ⟨e1, e2⟩ := hrd hfw
          exact Inv_add_read _ _ _ cur.pid hs e2 e1 hnot.1 hpid hnb
        · obtain ⟨e1, e2, e3⟩ := hwr hfw
          exact Inv_add_write _ _ _ cur.pid hs e3 e2 e1 hpid hnb
      · rw [tryacquire_busy osprds i cur filp arg hcnd] at hio
        simp only [Outcome.ret.injEq] at hio
        obtain ⟨_, hdd, _⟩ := hio
        subst hdd
        exact Inv_of_lists _ _ _ hs rfl rfl
    | OSPRDIOCRELEASE =>
      obtain ⟨d, f, hd, h1, h2, _⟩ := release_eq osprds i cur filp arg
      rw [hd] at hio
      simp only [Outcome.ret.injEq] at hio
      obtain ⟨_, hdd, _⟩ := hio
      subst hdd
      exact Inv_drop _ _ _ cur.pid hs h2 h1
    | other =>
      simp only [osprd_ioctl, Outcome.ret.injEq] at hio
      obtain ⟨_, hdd, _⟩ := hio
      subst hdd
      exact hs
  | ioctl_acquireWait osprds cur filp cmd arg tk d2 f2 hd hc hio =>
    obtain ⟨db, bl⟩ := s
    simp only [] at hd hc ⊢
    subst hd
    obtain ⟨hpid, hnb, hfile, hfi⟩ := hc
    simp only [] at hnb
    have hcmd := ioctl_acquireWait_cmd osprds i cur filp cmd arg tk d2 f2 hio
    subst hcmd
    by_cases hcnd : cur.pid ∉ holders (osprds i).readProcs ∧
        cur.pid ∉ holders (osprds i).writeProcs ∧ scannedFlag osprds i cur (osprds i) = 0
    · rw [acquire_wait osprds i cur filp arg hcnd.1 hcnd.2.1 hcnd.2.2] at hio
      simp only [Outcome.acquireWait.injEq] at hio
      obtain ⟨_, hdd, _⟩ := hio
      subst hdd
      obtain ⟨a1, a2, a3, a4, a5, a6⟩ := hs
      simp only [] at a1 a2 a3 a4 a5 a6
      refine ⟨a1, a2, a3, a4, ?_, ?_⟩
      · simp only [List.map_cons, List.nodup_cons]
        refine ⟨?_, a5⟩
        intro hm
        obtain ⟨w, hw, hwp⟩ := List.mem_map.mp hm
        exact hnb w hw hwp
      · intro w hw
        rcases List.mem_cons.mp hw with hw | hw
        · subst hw
          exact ⟨hpid, hcnd.1, hcnd.2.1⟩
        · exact a6 w hw
    · rw [acquire_deadlock osprds i cur filp arg hcnd] at hio; cases hio
  | ioctl_notifyWait osprds cur filp cmd arg sec d2 f2 hd hc hio =>
    obtain ⟨db, bl⟩ := s
    simp only [] at hd hc ⊢
    subst hd
    have h := ioctl_notifyWait_lists osprds i cur filp cmd arg sec d2 f2 hio
    exact Inv_of_lists _ _ _ hs h.2.1 h.2.2
  | granted w files r d2 f2 hw hpred hio =>
    obtain ⟨db, bl⟩ := s
    simp only [] at hw hpred hio ⊢
    have hne := Inv_erase_ne db bl w hs hw
    have hw6 := hs.2.2.2.2.2 w hw
    simp only [] at hw6
    have hs2 := Inv_erase db bl w hs
    unfold acquire_granted at hio
    unfold acquire_pred at hpred
    cases hfw : w.filp.f_mode_write
    · simp only [hfw, Bool.false_eq_true, if_false, Outcome.ret.injEq] at hio hpred
      obtain ⟨_, hdd, _⟩ := hio
      subst hdd
      simp only [Bool.and_eq_true, decide_eq_true_eq] at hpred
      exact Inv_add_read _ _ _ w.pid hs2
        (by rw [(incrementTicket_frame _).2.1]; exact hpred.2)
        (incrementTicket_frame _).1 hw6.2.1 hw6.1 hne
    · simp only [hfw, if_true, Outcome.ret.injEq] at hio hpred
      obtain ⟨_, hdd, _⟩ := hio
      subst hdd
      simp only [Bool.and_eq_true, decide_eq_true_eq] at hpred
      refine Inv_add_write _ _ _ w.pid hs2 hpred.1.2 (incrementTicket_frame _).1 ?_ hw6.1 hne
      rw [(incrementTicket_frame _).2.1]
      simp only [hpred.2]
  | interrupted w r d2 f2 hw hio =>
    obtain ⟨db, bl⟩ := s
    simp only [] at hw hio ⊢
    have hs2 := Inv_erase db bl w hs
    unfold acquire_interrupted at hio
    split at hio
    · simp only [Outcome.ret.injEq] at hio
      obtain ⟨_, hdd, _⟩ := hio
      subst hdd
      exact Inv_of_lists _ _ _ hs2 (incrementTicket_frame _).1 (incrementTicket_frame _).2.1
    · simp only [Outcome.ret.injEq] at hio
      obtain ⟨_, hdd, _⟩ := hio
      subst hdd
      exact Inv_of_lists _ _ _ hs2 rfl rfl
  | close osprds cur filp r d2 f2 hd hnb hfi hio =>
    obtain ⟨db, bl⟩ := s
    simp only [] at hd hnb hio ⊢
    subst hd
    obtain ⟨d, f, hcl, h1, h2, _⟩ := close_last_eq osprds i cur filp hfi
    rw [hcl] at hio
    simp only [Prod.mk.injEq, Option.some.injEq] at hio
    obtain ⟨_, hdd, _⟩ := hio
    subst hdd
    exact Inv_drop _ _ _ cur.pid hs h2 h1
  | write cur d2 hio =>
    obtain ⟨db, bl⟩ := s
    simp only [] at hio ⊢
    have h := process_request_write_lists cur db d2 hio
    exact Inv_of_lists _ _ _ hs h.1 h.2.1

/-- Every reachable state satisfies the invariant. -/
theorem Reachable_Inv (i : Nat) (s : Sys) (h : Reachable i s) : Inv s := by
  induction h with
  | setup => exact Inv_setup
  | step s t _ hst ih => exact Step_Inv i s t ih hst


theorem unlinkNextTicket_length (l : List Nat) (t : Nat) (r : List Nat)
    (h : unlinkNextTicket l t = some r) : r.length + 1 = l.length := by
  induction l generalizing r with
  | nil => simp [unlinkNextTicket] at h
  | cons n rest ih =>
    unfold unlinkNextTicket at h
    split at h
    · cases h; rfl
    · split at h
      · rename_i r2 hr2
        cases h
        simp [ih r2 hr2]
      · cases h

theorem unlinkNextTicket_of_mem (l : List Nat) (t : Nat) (h : t ∈ l) :
    ∃ r, unlinkNextTicket l t = some r := by
  induction l with
  | nil => simp at h
  | cons n rest ih =>
    by_cases hn : n = t
    · exact ⟨rest, by simp [unlinkNextTicket, hn]⟩
    · have h2 : t ∈ rest := by
        rcases List.mem_cons.mp h with h | h
        · exact absurd h.symm hn
        · exact h
      obtain ⟨r, hr⟩ := ih h2
      exact ⟨n :: r, by simp [unlinkNextTicket, hn, hr]⟩

/-- A call of `removeFromTicketList` made after `isInTicketList` found the ticket
leaves strictly fewer nodes. -/
theorem removeFromTicketList_nodes (l : Option ticketList) (t : Nat)
    (h : isInTicketList l t ≠ 0) :
    ticketNodes (removeFromTicketList l t) < ticketNodes l := by
  cases l with
  | none => simp [isInTicketList] at h
  | some tl =>
    obtain ⟨hd, sz⟩ := tl
    have hmem : t ∈ hd := by
      by_contra hx
      simp [isInTicketList, hx] at h
    cases hd with
    | nil => simp at hmem
    | cons cur next =>
      by_cases hc : cur = t
      · cases next with
        | nil =>
          simp only [removeFromTicketList, hc, if_true]
          split <;> simp [ticketNodes]
        | cons n rest =>
          by_cases hn : n = t
          · simp [removeFromTicketList, hc, hn, ticketNodes]
          · simp only [removeFromTicketList, hc, if_true, hn, if_false]
            cases hu : unlinkNextTicket rest t with
            | none =>
              simp only []
              split <;> simp [ticketNodes]
            | some r =>
              have := unlinkNextTicket_length rest t r hu
              simp only [ticketNodes, List.length_cons]
              omega
      · have h2 : t ∈ next := by
          rcases List.mem_cons.mp hmem with h | h
          · exact absurd h.symm hc
          · exact h
        obtain ⟨r, hr⟩ := unlinkNextTicket_of_mem next t h2
        have := unlinkNextTicket_length next t r hr
        simp only [removeFromTicketList, hc, if_false, hr, ticketNodes, List.length_cons]
        omega

/-- The loop of `incrementTicket` leaves by its `break`: with at least as much
fuel as `exitedTickets` has nodes, the final `ticket_tail` is not in the final
`exitedTickets`, and more fuel does not change the result. -/
theorem incrementTicketLoop_break (fuel : Nat) (d : osprd_info)
    (h : ticketNodes d.exitedTickets ≤ fuel) :
    isInTicketList (incrementTicketLoop fuel d).exitedTickets
        (incrementTicketLoop fuel d).ticket_tail = 0 ∧
      ∀ k, incrementTicketLoop (fuel + k) d = incrementTicketLoop fuel d := by
  induction fuel generalizing d with
  | zero =>
    have h0 : isInTicketList d.exitedTickets d.ticket_tail = 0 := by
      cases hl : d.exitedTickets with
      | none => rfl
      | some tl =>
        rw [hl] at h
        simp only [ticketNodes, Nat.le_zero, List.length_eq_zero] at h
        simp [isInTicketList, h]
    refine ⟨by simpa [incrementTicketLoop] using h0, ?_⟩
    intro k
    cases k with
    | zero => rfl
    | succ k =>
      simp only [Nat.zero_add]
      unfold incrementTicketLoop
      rw [if_pos h0]
  | succ n ih =>
    by_cases h0 : isInTicketList d.exitedTickets d.ticket_tail = 0
    · refine ⟨?_, ?_⟩
      · unfold incrementTicketLoop
        rw [if_pos h0]; exact h0
      · intro k
        have e : n + 1 + k = (n + k) + 1 := by omega
        rw [e]
        unfold incrementTicketLoop
        rw [if_pos h0, if_pos h0]
    · have hlt := removeFromTicketList_nodes d.exitedTickets d.ticket_tail h0
      have hle : ticketNodes (removeFromTicketList d.exitedTickets d.ticket_tail) ≤ n := by omega
      have := ih
        { d with
          exitedTickets := removeFromTicketList d.exitedTickets d.ticket_tail,
          ticket_tail := uinc d.ticket_tail } hle
      refine ⟨?_, ?_⟩
      · unfold incrementTicketLoop
        rw [if_neg h0]; exact this.1
      · intro k
        have e : n + 1 + k = (n + k) + 1 := by omega
        rw [e]
        unfold incrementTicketLoop
        rw [if_neg h0, if_neg h0]
        exact this.2 k

/-- C1. In every state reached from `osprd_setup` by ioctl calls, grants and
interruptions of OSPRDIOCACQUIRE waits, closes and write notifications,
`writeProcs` holds at most one process, and `readProcs` and `writeProcs` are
never both non-NULL, hence never both non-empty. -/
theorem mutual_exclusion (i : Nat) (s : Sys) (h : Reachable i s) :
    (holders s.d.writeProcs).length ≤ 1 ∧
    (s.d.readProcs = none ∨ s.d.writeProcs = none) ∧
    (holders s.d.readProcs = [] ∨ holders s.d.writeProcs = []) := by
  have hinv := Reachable_Inv i s h
  refine ⟨hinv.2.1, hinv.1, ?_⟩
  rcases hinv.1 with h1 | h1
  · left; rw [h1]; rfl
  · right; rw [h1]; rfl

/-- C1, at a concrete input: the state in which task 1 holds the write lock. -/
theorem mutual_exclusion_witness :
    Reachable 0 { d := writeHeldDev, blocked := [] } ∧
    (holders writeHeldDev.writeProcs).length ≤ 1 ∧
    (writeHeldDev.readProcs = none ∨ writeHeldDev.writeProcs = none) ∧
    (holders writeHeldDev.readProcs = [] ∨ holders writeHeldDev.writeProcs = []) :=
  ⟨writeHeld_reachable, mutual_exclusion 0 { d := writeHeldDev, blocked := [] } writeHeld_reachable⟩

theorem lnot_locked : lnot F_OSPRD_LOCKED = 0 := by decide

/-- C8. In every reachable state in which the caller is the only writer, or the
only reader with no writer, OSPRDIOCRELEASE returns 0, leaves `readProcs` and
`writeProcs` both NULL, and leaves the F_OSPRD_LOCKED bit of the file unset. -/
theorem release_sole_holder (i : Nat) (s : Sys) (h : Reachable i s)
    (osprds : Nat → osprd_info) (hd : osprds i = s.d) (cur : task) (filp : file) (arg : Nat)
    (hsole : holders s.d.writeProcs = [cur.pid] ∨
      (holders s.d.readProcs = [cur.pid] ∧ holders s.d.writeProcs = [])) :
    ∃ d2 f2, osprd_ioctl osprds i cur filp Cmd.OSPRDIOCRELEASE arg = Outcome.ret 0 d2 f2 ∧
      d2.readProcs = none ∧ d2.writeProcs = none ∧ f2.f_flags &&& F_OSPRD_LOCKED = 0 := by
  obtain ⟨a1, _, a3, a4, _, _⟩ := Reachable_Inv i s h
  rw [← hd] at a1 a3 a4 hsole
  obtain ⟨d2, f2, hio, hw, hr, _, _, _, _, _, _, hf⟩ := release_eq osprds i cur filp arg
  have hdr := dropPid_WF (osprds i).readProcs cur.pid a3
  have hdw := dropPid_WF (osprds i).writeProcs cur.pid a4
  have hboth : d2.readProcs = none ∧ d2.writeProcs = none := by
    rcases hsole with hs | ⟨hs1, hs2⟩
    · have hwn : (osprds i).writeProcs ≠ none := by
        intro hx; rw [hx] at hs; simp [holders] at hs
      have hrn : (osprds i).readProcs = none := by
        rcases a1 with a1 | a1
        · exact a1
        · exact absurd a1 hwn
      refine ⟨by rw [hr, hrn]; exact dropPid_none _, ?_⟩
      rw [hw]
      apply holders_eq_nil_of_WF _ hdw.1
      rw [hdw.2, hs]; simp
    · have hwn := holders_eq_nil_of_WF _ a4 hs2
      refine ⟨?_, by rw [hw, hwn]; exact dropPid_none _⟩
      rw [hr]
      apply holders_eq_nil_of_WF _ hdr.1
      rw [hdr.2, hs1]; simp
  refine ⟨d2, f2, hio, hboth.1, hboth.2, ?_⟩
  rw [hf, if_pos hboth]
  simp only [lnot_locked, Nat.and_zero, Nat.zero_and]

/-- C8, at a concrete input: task 1, the only writer of ramdisk 0, releases. -/
theorem release_sole_holder_witness :
    ∃ d2 f2, osprd_ioctl (world writeHeldDev) 0 (taskOf 1 (fileOn0 true F_OSPRD_LOCKED))
        (fileOn0 true F_OSPRD_LOCKED) Cmd.OSPRDIOCRELEASE 0 = Outcome.ret 0 d2 f2 ∧
      d2.readProcs = none ∧ d2.writeProcs = none ∧ f2.f_flags &&& F_OSPRD_LOCKED = 0 :=
  release_sole_holder 0 { d := writeHeldDev, blocked := [] } writeHeld_reachable
    (world writeHeldDev) rfl (taskOf 1 (fileOn0 true F_OSPRD_LOCKED))
    (fileOn0 true F_OSPRD_LOCKED) 0 (Or.inl (by decide))

/-! ## Notification -/

theorem setDev_same (osprds : Nat → osprd_info) (i : Nat) (d : osprd_info) :
    setDev osprds i d i = d := by
  simp [setDev]

theorem setDev_other (osprds : Nat → osprd_info) (i e : Nat) (d : osprd_info) (h : e ≠ i) :
    setDev osprds i d e = osprds e := by
  simp [setDev, h]

theorem isInTicketList_eq (l : Option ticketList) (t : Nat) :
    isInTicketList l t = if t ∈ tickets l then 1 else 0 := by
  cases l with
  | none => simp [isInTicketList, tickets]
  | some tl => rfl

theorem isInTicketList_ne_zero (l : Option ticketList) (t : Nat) :
    isInTicketList l t ≠ 0 ↔ t ∈ tickets l := by
  rw [isInTicketList_eq]
  by_cases h : t ∈ tickets l <;> simp [h]

theorem unlinkNextTicket_mem (l : List Nat) (t : Nat) (r : List Nat)
    (h : unlinkNextTicket l t = some r) : ∀ x ∈ r, x ∈ l := by
  induction l generalizing r with
  | nil => simp [unlinkNextTicket] at h
  | cons n rest ih =>
    unfold unlinkNextTicket at h
    split at h
    · cases h
      intro x hx
      exact List.mem_cons_of_mem _ hx
    · split at h
      · rename_i r2 hr2
        cases h
        intro x hx
        rcases List.mem_cons.mp hx with hx | hx
        · rw [hx]; exact List.mem_cons_self _ _
        · exact List.mem_cons_of_mem _ (ih r2 hr2 x hx)
      · cases h

/-- The tickets left by `removeFromTicketList` were all there before. -/
theorem removeFromTicketList_mem (l : Option ticketList) (t : Nat) :
    ∀ x ∈ tickets (removeFromTicketList l t), x ∈ tickets l := by
  cases l with
  | none => simp [removeFromTicketList, tickets]
  | some tl =>
    obtain ⟨hd, sz⟩ := tl
    cases hd with
    | nil => simp [removeFromTicketList, tickets]
    | cons cur next =>
      by_cases hc : cur = t
      · cases next with
        | nil =>
          simp only [removeFromTicketList, hc, if_true]
          split <;> simp [tickets]
        | cons n rest =>
          by_cases hn : n = t
          · simp only [removeFromTicketList, hc, hn, if_true, tickets]
            intro x hx
            exact List.mem_cons_of_mem _ hx
          · simp only [removeFromTicketList, hc, if_true, hn, if_false]
            cases hu : unlinkNextTicket rest t with
            | none =>
              simp only []
              split
              · simp [tickets]
              · simp only [tickets]
                intro x hx
                exact List.mem_cons_of_mem _ hx
            | some r =>
              have hm := unlinkNextTicket_mem rest t r hu
              simp only [tickets]
              intro x hx
              rcases List.mem_cons.mp hx with hx | hx
              · rw [hx]; simp
              · have := hm x hx
                simp [this]
      · simp only [removeFromTicketList, hc, if_false]
        cases hu : unlinkNextTicket next t with
        | none =>
          simp only []
          split
          · simp [tickets]
          · exact fun x hx => hx
        | some r =>
          have hm := unlinkNextTicket_mem next t r hu
          simp only [tickets]
          intro x hx
          rcases List.mem_cons.mp hx with hx | hx
          · rw [hx]; simp
          · exact List.mem_cons_of_mem _ (hm x hx)

theorem uinc_lt_UINT (x : Nat) : uinc x < UINT := by
  unfold uinc
  exact Nat.mod_lt _ (by decide)

theorem uinc_add (x j : Nat) : (uinc x + j) % UINT = (x + (j + 1)) % UINT := by
  unfold uinc
  rw [Nat.add_mod, Nat.mod_mod, ← Nat.add_mod]
  congr 1
  omega

/-- What the loop of `incrementTicket` computes: starting from `ticket_tail = a`
it passes `k` consecutive values (modulo 2^32), each of them a ticket of
`exitedTickets`, and stops at a value that is not in what is left of
`exitedTickets`, which holds only tickets that were there before. -/
theorem incrementTicketLoop_spec (fuel : Nat) (d : osprd_info)
    (hf : ticketNodes d.exitedTickets ≤ fuel) (ht : d.ticket_tail < UINT) :
    ∃ k, k ≤ ticketNodes d.exitedTickets ∧
      (incrementTicketLoop fuel d).ticket_tail = (d.ticket_tail + k) % UINT ∧
      (∀ j, j < k → (d.ticket_tail + j) % UINT ∈ tickets d.exitedTickets) ∧
      (incrementTicketLoop fuel d).ticket_tail ∉
        tickets (incrementTicketLoop fuel d).exitedTickets ∧
      (∀ x ∈ tickets (incrementTicketLoop fuel d).exitedTickets, x ∈ tickets d.exitedTickets) := by
  induction fuel generalizing d with
  | zero =>
    have hnil : tickets d.exitedTickets = [] := by
      cases hl : d.exitedTickets with
      | none => rfl
      | some tl =>
        rw [hl] at hf
        simp only [ticketNodes, Nat.le_zero, List.length_eq_zero] at hf
        simp [tickets, hf]
    refine ⟨0, Nat.zero_le _, ?_, ?_, ?_, ?_⟩
    · simp [incrementTicketLoop, Nat.mod_eq_of_lt ht]
    · intro j hj; omega
    · simp [incrementTicketLoop, hnil]
    · simp [incrementTicketLoop]
  | succ n ih =>
    by_cases h0 : isInTicketList d.exitedTickets d.ticket_tail = 0
    · have hnot : d.ticket_tail ∉ tickets d.exitedTickets := by
        intro hm
        exact (isInTicketList_ne_zero _ _).mpr hm h0
      refine ⟨0, Nat.zero_le _, ?_, ?_, ?_, ?_⟩
      · unfold incrementTicketLoop
        rw [if_pos h0]
        simp [Nat.mod_eq_of_lt ht]
      · intro j hj; omega
      · unfold incrementTicketLoop
        rw [if_pos h0]; exact hnot
      · unfold incrementTicketLoop
        rw [if_pos h0]; exact fun x hx => hx
    · have hin : d.ticket_tail ∈ tickets d.exitedTickets := (isInTicketList_ne_zero _ _).mp h0
      have hlt := removeFromTicketList_nodes d.exitedTickets d.ticket_tail h0
      have hle : ticketNodes (removeFromTicketList d.exitedTickets d.ticket_tail) ≤ n := by omega
      obtain ⟨k, hk, htail, hpass, hstop, hsub⟩ := ih
        { d with
          exitedTickets := removeFromTicketList d.exitedTickets d.ticket_tail,
          ticket_tail := uinc d.ticket_tail } hle (uinc_lt_UINT _)
      simp only [] at hk htail hpass hstop hsub
      have hmem := removeFromTicketList_mem d.exitedTickets d.ticket_tail
      refine ⟨k + 1, by omega, ?_, ?_, ?_, ?_⟩
      · unfold incrementTicketLoop
        rw [if_neg h0, htail, uinc_add]
      · intro j hj
        cases j with
        | zero => simpa [Nat.mod_eq_of_lt ht] using hin
        | succ j =>
          have := hpass j (by omega)
          rw [uinc_add] at this
          exact hmem _ this
      · unfold incrementTicketLoop
        rw [if_neg h0]; exact hstop
      · unfold incrementTicketLoop
        rw [if_neg h0]
        intro x hx
        exact hmem x (hsub x hx)

/-- What `incrementTicket` computes: `ticket_tail` moves to `ticket_tail + 1 + k`
(modulo 2^32), where the `k` values passed after `ticket_tail + 1` were tickets
of `exitedTickets`; the new `ticket_tail` is not among the tickets left. -/
theorem incrementTicket_spec (d : osprd_info) :
    ∃ k, k ≤ ticketNodes d.exitedTickets ∧
      (incrementTicket d).ticket_tail = (d.ticket_tail + 1 + k) % UINT ∧
      (∀ j, j < k → (d.ticket_tail + 1 + j) % UINT ∈ tickets d.exitedTickets) ∧
      (incrementTicket d).ticket_tail ∉ tickets (incrementTicket d).exitedTickets ∧
      (∀ x ∈ tickets (incrementTicket d).exitedTickets, x ∈ tickets d.exitedTickets) := by
  obtain ⟨k, hk, htail, hpass, hstop, hsub⟩ :=
    incrementTicketLoop_spec (ticketNodes d.exitedTickets)
      { d with ticket_tail := uinc d.ticket_tail } (le_refl _) (uinc_lt_UINT _)
  simp only [] at hk htail hpass hstop hsub
  refine ⟨k, hk, ?_, ?_, hstop, hsub⟩
  · unfold incrementTicket
    rw [htail, uinc_add]
    congr 1
    omega
  · intro j hj
    have := hpass j hj
    rw [uinc_add] at this
    have e : d.ticket_tail + 1 + j = d.ticket_tail + (j + 1) := by omega
    rw [e]; exact this

/-! ## The flags and the write target -/

/-- C17 fails on the code. Task 1, the only writer of ramdisk 0, releases through
a file whose flags are `O_SYNC | F_OSPRD_LOCKED`. `f_flags &= !F_OSPRD_LOCKED` is
`f_flags &= 0`: the flags end as 0, and `O_SYNC` is lost with the locked bit.
`osprd_close_last` does the same. -/
theorem release_clears_every_flag :
    Reachable 0 { d := writeHeldDev, blocked := [] } ∧
    osprd_ioctl (world writeHeldDev) 0 (taskOf 1 (fileOn0 true (O_SYNC ||| F_OSPRD_LOCKED)))
        (fileOn0 true (O_SYNC ||| F_OSPRD_LOCKED)) Cmd.OSPRDIOCRELEASE 0 =
      Outcome.ret 0 { osprd_setup with ticket_head := 1, ticket_tail := 1 } (fileOn0 true 0) ∧
    osprd_close_last (world writeHeldDev) (taskOf 1 (fileOn0 true (O_SYNC ||| F_OSPRD_LOCKED)))
        (some (fileOn0 true (O_SYNC ||| F_OSPRD_LOCKED))) =
      (0, some ({ osprd_setup with ticket_head := 1, ticket_tail := 1 }, fileOn0 true 0)) ∧
    (O_SYNC ||| F_OSPRD_LOCKED) &&& O_SYNC = O_SYNC ∧
    (fileOn0 true 0).f_flags &&& O_SYNC = 0 :=
  ⟨writeHeld_reachable, by decide, by decide, by decide, by decide⟩

theorem sectorOfArg_small (off : Nat) (h : off < 2147483648) :
    sectorOfArg off = off / SECTOR_SIZE := by
  have h1 : off % 2 ^ BITS_PER_LONG = off := Nat.mod_eq_of_lt (by unfold BITS_PER_LONG; omega)
  have h2 : ssize_t_of off = (off : Int) := by
    unfold ssize_t_of
    simp only [h1]
    rw [if_pos]
    unfold BITS_PER_LONG
    omega
  unfold sectorOfArg
  rw [h2]
  have h3 : Int.tdiv (off : Int) (SECTOR_SIZE : Int) = ((off / SECTOR_SIZE : Nat) : Int) := by
    rw [Int.tdiv_eq_ediv (Int.ofNat_nonneg off) (Int.ofNat_nonneg SECTOR_SIZE)]
    rfl
  rw [h3]
  have h4 : off / SECTOR_SIZE < UINT := by
    unfold SECTOR_SIZE UINT
    omega
  have h5 : ((off / SECTOR_SIZE : Nat) : Int) % (UINT : Int) = ((off / SECTOR_SIZE : Nat) : Int) := by
    rw [← Int.ofNat_emod, Nat.mod_eq_of_lt h4]
  rw [h5]
  exact Int.toNat_ofNat _

theorem find_setSect (l : List process) (p v : Nat) (h : p ∈ l.map (fun q => q.info)) :
    ∃ q0, l.find? (fun q => decide (q.info = p)) = some q0 ∧ q0.info = p ∧
      (setSect l p v).find? (fun q => decide (q.info = p)) = some { q0 with sect := v } := by
  induction l with
  | nil => simp at h
  | cons q rest ih =>
    by_cases hq : q.info = p
    · refine ⟨q, by simp [hq], hq, ?_⟩
      simp [setSect, hq]
    · have h2 : p ∈ rest.map (fun q => q.info) := by
        simp only [List.map_cons, List.mem_cons] at h
        rcases h with h | h
        · exact absurd h.symm hq
        · exact h
      obtain ⟨q0, h1, h3, h4⟩ := ih h2
      refine ⟨q0, by simp [hq, h1], h3, ?_⟩
      simp [setSect, hq, h4]

theorem isInPidList_addToPidList_self (l : Option pidList) (q : process) :
    isInPidList (addToPidList l q) q.info = some q := by
  cases l <;> simp [addToPidList, isInPidList]

/-- C18, as amended. When some OSPRDIOCNOTIFY registration exists (`notifProcs`
is not NULL) and the byte offset is below 2^31, OSPRDIOCSECTOR returns 0 and
leaves the caller with a write-target record of sector `off / 512`: its record
in `writeProcs` if it has one, otherwise a new record at the head of
`writeNlkProcs`; this is the record the write notification looks up. -/
theorem sector_records_target (osprds : Nat → osprd_info) (i : Nat) (cur : task)
    (filp : file) (off : Nat) (hn : (osprds i).notifProcs ≠ none) (hoff : off < 2147483648) :
    ∃ d2 q, osprd_ioctl osprds i cur filp Cmd.OSPRDIOCSECTOR off = Outcome.ret 0 d2 filp ∧
      writerRecord d2 cur = some q ∧ q.info = cur.pid ∧ q.sect = off / SECTOR_SIZE ∧
      (cur.pid ∈ holders (osprds i).writeProcs →
        isInPidList d2.writeProcs cur.pid = some q ∧
        d2.writeNlkProcs = (osprds i).writeNlkProcs) ∧
      (cur.pid ∉ holders (osprds i).writeProcs →
        q = newProc cur.pid 0 (off / SECTOR_SIZE) ∧
        d2.writeProcs = (osprds i).writeProcs ∧
        d2.writeNlkProcs = addToPidList (osprds i).writeNlkProcs q) := by
  have hsec := sectorOfArg_small off hoff
  by_cases hh : cur.pid ∈ holders (osprds i).writeProcs
  · obtain ⟨pl, hwp⟩ : ∃ pl, (osprds i).writeProcs = some pl := by
      cases hx : (osprds i).writeProcs with
      | none => rw [hx] at hh; simp [holders] at hh
      | some pl => exact ⟨pl, rfl⟩
    have hh2 : cur.pid ∈ pl.head.map (fun q => q.info) := by
      rw [hwp] at hh; exact hh
    obtain ⟨q0, hf0, hi0, hf1⟩ := find_setSect pl.head cur.pid (sectorOfArg off) hh2
    have hq : isInPidList (osprds i).writeProcs cur.pid = some q0 := by
      rw [hwp]; exact hf0
    refine ⟨{ osprds i with
        writeProcs := some { pl with head := setSect pl.head cur.pid (sectorOfArg off) } },
      { q0 with sect := sectorOfArg off }, ?_, ?_, hi0, hsec, ?_, ?_⟩
    · have hq2 : isInPidList (some pl) cur.pid = some q0 := hf0
      simp only [osprd_ioctl, hwp, hq2]
      rw [if_pos hn]
    · simp only [writerRecord, isInPidList, hf1]
    · intro _
      exact ⟨by simp only [isInPidList, hf1], rfl⟩
    · intro hx
      exact absurd hh hx
  · have hq : isInPidList (osprds i).writeProcs cur.pid = none := by
      have := (isInPidList_none _ _).mpr hh
      cases hx : isInPidList (osprds i).writeProcs cur.pid
      · rfl
      · rw [hx] at this; simp at this
    have hself := isInPidList_addToPidList_self (osprds i).writeNlkProcs
      (newProc cur.pid 0 (sectorOfArg off))
    have hinfo : (newProc cur.pid 0 (sectorOfArg off)).info = cur.pid := rfl
    rw [hinfo] at hself
    refine ⟨{ osprds i with
        writeNlkProcs := addToPidList (osprds i).writeNlkProcs
          (newProc cur.pid 0 (sectorOfArg off)) },
      newProc cur.pid 0 (sectorOfArg off), ?_, ?_, rfl, hsec, ?_, ?_⟩
    · simp only [osprd_ioctl, hq]
      rw [if_pos hn]
    · simp only [writerRecord, hq, hself]
    · intro hx
      exact absurd hx hh
    · intro _
      exact ⟨by rw [hsec], rfl, rfl⟩

/-- C18, as amended, at a concrete input: task 2 calls OSPRDIOCSECTOR with offset
1536 on ramdisk 0, where task 1 and task 2 are registered for notification. -/
theorem sector_records_target_witness :
    ∃ d2 q, osprd_ioctl (world notifDev) 0 (taskOf 2 (fileOn0 true O_SYNC))
        (fileOn0 true O_SYNC) Cmd.OSPRDIOCSECTOR 1536 =
        Outcome.ret 0 d2 (fileOn0 true O_SYNC) ∧
      writerRecord d2 (taskOf 2 (fileOn0 true O_SYNC)) = some q ∧
      q.info = (taskOf 2 (fileOn0 true O_SYNC)).pid ∧ q.sect = 1536 / SECTOR_SIZE ∧
      ((taskOf 2 (fileOn0 true O_SYNC)).pid ∈ holders (world notifDev 0).writeProcs →
        isInPidList d2.writeProcs (taskOf 2 (fileOn0 true O_SYNC)).pid = some q ∧
        d2.writeNlkProcs = (world notifDev 0).writeNlkProcs) ∧
      ((taskOf 2 (fileOn0 true O_SYNC)).pid ∉ holders (world notifDev 0).writeProcs →
        q = newProc (taskOf 2 (fileOn0 true O_SYNC)).pid 0 (1536 / SECTOR_SIZE) ∧
        d2.writeProcs = (world notifDev 0).writeProcs ∧
        d2.writeNlkProcs = addToPidList (world notifDev 0).writeNlkProcs q) :=
  sector_records_target (world notifDev) 0 (taskOf 2 (fileOn0 true O_SYNC))
    (fileOn0 true O_SYNC) 1536 (by decide) (by decide)

/-- C18 fails as stated. On a freshly set-up ramdisk (`notifProcs` is NULL)
OSPRDIOCSECTOR with offset 1536 returns 0 and changes nothing: the caller has
no record in `writeProcs` or `writeNlkProcs`, so the lookup of the write
notification finds nothing. And an offset of 2^32 - 512 is negative as an
`ssize_t`: the sector stored is 4294967295, not 8388607. -/
theorem sector_without_notify_records_nothing :
    osprd_ioctl (world osprd_setup) 0 (taskOf 2 (fileOn0 true O_SYNC)) (fileOn0 true O_SYNC)
        Cmd.OSPRDIOCSECTOR 1536 = Outcome.ret 0 osprd_setup (fileOn0 true O_SYNC) ∧
    writerRecord osprd_setup (taskOf 2 (fileOn0 true O_SYNC)) = none ∧
    sectorOfArg 4294966784 = 4294967295 ∧ 4294966784 / SECTOR_SIZE = 8388607 := by
  decide

/-! ## OSPRDIOCNOTIFY: what the call returns and what it leaves -/

/-- C11, as amended. Whatever `wait_event_interruptible` returned, in write
mode and in read mode, OSPRDIOCNOTIFY returns 0. -/
theorem notify_returns_zero (filp : file) (waitRet : Int) (d : osprd_info) :
    (notify_woken filp waitRet d).retval = some 0 := by
  unfold notify_woken
  split <;> split <;> rfl

/-- C11 fails as stated. Task 1 registers for sector 3 of a freshly set-up
ramdisk; the condition of its wait is false; when a signal ends the wait
(`wait_event_interruptible` returns -ERESTARTSYS) the call returns 0, in read
mode and in write mode. -/
theorem notify_interrupted_returns_zero :
    osprd_ioctl (world osprd_setup) 0 (taskOf 1 (fileOn0 false O_SYNC)) (fileOn0 false O_SYNC)
        Cmd.OSPRDIOCNOTIFY 4 =
      Outcome.notifyWait 3
        { osprd_setup with notifProcs := some { head := [newProc 1 1 0], size := 1 } }
        (fileOn0 false O_SYNC) ∧
    notify_pred (newProc 1 1 0) 3 = some false ∧
    (notify_woken (fileOn0 false O_SYNC) (-ERESTARTSYS)
        { osprd_setup with notifProcs := some { head := [newProc 1 1 0], size := 1 } }).retval =
      some 0 ∧
    (notify_woken (fileOn0 true O_SYNC) (-ERESTARTSYS)
        { osprd_setup with notifProcs := some { head := [newProc 1 1 0], size := 1 } }).retval =
      some 0 ∧
    (0 : Int) ≠ -ERESTARTSYS := by
  decide

theorem notified_reachable : Reachable 0 { d := notifiedDev, blocked := [] } :=
  Reachable.step _ _
    (Reachable.step _ _
      (Reachable.step _ _ Reachable.setup
        (Step.ioctl_notifyWait { d := osprd_setup, blocked := [] } (world osprd_setup)
          (taskOf 1 (fileOn0 false O_SYNC)) (fileOn0 false O_SYNC) Cmd.OSPRDIOCNOTIFY 1 0
          { osprd_setup with notifProcs := some { head := [newProc 1 1 0], size := 1 } }
          (fileOn0 false O_SYNC) rfl (callerOK_fresh _ _ _ (by decide) rfl) (by decide)))
      (Step.ioctl_ret _
        (world { osprd_setup with notifProcs := some { head := [newProc 1 1 0], size := 1 } })
        (taskOf 2 (fileOn0 true O_SYNC)) (fileOn0 true O_SYNC) Cmd.OSPRDIOCSECTOR 0 0
        { osprd_setup with
          notifProcs := some { head := [newProc 1 1 0], size := 1 },
          writeNlkProcs := some { head := [newProc 2 0 0], size := 1 } }
        (fileOn0 true O_SYNC) rfl (callerOK_fresh _ _ _ (by decide) rfl) (by decide)))
    (Step.write _ (taskOf 2 (fileOn0 true O_SYNC)) notifiedDev (by decide))

/-- C19 fails as stated. Task 1 registered for sector 0, a write by task 2 with
target sector 0 was processed, so the condition of the wait of task 1 holds and
its call returns 0; its record is still the head of `notifProcs`. -/
theorem notify_record_not_consumed :
    Reachable 0 { d := notifiedDev, blocked := [] } ∧
    notify_pred (markWritten 0 (newProc 1 1 0)) 0 = some true ∧
    notify_woken (fileOn0 false O_SYNC) 0 notifiedDev =
      Outcome.ret 0 notifiedDev (fileOn0 false O_SYNC) ∧
    isInPidList notifiedDev.notifProcs 1 = some (markWritten 0 (newProc 1 1 0)) :=
  ⟨notified_reachable, by decide, by decide, by decide⟩

/-! ## The write notification and the condition of the OSPRDIOCNOTIFY wait -/

/-- A processed write notification on a ramdisk with registered records: the
writer has a record, its `sect` is below 32, and every record of `notifProcs`
gets `reqNotif = 0` and `sectors[sect] = 1`; nothing else changes. -/
theorem process_request_write_eq (w : task) (d d2 : osprd_info) (r0 : process)
    (rest : List process) (sz : Nat)
    (hn : d.notifProcs = some { head := r0 :: rest, size := sz })
    (h : osprd_process_request_write w d = some d2) :
    ∃ q, writerRecord d w = some q ∧ q.sect < 32 ∧
      d2 =
        { d with
          notifProcs := some { head := (r0 :: rest).map (markWritten q.sect), size := sz } } := by
  unfold osprd_process_request_write at h
  rw [hn] at h
  simp only [] at h
  cases hq : writerRecord d w with
  | none =>
    unfold writerRecord at hq
    rw [hq] at h
    cases h
  | some q =>
    unfold writerRecord at hq
    rw [hq] at h
    simp only [] at h
    by_cases hs : q.sect < 32
    · rw [if_pos hs] at h
      simp only [Option.some.injEq] at h
      exact ⟨q, rfl, hs, by rw [← h]; rfl⟩
    · rw [if_neg hs] at h
      cases h

theorem writerSect_notif (d : osprd_info) (nl : Option pidList) (w : task) :
    writerSect { d with notifProcs := nl } w = writerSect d w := rfl

theorem processWrites_head (ws : List task) (d d2 : osprd_info) (r0 : process)
    (rest : List process) (sz : Nat)
    (hn : d.notifProcs = some { head := r0 :: rest, size := sz })
    (h : processWrites ws d = some d2) :
    (∃ rest2, d2.notifProcs = some
      { head := (ws.map (writerSect d)).foldl (fun r t => markWritten t r) r0 :: rest2,
        size := sz }) ∧
    ∀ t ∈ ws.map (writerSect d), t < 32 := by
  induction ws generalizing d r0 rest with
  | nil =>
    simp only [processWrites, Option.some.injEq] at h
    subst h
    exact ⟨⟨rest, by simpa using hn⟩, by simp⟩
  | cons w ws ih =>
    unfold processWrites at h
    cases hw : osprd_process_request_write w d with
    | none => rw [hw] at h; cases h
    | some d1 =>
      rw [hw] at h
      simp only [] at h
      obtain ⟨q, hq, hs, hd1⟩ := process_request_write_eq w d d1 r0 rest sz hn hw
      have hsect : writerSect d w = q.sect := by simp [writerSect, hq]
      have hn1 : d1.notifProcs = some
          { head := markWritten q.sect r0 :: rest.map (markWritten q.sect), size := sz } := by
        rw [hd1]; rfl
      have hfun : writerSect d1 = writerSect d := by
        funext x
        rw [hd1]
        exact writerSect_notif d _ x
      obtain ⟨⟨rest2, hr2⟩, hb⟩ := ih d1 (markWritten q.sect r0) _ hn1 h
      rw [hfun] at hr2 hb
      refine ⟨⟨rest2, ?_⟩, ?_⟩
      · rw [hr2]
        simp only [List.map_cons, List.foldl_cons, hsect]
      · intro t ht
        simp only [List.map_cons, List.mem_cons] at ht
        rcases ht with ht | ht
        · rw [ht, hsect]; exact hs
        · exact hb t ht

theorem foldl_markWritten (ss : List Nat) (r0 : process) (s : Nat) (hs : s < r0.sectors.length) :
    (ss.foldl (fun r t => markWritten t r) r0).info = r0.info ∧
    (ss.foldl (fun r t => markWritten t r) r0).sectors.length = r0.sectors.length ∧
    (ss.foldl (fun r t => markWritten t r) r0).reqNotif = (if ss = [] then r0.reqNotif else 0) ∧
    (ss.foldl (fun r t => markWritten t r) r0).sectors[s]? =
      (if s ∈ ss then some 1 else r0.sectors[s]?) := by
  induction ss generalizing r0 with
  | nil => simp
  | cons t ss ih =>
    have hlen : (markWritten t r0).sectors.length = r0.sectors.length := by
      simp [markWritten]
    obtain ⟨h1, h2, h3, h4⟩ := ih (markWritten t r0) (by rw [hlen]; exact hs)
    simp only [List.foldl_cons]
    refine ⟨by rw [h1]; rfl, by rw [h2, hlen], ?_, ?_⟩
    · rw [h3]
      by_cases hss : ss = [] <;> simp [hss, markWritten]
    · rw [h4]
      by_cases hm : s ∈ ss
      · simp [hm]
      · by_cases hst : s = t
        · subst hst
          simp [hm, markWritten, List.getElem?_set_self, hs]
        · have hts : t ≠ s := fun e => hst e.symm
          simp [hm, hst, markWritten, List.getElem?_set_ne hts]

theorem find_map_markWritten (l : List process) (t pid : Nat) :
    (l.map (markWritten t)).find? (fun q => decide (q.info = pid)) =
      (l.find? (fun q => decide (q.info = pid))).map (markWritten t) := by
  induction l with
  | nil => rfl
  | cons q rest ih =>
    by_cases hq : q.info = pid
    · have hq2 : (markWritten t q).info = pid := hq
      simp [List.find?_cons, hq, hq2]
    · have hq2 : ¬ (markWritten t q).info = pid := hq
      simp only [List.map_cons, List.find?_cons, hq, hq2, decide_False]
      exact ih

theorem notify_pred_markWritten (rec : process) (t s : Nat) (hs : s < rec.sectors.length) :
    notify_pred (markWritten t rec) s =
      some (decide (t = s ∨ rec.sectors[s]? = some 1)) := by
  unfold notify_pred
  have h0 : (markWritten t rec).reqNotif = 0 := rfl
  rw [if_pos h0]
  by_cases hts : t = s
  · subst hts
    have : (markWritten t rec).sectors[t]? = some 1 := by
      simp [markWritten, List.getElem?_set_self, hs]
    rw [this]
    simp
  · have hset : (markWritten t rec).sectors[s]? = rec.sectors[s]? := by
      simp [markWritten, List.getElem?_set_ne hts]
    rw [hset]
    have hget : rec.sectors[s]? = some (rec.sectors.get ⟨s, hs⟩) := by
      simp [List.getElem?_eq_getElem, hs]
    rw [hget]
    simp [hts]

/-- One processed write notification, in any state: the record `isInPidList`
finds for `pid` in `notifProcs` gets `reqNotif = 0` and `sectors[sect] = 1` for
the `sect` of the writer's record at that moment, so the wait condition on
sector `s` becomes true if `sect = s`, and otherwise is true only if
`sectors[s]` was 1 already. -/
theorem notify_pred_one_write (s pid : Nat) (d d2 : osprd_info) (w : task) (rec : process)
    (hrec : isInPidList d.notifProcs pid = some rec) (hs : s < rec.sectors.length)
    (hw : osprd_process_request_write w d = some d2) :
    ∃ q, writerRecord d w = some q ∧
      isInPidList d2.notifProcs pid = some (markWritten q.sect rec) ∧
      notify_pred (markWritten q.sect rec) s =
        some (decide (q.sect = s ∨ rec.sectors[s]? = some 1)) := by
  obtain ⟨nl, hnl⟩ : ∃ nl, d.notifProcs = some nl := by
    cases hx : d.notifProcs with
    | none => rw [hx] at hrec; cases hrec
    | some nl => exact ⟨nl, rfl⟩
  rw [hnl] at hrec
  simp only [isInPidList] at hrec
  obtain ⟨hd, sz⟩ := nl
  cases hd with
  | nil => simp at hrec
  | cons r0 rest =>
    obtain ⟨q, hq, _, hd2⟩ := process_request_write_eq w d d2 r0 rest sz hnl hw
    refine ⟨q, hq, ?_, notify_pred_markWritten rec q.sect s hs⟩
    rw [hd2]
    simp only [isInPidList]
    rw [find_map_markWritten, hrec]
    rfl

theorem notify_pred_after_writes (s : Nat) (hs : s < 32) (d1 : osprd_info) (pid : Nat)
    (rest : List process) (sz : Nat)
    (hn : d1.notifProcs = some { head := newProc pid 1 0 :: rest, size := sz })
    (ws : List task) (d2 : osprd_info) (hw : processWrites ws d1 = some d2) :
    ∃ rec, isInPidList d2.notifProcs pid = some rec ∧
      notify_pred rec s = some (decide (s ∈ ws.map (writerSect d1))) := by
  obtain ⟨⟨rest2, hr2⟩, _⟩ := processWrites_head ws d1 d2 _ rest sz hn hw
  have hlen : s < (newProc pid 1 0).sectors.length := by
    simp [newProc]; exact hs
  obtain ⟨h1, _, h3, h4⟩ := foldl_markWritten (ws.map (writerSect d1)) (newProc pid 1 0) s hlen
  refine ⟨(ws.map (writerSect d1)).foldl (fun r t => markWritten t r) (newProc pid 1 0), ?_, ?_⟩
  · rw [hr2]
    simp only [isInPidList, List.find?_cons]
    rw [h1]
    simp [newProc]
  · unfold notify_pred
    rw [h3, h4]
    have h0 : (newProc pid 1 0).sectors[s]? = some 0 := by
      show (List.replicate 32 (0 : Int))[s]? = some 0
      rw [List.getElem?_replicate, if_pos hs]
    by_cases hm : s ∈ ws.map (writerSect d1)
    · have hne : ws.map (writerSect d1) ≠ [] := by
        intro e; rw [e] at hm; simp at hm
      simp [hm, hne]
    · by_cases he : ws.map (writerSect d1) = []
      · simp [he, newProc]
      · simp [hm, he, h0]

/-! ## The ticket counters -/

/-- With `ticket_tail` and all exited tickets below a bound `H` that fits in an
`unsigned`, `incrementTicket` moves `ticket_tail` strictly up and not past `H`. -/
theorem incrementTicket_le (d : osprd_info) (H : Nat) (hH : H < UINT)
    (ht : d.ticket_tail < H) (hx : ∀ x ∈ tickets d.exitedTickets, x < H) :
    d.ticket_tail < (incrementTicket d).ticket_tail ∧
    (incrementTicket d).ticket_tail ≤ H ∧
    ∀ x ∈ tickets (incrementTicket d).exitedTickets, x < H := by
  obtain ⟨k, _, htail, hpass, _, hsub⟩ := incrementTicket_spec d
  have hall : ∀ j, j ≤ k → d.ticket_tail + 1 + j ≤ H := by
    intro j
    induction j with
    | zero => intro _; omega
    | succ j ih =>
      intro hj
      have h1 := ih (by omega)
      have h2 := hpass j (by omega)
      rw [Nat.mod_eq_of_lt (by omega)] at h2
      have := hx _ h2
      omega
  have hk := hall k (le_refl _)
  rw [Nat.mod_eq_of_lt (by omega)] at htail
  refine ⟨by omega, by omega, ?_⟩
  intro x hxm
  exact hx x (hsub x hxm)

theorem uinc_ne (x : Nat) : uinc x ≠ x := by
  unfold uinc UINT
  omega

/-- OSPRDIOCTRYACQUIRE when the test of line 721 passes: the state handed to
`incrementTicket`. -/
theorem tryacquire_ok_dev (osprds : Nat → osprd_info) (i : Nat) (cur : task) (filp : file)
    (arg : Nat) (h : tryCond osprds i cur filp) :
    ∃ d0, osprd_ioctl osprds i cur filp Cmd.OSPRDIOCTRYACQUIRE arg =
        Outcome.ret 0 (incrementTicket d0)
          { filp with f_flags := filp.f_flags ||| F_OSPRD_LOCKED } ∧
      d0.ticket_head = uinc (osprds i).ticket_head ∧
      d0.ticket_tail = (osprds i).ticket_tail ∧
      d0.exitedTickets = (osprds i).exitedTickets ∧
      d0.isHoldingOtherLocks = 0 ∧
      d0.notifProcs = (osprds i).notifProcs ∧
      d0.writeNlkProcs = (osprds i).writeNlkProcs ∧
      (filp.f_mode_write = true →
        d0.writeProcs = addToPidList none (newProc cur.pid 0 0) ∧ d0.readProcs = none) ∧
      (filp.f_mode_write = false →
        d0.readProcs = addToPidList (osprds i).readProcs (newProc cur.pid 0 0) ∧
        d0.writeProcs = none) := by
  obtain ⟨h1, h2, h3⟩ := h
  have hflag := h2
  unfold scannedFlag at h2
  have hcond : (osprds i).writeProcs = none ∧
      (if cur.files.any (scanHit osprds i cur.pid (osprds i)) = true then (1 : Int)
        else (osprds i).isHoldingOtherLocks) = 0 ∧
      (!filp.f_mode_write || decide ((osprds i).readProcs = none)) = true := by
    refine ⟨h1, h2, ?_⟩
    rcases h3 with h3 | h3
    · simp [h3]
    · simp [h3]
  by_cases hw : filp.f_mode_write = true
  · have hr : (osprds i).readProcs = none := by
      rcases h3 with h3 | h3
      · rw [hw] at h3; cases h3
      · exact h3
    refine ⟨
      { osprds i with
        isHoldingOtherLocks := scannedFlag osprds i cur (osprds i),
        ticket_head := uinc (osprds i).ticket_head,
        writeProcs := addToPidList (osprds i).writeProcs (newProc cur.pid 0 0) },
      ?_, rfl, rfl, rfl, hflag, rfl, rfl, ?_, ?_⟩
    · simp only [osprd_ioctl, for_each_open_file_eq]
      rw [if_pos hcond]
      simp only [hw, if_true, scannedFlag]
    · intro _
      exact ⟨by simp only [h1], hr⟩
    · intro hx; rw [hw] at hx; cases hx
  · have hw2 : filp.f_mode_write = false := by
      cases hx : filp.f_mode_write
      · rfl
      · exact absurd hx hw
    refine ⟨
      { osprds i with
        isHoldingOtherLocks := scannedFlag osprds i cur (osprds i),
        ticket_head := uinc (osprds i).ticket_head,
        readProcs := addToPidList (osprds i).readProcs (newProc cur.pid 0 0) },
      ?_, rfl, rfl, rfl, hflag, rfl, rfl, ?_, ?_⟩
    · simp only [osprd_ioctl, for_each_open_file_eq]
      rw [if_pos hcond]
      simp [hw2, scannedFlag]
    · intro hx; rw [hw2] at hx; cases hx
    · intro _
      exact ⟨rfl, h1⟩

theorem TicketInv_same (n : Nat) (d d2 : osprd_info) (b : List Waiter)
    (h : TicketInv n { d := d, blocked := b }) (h1 : d2.ticket_head = d.ticket_head)
    (h2 : d2.ticket_tail = d.ticket_tail) (h3 : d2.exitedTickets = d.exitedTickets) :
    TicketInv (if d2.ticket_head = d.ticket_head then n else n + 1)
      { d := d2, blocked := b } := by
  rw [if_pos h1]
  unfold TicketInv at *
  simp only [] at *
  rw [h1, h2, h3]
  exact h

/-- A step that hands out a ticket and then calls `incrementTicket`. -/
theorem TicketInv_issue_increment (n : Nat) (d d0 : osprd_info) (b : List Waiter)
    (h : TicketInv n { d := d, blocked := b })
    (hn : (if (incrementTicket d0).ticket_head = d.ticket_head then n else n + 1) < UINT)
    (h1 : d0.ticket_head = uinc d.ticket_head) (h2 : d0.ticket_tail = d.ticket_tail)
    (h3 : d0.exitedTickets = d.exitedTickets) :
    TicketInv (if (incrementTicket d0).ticket_head = d.ticket_head then n else n + 1)
      { d := incrementTicket d0, blocked := b } := by
  obtain ⟨a1, a2, a3, a4⟩ := h
  simp only [] at a1 a2 a3 a4
  have hhead : (incrementTicket d0).ticket_head = uinc n := by
    rw [(incrementTicket_frame d0).2.2.1, h1, a1]
  have hne : ¬ (incrementTicket d0).ticket_head = d.ticket_head := by
    rw [hhead, a1]; exact uinc_ne n
  rw [if_neg hne] at hn ⊢
  have hu : uinc n = n + 1 := uinc_lt n hn
  have hb := incrementTicket_le d0 (n + 1) hn (by rw [h2]; omega)
    (by rw [h3]; intro x hx; have := a3 x hx; omega)
  refine ⟨by simp only []; rw [hhead, hu], hb.2.1, hb.2.2, ?_⟩
  intro w hw
  have := a4 w hw
  simp only [] at this ⊢
  omega

/-- A step that calls `incrementTicket` for a ticket already handed out, the
current one. -/
theorem TicketInv_increment (n : Nat) (d d0 : osprd_info) (b b2 : List Waiter)
    (h : TicketInv n { d := d, blocked := b }) (hn : n < UINT)
    (hcur : d.ticket_tail < n) (hb2 : ∀ w ∈ b2, w ∈ b)
    (h1 : d0.ticket_head = d.ticket_head) (h2 : d0.ticket_tail = d.ticket_tail)
    (h3 : d0.exitedTickets = d.exitedTickets) :
    TicketInv (if (incrementTicket d0).ticket_head = d.ticket_head then n else n + 1)
      { d := incrementTicket d0, blocked := b2 } := by
  obtain ⟨a1, a2, a3, a4⟩ := h
  simp only [] at a1 a2 a3 a4
  have hhead : (incrementTicket d0).ticket_head = d.ticket_head := by
    rw [(incrementTicket_frame d0).2.2.1, h1]
  rw [if_pos hhead]
  have hb := incrementTicket_le d0 n hn (by rw [h2]; exact hcur) (by rw [h3]; exact a3)
  exact ⟨by simp only []; rw [hhead, a1], hb.2.1, hb.2.2, fun w hw => a4 w (hb2 w hw)⟩

theorem acquire_pred_true (w : Bool) (t : Nat) (d : osprd_info)
    (h : acquire_pred w t d = true) :
    t = d.ticket_tail ∧ d.writeProcs = none ∧ (w = true → d.readProcs = none) := by
  unfold acquire_pred at h
  cases w
  · simp only [Bool.false_eq_true, if_false, Bool.and_eq_true, decide_eq_true_eq] at h
    exact ⟨h.1, h.2, fun hx => by cases hx⟩
  · simp only [if_true, Bool.and_eq_true, decide_eq_true_eq] at h
    exact ⟨h.1.1, h.2, fun _ => h.1.2⟩

theorem Step_TicketInv (i n : Nat) (s t : Sys) (hs : TicketInv n s) (hst : Step i s t)
    (hn : (if t.d.ticket_head = s.d.ticket_head then n else n + 1) < UINT) :
    TicketInv (if t.d.ticket_head = s.d.ticket_head then n else n + 1) t := by
  have hn0 : n < UINT := by
    split at hn <;> omega
  cases hst with
  | ioctl_ret osprds cur filp cmd arg r d2 f2 hd hc hio =>
    obtain ⟨db, bl⟩ := s
    simp only [] at hd hc hn ⊢
    subst hd
    cases cmd with
    | OSPRDIOCSECTOR =>
      obtain ⟨d, hd, _, _, _, _, h5, h6, h7⟩ := sector_eq osprds i cur filp arg
      rw [hd] at hio
      simp only [Outcome.ret.injEq] at hio
      obtain ⟨_, hdd, _⟩ := hio
      subst hdd
      exact TicketInv_same n _ _ _ hs h5 h6 h7
    | OSPRDIOCNOTIFY => rw [notify_eq] at hio; cases hio
    | OSPRDIOCACQUIRE =>
      by_cases hcnd : cur.pid ∉ holders (osprds i).readProcs ∧
          cur.pid ∉ holders (osprds i).writeProcs ∧ scannedFlag osprds i cur (osprds i) = 0
      · rw [acquire_wait osprds i cur filp arg hcnd.1 hcnd.2.1 hcnd.2.2] at hio; cases hio
      · rw [acquire_deadlock osprds i cur filp arg hcnd] at hio
        simp only [Outcome.ret.injEq] at hio
        obtain ⟨_, hdd, _⟩ := hio
        subst hdd
        exact TicketInv_issue_increment n _ _ _ hs hn rfl rfl rfl
    | OSPRDIOCTRYACQUIRE =>
      by_cases hcnd : tryCond osprds i cur filp
      · obtain ⟨d0, hd, h1, h2, h3, _⟩ := tryacquire_ok_dev osprds i cur filp arg hcnd
        rw [hd] at hio
        simp only [Outcome.ret.injEq] at hio
        obtain ⟨_, hdd, _⟩ := hio
        subst hdd
        exact TicketInv_issue_increment n _ _ _ hs hn h1 h2 h3
      · rw [tryacquire_busy osprds i cur filp arg hcnd] at hio
        simp only [Outcome.ret.injEq] at hio
        obtain ⟨_, hdd, _⟩ := hio
        subst hdd
        exact TicketInv_same n _ _ _ hs rfl rfl rfl
    | OSPRDIOCRELEASE =>
      obtain ⟨d, f, hd, _, _, _, _, h5, h6, h7, _⟩ := release_eq osprds i cur filp arg
      rw [hd] at hio
      simp only [Outcome.ret.injEq] at hio
      obtain ⟨_, hdd, _⟩ := hio
      subst hdd
      exact TicketInv_same n _ _ _ hs h5 h6 h7
    | other =>
      simp only [osprd_ioctl, Outcome.ret.injEq] at hio
      obtain ⟨_, hdd, _⟩ := hio
      subst hdd
      exact TicketInv_same n _ _ _ hs rfl rfl rfl
  | ioctl_acquireWait osprds cur filp cmd arg tk d2 f2 hd hc hio =>
    obtain ⟨db, bl⟩ := s
    simp only [] at hd hc hn ⊢
    subst hd
    have hcmd := ioctl_acquireWait_cmd osprds i cur filp cmd arg tk d2 f2 hio
    subst hcmd
    by_cases hcnd : cur.pid ∉ holders (osprds i).readProcs ∧
        cur.pid ∉ holders (osprds i).writeProcs ∧ scannedFlag osprds i cur (osprds i) = 0
    · rw [acquire_wait osprds i cur filp arg hcnd.1 hcnd.2.1 hcnd.2.2] at hio
      simp only [Outcome.acquireWait.injEq] at hio
      obtain ⟨htk, hdd, _⟩ := hio
      subst hdd
      subst htk
      obtain ⟨a1, a2, a3, a4⟩ := hs
      simp only [] at a1 a2 a3 a4 hn ⊢
      have hne : ¬ uinc (osprds i).ticket_head = (osprds i).ticket_head := uinc_ne _
      rw [if_neg hne] at hn ⊢
      have hu : uinc n = n + 1 := uinc_lt n hn
      refine ⟨by simp only []; rw [a1, hu], by simp only []; omega, ?_, ?_⟩
      · intro x hx
        have := a3 x hx
        omega
      · intro w hw
        rcases List.mem_cons.mp hw with hw | hw
        · subst hw
          simp only []
          omega
        · have := a4 w hw
          omega
    · rw [acquire_deadlock osprds i cur filp arg hcnd] at hio; cases hio
  | ioctl_notifyWait osprds cur filp cmd arg sec d2 f2 hd hc hio =>
    obtain ⟨db, bl⟩ := s
    simp only [] at hd hc hn ⊢
    subst hd
    have h := ioctl_notifyWait_lists osprds i cur filp cmd arg sec d2 f2 hio
    have hcmd := h.1
    subst hcmd
    rw [notify_eq] at hio
    simp only [Outcome.notifyWait.injEq] at hio
    obtain ⟨_, hdd, _⟩ := hio
    subst hdd
    exact TicketInv_same n _ _ _ hs rfl rfl rfl
  | granted w files r d2 f2 hw hpred hio =>
    obtain ⟨db, bl⟩ := s
    simp only [] at hw hpred hio hn ⊢
    have hp := acquire_pred_true _ _ _ hpred
    have hcur : db.ticket_tail < n := by
      rw [← hp.1]
      exact hs.2.2.2 w hw
    have hsub : ∀ x ∈ bl.erase w, x ∈ bl := fun x hx => List.mem_of_mem_erase hx
    unfold acquire_granted at hio
    split at hio
    · simp only [Outcome.ret.injEq] at hio
      obtain ⟨_, hdd, _⟩ := hio
      subst hdd
      exact TicketInv_increment n _ _ _ _ hs hn0 hcur hsub rfl rfl rfl
    · simp only [Outcome.ret.injEq] at hio
      obtain ⟨_, hdd, _⟩ := hio
      subst hdd
      exact TicketInv_increment n _ _ _ _ hs hn0 hcur hsub rfl rfl rfl
  | interrupted w r d2 f2 hw hio =>
    obtain ⟨db, bl⟩ := s
    simp only [] at hw hio hn ⊢
    have hwt : w.curTicket < n := hs.2.2.2 w hw
    have hsub : ∀ x ∈ bl.erase w, x ∈ bl := fun x hx => List.mem_of_mem_erase hx
    unfold acquire_interrupted at hio
    split at hio
    · rename_i heq
      simp only [Outcome.ret.injEq] at hio
      obtain ⟨_, hdd, _⟩ := hio
      subst hdd
      exact TicketInv_increment n _ _ _ _ hs hn0 (by rw [heq]; exact hwt) hsub rfl rfl rfl
    · simp only [Outcome.ret.injEq] at hio
      obtain ⟨_, hdd, _⟩ := hio
      subst hdd
      obtain ⟨a1, a2, a3, a4⟩ := hs
      simp only [] at a1 a2 a3 a4 ⊢
      rw [if_pos True.intro]
      refine ⟨a1, a2, ?_, fun x hx => a4 x (hsub x hx)⟩
      intro x hx
      simp only [] at hx
      have hx2 : x ∈ w.curTicket :: tickets db.exitedTickets := by
        cases hl : db.exitedTickets <;> rw [hl] at hx <;>
          simpa [addToTicketList, tickets] using hx
      rcases List.mem_cons.mp hx2 with hx3 | hx3
      · rw [hx3]; exact hwt
      · exact a3 x hx3
  | close osprds cur filp r d2 f2 hd hnb hfi hio =>
    obtain ⟨db, bl⟩ := s
    simp only [] at hd hnb hio hn ⊢
    subst hd
    obtain ⟨d, f, hcl, _, _, _, _, h5, h6, h7, _⟩ := close_last_eq osprds i cur filp hfi
    rw [hcl] at hio
    simp only [Prod.mk.injEq, Option.some.injEq] at hio
    obtain ⟨_, hdd, _⟩ := hio
    subst hdd
    exact TicketInv_same n _ _ _ hs h5 h6 h7
  | write cur d2 hio =>
    obtain ⟨db, bl⟩ := s
    simp only [] at hio hn ⊢
    have h := process_request_write_lists cur db d2 hio
    exact TicketInv_same n _ _ _ hs h.2.2.1 h.2.2.2.1 h.2.2.2.2

/-- Every state reached with fewer than 2^32 tickets handed out satisfies the
ticket invariant. -/
theorem ReachableN_TicketInv (i n : Nat) (s : Sys) (h : ReachableN i n s) (hn : n < UINT) :
    TicketInv n s := by
  induction h with
  | setup =>
    refine ⟨rfl, Nat.le_refl _, ?_, ?_⟩
    · intro x hx; simp [tickets, osprd_setup] at hx
    · intro w hw; simp at hw
  | step m s t _ hst ih =>
    have hm : m < UINT := by
      split at hn <;> omega
    exact Step_TicketInv i m s t (ih hm) hst hn

theorem ReachableN_Reachable (i n : Nat) (s : Sys) (h : ReachableN i n s) : Reachable i s := by
  induction h with
  | setup => exact Reachable.setup
  | step m s t _ hst ih => exact Reachable.step s t ih hst

theorem Reachable_ReachableN (i : Nat) (s : Sys) (h : Reachable i s) :
    ∃ n, ReachableN i n s := by
  induction h with
  | setup => exact ⟨0, ReachableN.setup⟩
  | step s t _ hst ih =>
    obtain ⟨n, hn⟩ := ih
    exact ⟨_, ReachableN.step n s t hn hst⟩

theorem writeHeld_reachableN : ReachableN 0 1 { d := writeHeldDev, blocked := [] } :=
  ReachableN.step 0 { d := osprd_setup, blocked := [] } { d := writeHeldDev, blocked := [] }
    ReachableN.setup
    (Step.ioctl_ret { d := osprd_setup, blocked := [] } (world osprd_setup)
      (taskOf 1 (fileOn0 true 0)) (fileOn0 true 0) Cmd.OSPRDIOCTRYACQUIRE 0 0 writeHeldDev
      (fileOn0 true F_OSPRD_LOCKED) rfl (callerOK_fresh _ _ _ (by decide) rfl) (by decide))

/-- C15. In every state reached from `osprd_setup` with fewer than 2^32 tickets
handed out, `ticket_tail <= ticket_head`, and `ticket_head` is the number of
tickets handed out. -/
theorem ticket_tail_le_head (i n : Nat) (s : Sys) (h : ReachableN i n s) (hn : n < UINT) :
    s.d.ticket_tail ≤ s.d.ticket_head ∧ s.d.ticket_head = n := by
  obtain ⟨h1, h2, _, _⟩ := ReachableN_TicketInv i n s h hn
  exact ⟨by rw [h1]; exact h2, h1⟩

/-- C15, at a concrete input: the state in which task 1 holds the write lock. -/
theorem ticket_tail_le_head_witness :
    ReachableN 0 1 { d := writeHeldDev, blocked := [] } ∧ 1 < UINT ∧
    writeHeldDev.ticket_tail ≤ writeHeldDev.ticket_head ∧ writeHeldDev.ticket_head = 1 :=
  ⟨writeHeld_reachableN, by decide,
    ticket_tail_le_head 0 1 { d := writeHeldDev, blocked := [] } writeHeld_reachableN
      (by decide)⟩

theorem testBit_or_locked (x : Nat) :
    Nat.testBit (x ||| F_OSPRD_LOCKED) 19 = true ∧
    ∀ j, j ≠ 19 → Nat.testBit (x ||| F_OSPRD_LOCKED) j = Nat.testBit x j := by
  have hF : F_OSPRD_LOCKED = 2 ^ 19 := by decide
  constructor
  · rw [Nat.testBit_or, hF, Nat.testBit_two_pow_self]
    simp
  · intro j hj
    rw [Nat.testBit_or, hF, Nat.testBit_two_pow_of_ne (Ne.symm hj)]
    simp

/-- C20, as amended. OSPRDIOCACQUIRE is granted for ticket `t` only when its wait
condition holds: `t == ticket_tail`, `writeProcs` NULL and, in write mode,
`readProcs` NULL. The grant returns 0, puts the caller in `writeProcs` (write
mode, `readProcs` staying NULL) or at the head of `readProcs` (read mode,
`writeProcs` staying NULL), sets bit 19 (F_OSPRD_LOCKED) of the file flags and
leaves the other bits; and in a state reached with fewer than 2^32 tickets
handed out, `ticket_tail > t` afterwards. -/
theorem acquire_grant_spec (w : Waiter) (files : List file) (d : osprd_info)
    (hp : acquire_pred w.filp.f_mode_write w.curTicket d = true) :
    w.curTicket = d.ticket_tail ∧ d.writeProcs = none ∧
    (w.filp.f_mode_write = true → d.readProcs = none) ∧
    ∃ d2 f2, acquire_granted { pid := w.pid, files := files } w.filp d = Outcome.ret 0 d2 f2 ∧
      (w.filp.f_mode_write = true → holders d2.writeProcs = [w.pid] ∧ d2.readProcs = none) ∧
      (w.filp.f_mode_write = false →
        holders d2.readProcs = w.pid :: holders d.readProcs ∧ d2.writeProcs = none) ∧
      Nat.testBit f2.f_flags 19 = true ∧
      (∀ j, j ≠ 19 → Nat.testBit f2.f_flags j = Nat.testBit w.filp.f_flags j) ∧
      (∀ i n bl, ReachableN i n { d := d, blocked := bl } → n < UINT → w ∈ bl →
        w.curTicket < d2.ticket_tail) := by
  obtain ⟨h1, h2, h3⟩ := acquire_pred_true _ _ _ hp
  refine ⟨h1, h2, h3, ?_⟩
  have hbits := testBit_or_locked w.filp.f_flags
  by_cases hw : w.filp.f_mode_write = true
  · have hr := h3 hw
    refine ⟨incrementTicket
        { d with writeProcs := addToPidList d.writeProcs (newProc w.pid 0 0) },
      { w.filp with f_flags := w.filp.f_flags ||| F_OSPRD_LOCKED }, ?_, ?_, ?_,
      hbits.1, hbits.2, ?_⟩
    · simp [acquire_granted, hw]
    · intro _
      rw [(incrementTicket_frame _).2.1, (incrementTicket_frame _).1]
      simp only [h2]
      exact ⟨by simp [addToPidList, holders, newProc], hr⟩
    · intro hx; rw [hw] at hx; cases hx
    · intro i n bl hreach hn hmem
      obtain ⟨_, _, a3, a4⟩ := ReachableN_TicketInv i n _ hreach hn
      simp only [] at a3 a4
      have := incrementTicket_le
        { d with writeProcs := addToPidList d.writeProcs (newProc w.pid 0 0) } n hn
        (by simp only []; rw [← h1]; exact a4 w hmem) a3
      rw [h1]
      exact this.1
  · have hw2 : w.filp.f_mode_write = false := by
      cases hx : w.filp.f_mode_write
      · rfl
      · exact absurd hx hw
    refine ⟨incrementTicket
        { d with readProcs := addToPidList d.readProcs (newProc w.pid 0 0) },
      { w.filp with f_flags := w.filp.f_flags ||| F_OSPRD_LOCKED }, ?_, ?_, ?_,
      hbits.1, hbits.2, ?_⟩
    · simp [acquire_granted, hw2]
    · intro hx; rw [hw2] at hx; cases hx
    · intro _
      rw [(incrementTicket_frame _).2.1, (incrementTicket_frame _).1]
      refine ⟨?_, h2⟩
      cases hl : d.readProcs <;> simp [addToPidList, holders, newProc]
    · intro i n bl hreach hn hmem
      obtain ⟨_, _, a3, a4⟩ := ReachableN_TicketInv i n _ hreach hn
      simp only [] at a3 a4
      have := incrementTicket_le
        { d with readProcs := addToPidList d.readProcs (newProc w.pid 0 0) } n hn
        (by simp only []; rw [← h1]; exact a4 w hmem) a3
      rw [h1]
      exact this.1

/-- C20, as amended, at a concrete input: task 1 received ticket 0 in read mode
on a freshly set-up ramdisk. -/
theorem acquire_grant_spec_witness :
    acquire_pred firstWaiter.filp.f_mode_write firstWaiter.curTicket issuedDev = true ∧
    firstWaiter.curTicket = issuedDev.ticket_tail ∧ issuedDev.writeProcs = none ∧
    (firstWaiter.filp.f_mode_write = true → issuedDev.readProcs = none) ∧
    ∃ d2 f2, acquire_granted { pid := firstWaiter.pid, files := [firstWaiter.filp] }
        firstWaiter.filp issuedDev = Outcome.ret 0 d2 f2 ∧
      (firstWaiter.filp.f_mode_write = true →
        holders d2.writeProcs = [firstWaiter.pid] ∧ d2.readProcs = none) ∧
      (firstWaiter.filp.f_mode_write = false →
        holders d2.readProcs = firstWaiter.pid :: holders issuedDev.readProcs ∧
        d2.writeProcs = none) ∧
      Nat.testBit f2.f_flags 19 = true ∧
      (∀ j, j ≠ 19 → Nat.testBit f2.f_flags j = Nat.testBit firstWaiter.filp.f_flags j) ∧
      (∀ i n bl, ReachableN i n { d := issuedDev, blocked := bl } → n < UINT →
        firstWaiter ∈ bl → firstWaiter.curTicket < d2.ticket_tail) :=
  ⟨by decide, acquire_grant_spec firstWaiter [firstWaiter.filp] issuedDev (by decide)⟩

theorem tick_step (k : Nat) (h : Reachable 0 { d := tickDev k, blocked := [] }) :
    Reachable 0 { d := tickDev (uinc k), blocked := [] } :=
  Reachable.step _ _
    (Reachable.step _ _ h
      (Step.ioctl_ret { d := tickDev k, blocked := [] } (world (tickDev k))
        (taskOf 1 (fileOn0 false O_SYNC)) (fileOn0 false O_SYNC) Cmd.OSPRDIOCTRYACQUIRE 0 0
        { tickDev (uinc k) with readProcs := some { head := [newProc 1 0 0], size := 1 } }
        (fileOn0 false (O_SYNC ||| F_OSPRD_LOCKED)) rfl
        (callerOK_fresh _ _ _ (by decide) rfl) rfl))
    (Step.ioctl_ret
      { d := { tickDev (uinc k) with readProcs := some { head := [newProc 1 0 0], size := 1 } },
        blocked := [] }
      (world { tickDev (uinc k) with readProcs := some { head := [newProc 1 0 0], size := 1 } })
      (taskOf 1 (fileOn0 false (O_SYNC ||| F_OSPRD_LOCKED)))
      (fileOn0 false (O_SYNC ||| F_OSPRD_LOCKED)) Cmd.OSPRDIOCRELEASE 0 0
      (tickDev (uinc k)) (fileOn0 false 0) rfl
      (callerOK_fresh _ _ _ (by decide) rfl) rfl)

/-- Every value of `ticket_head = ticket_tail` below 2^32 is reached, by cycles of
OSPRDIOCTRYACQUIRE and OSPRDIOCRELEASE. -/
theorem tick_reachable (k : Nat) (hk : k < UINT) :
    Reachable 0 { d := tickDev k, blocked := [] } := by
  induction k with
  | zero => exact Reachable.setup
  | succ k ih =>
    have h := tick_step k (ih (by omega))
    rw [uinc_lt k hk] at h
    exact h

theorem wrap_reachable : Reachable 0 { d := wrapDev, blocked := [wrapWaiter] } :=
  Reachable.step _ _ (tick_reachable 4294967295 (by decide))
    (Step.ioctl_acquireWait { d := tickDev 4294967295, blocked := [] }
      (world (tickDev 4294967295)) (taskOf 1 (fileOn0 false O_SYNC)) (fileOn0 false O_SYNC)
      Cmd.OSPRDIOCACQUIRE 0 4294967295 wrapDev (fileOn0 false O_SYNC) rfl
      (callerOK_fresh _ _ _ (by decide) rfl) (by decide))

/-- C20 fails as stated. After 2^32 - 1 tickets, task 1 receives ticket
4294967295 in read mode and `ticket_head` wraps to 0. The wait condition holds
and the lock is granted, and `incrementTicket` wraps `ticket_tail` to 0, which
is not above the ticket. -/
theorem acquire_grant_wraps_tail :
    Reachable 0 { d := wrapDev, blocked := [wrapWaiter] } ∧
    acquire_pred wrapWaiter.filp.f_mode_write wrapWaiter.curTicket wrapDev = true ∧
    acquire_granted { pid := wrapWaiter.pid, files := [wrapWaiter.filp] } wrapWaiter.filp
        wrapDev =
      Outcome.ret 0
        { wrapDev with
          ticket_tail := 0,
          readProcs := some { head := [newProc 1 0 0], size := 1 } }
        (fileOn0 false (O_SYNC ||| F_OSPRD_LOCKED)) ∧
    ¬ (wrapWaiter.curTicket < 0) :=
  ⟨wrap_reachable, by decide, by decide, by decide⟩

/-! ## Two scenarios from a freshly set-up ramdisk -/

theorem dev_eq (a b : osprd_info) (h1 : a.ticket_head = b.ticket_head)
    (h2 : a.ticket_tail = b.ticket_tail) (h3 : a.readProcs = b.readProcs)
    (h4 : a.writeProcs = b.writeProcs) (h5 : a.exitedTickets = b.exitedTickets)
    (h6 : a.isHoldingOtherLocks = b.isHoldingOtherLocks) (h7 : a.notifProcs = b.notifProcs)
    (h8 : a.writeNlkProcs = b.writeNlkProcs) : a = b := by
  cases a; cases b
  simp only [] at h1 h2 h3 h4 h5 h6 h7 h8
  subst h1 h2 h3 h4 h5 h6 h7 h8
  rfl

theorem incrementTicket_none (d : osprd_info) (h : d.exitedTickets = none) :
    incrementTicket d = { d with ticket_tail := uinc d.ticket_tail } := by
  simp [incrementTicket, h, ticketNodes, incrementTicketLoop]

/-- The deadlock scan leaves the flag at 0 for a caller that holds nothing. -/
theorem scannedFlag_clear (osprds : Nat → osprd_info) (i : Nat) (cur : task) (d : osprd_info)
    (h0 : d.isHoldingOtherLocks = 0) (hr : cur.pid ∉ holders d.readProcs)
    (hw : cur.pid ∉ holders d.writeProcs) (hel : noLocksElsewhere osprds i cur) :
    scannedFlag (setDev osprds i d) i cur d = 0 := by
  unfold scannedFlag
  have hany : ¬ cur.files.any (scanHit (setDev osprds i d) i cur.pid d) = true := by
    rw [List.any_eq_true]
    rintro ⟨f, hf, hhit⟩
    unfold scanHit at hhit
    cases he : file2osprd f with
    | none => rw [he] at hhit; cases hhit
    | some e =>
      rw [he] at hhit
      simp only [] at hhit
      by_cases hei : e = i
      · simp only [hei, if_true, Bool.or_eq_true] at hhit
        rcases hhit with h | h
        · exact hw ((isInPidList_isSome _ _).mp h)
        · exact hr ((isInPidList_isSome _ _).mp h)
      · simp only [hei, if_false, Bool.or_eq_true, setDev_other osprds i e d hei] at hhit
        have := hel f hf e he hei
        rcases hhit with h | h
        · exact this.2 ((isInPidList_isSome _ _).mp h)
        · exact this.1 ((isInPidList_isSome _ _).mp h)
  rw [if_neg hany]
  exact h0

theorem uinc_small (x : Nat) (h : x < 4294967295) : uinc x = x + 1 :=
  uinc_lt x (by unfold UINT; omega)

/-- OSPRDIOCTRYACQUIRE in write mode on an idle ramdisk with `k` tickets served,
by a caller that holds nothing: returns 0 and the caller is the writer. -/
theorem tryacquire_write_idle (osprds : Nat → osprd_info) (i : Nat) (cur : task)
    (filp : file) (k : Nat) (hk : k < 4294967295) (hw : filp.f_mode_write = true)
    (hel : noLocksElsewhere osprds i cur) :
    osprd_ioctl (setDev osprds i (tickDev k)) i cur filp Cmd.OSPRDIOCTRYACQUIRE 0 =
      Outcome.ret 0 (writerDev (k + 1) cur.pid)
        { filp with f_flags := filp.f_flags ||| F_OSPRD_LOCKED } := by
  have hflag := scannedFlag_clear osprds i cur (tickDev k) rfl (by simp [tickDev, osprd_setup, holders])
    (by simp [tickDev, osprd_setup, holders]) hel
  have hc : tryCond (setDev osprds i (tickDev k)) i cur filp := by
    unfold tryCond
    rw [setDev_same]
    exact ⟨rfl, hflag, Or.inr rfl⟩
  obtain ⟨d0, hio, h1, h2, h3, h4, h5, h6, h7, _⟩ :=
    tryacquire_ok_dev (setDev osprds i (tickDev k)) i cur filp 0 hc
  rw [setDev_same] at h1 h2 h3 h5 h6
  obtain ⟨h7a, h7b⟩ := h7 hw
  rw [hio, incrementTicket_none d0 (by rw [h3]; rfl)]
  congr 1
  apply dev_eq
  · simp only []; rw [h1]; exact uinc_small k hk
  · simp only []; rw [h2]; exact uinc_small k hk
  · simp only []; rw [h7b]; rfl
  · simp only []; rw [h7a]; rfl
  · simp only []; rw [h3]; rfl
  · simp only []; rw [h4]; rfl
  · simp only []; rw [h5]; rfl
  · simp only []; rw [h6]; rfl

theorem udec_one : udec 1 = 0 := udec_pos 1 (by omega) one_lt_UINT

theorem dropPid_single (p : Nat) :
    dropPid (some { head := [newProc p 0 0], size := 1 }) p = none := by
  have h1 : (isInPidList (some { head := [newProc p 0 0], size := 1 }) p).isSome = true := by
    simp [isInPidList, newProc]
  unfold dropPid
  rw [if_pos h1]
  simp [removeFromPidList, newProc, udec_one]

theorem noLocksElsewhere_taskOf (osprds : Nat → osprd_info) (pid : Nat) (w : Bool) (fl : Nat) :
    noLocksElsewhere osprds 0 (taskOf pid (fileOn0 w fl)) := by
  intro f hf e he hne
  simp only [taskOf, List.mem_singleton] at hf
  subst hf
  simp only [file2osprd, fileOn0, Option.some.injEq] at he
  exact absurd he.symm hne

/-- C13. On a freshly set-up ramdisk, for two tasks A and B with different pids
that hold no lock on any other ramdisk they have open, on files opened for
writing: OSPRDIOCTRYACQUIRE by A returns 0; then OSPRDIOCTRYACQUIRE by B returns
-EBUSY and changes nothing; then OSPRDIOCRELEASE by A returns 0 and leaves the
ramdisk idle; then OSPRDIOCTRYACQUIRE by B returns 0 and B is the writer. -/
theorem two_writers_scenario (osprds : Nat → osprd_info) (i : Nat) (A B : task)
    (fA fB : file) (hAB : A.pid ≠ B.pid) (hA : noLocksElsewhere osprds i A)
    (hB : noLocksElsewhere osprds i B) (hwA : fA.f_mode_write = true)
    (hwB : fB.f_mode_write = true) :
    osprd_ioctl (setDev osprds i osprd_setup) i A fA Cmd.OSPRDIOCTRYACQUIRE 0 =
      Outcome.ret 0 (writerDev 1 A.pid)
        { fA with f_flags := fA.f_flags ||| F_OSPRD_LOCKED } ∧
    osprd_ioctl (setDev osprds i (writerDev 1 A.pid)) i B fB Cmd.OSPRDIOCTRYACQUIRE 0 =
      Outcome.ret (-EBUSY) (writerDev 1 A.pid) fB ∧
    osprd_ioctl (setDev osprds i (writerDev 1 A.pid)) i A
        { fA with f_flags := fA.f_flags ||| F_OSPRD_LOCKED } Cmd.OSPRDIOCRELEASE 0 =
      Outcome.ret 0 (tickDev 1) { fA with f_flags := 0 } ∧
    osprd_ioctl (setDev osprds i (tickDev 1)) i B fB Cmd.OSPRDIOCTRYACQUIRE 0 =
      Outcome.ret 0 (writerDev 2 B.pid)
        { fB with f_flags := fB.f_flags ||| F_OSPRD_LOCKED } := by
  refine ⟨?_, ?_, ?_, ?_⟩
  · exact tryacquire_write_idle osprds i A fA 0 (by omega) hwA hA
  · have hnc : ¬ tryCond (setDev osprds i (writerDev 1 A.pid)) i B fB := by
      intro hc
      have := hc.1
      rw [setDev_same] at this
      cases this
    rw [tryacquire_busy _ i B fB 0 hnc, setDev_same]
    have hflag := scannedFlag_clear osprds i B (writerDev 1 A.pid) rfl
      (by simp [writerDev, osprd_setup, holders])
      (by
        simp only [writerDev, holders, newProc, List.map_cons, List.map_nil, List.mem_singleton]
        exact fun e => hAB e.symm) hB
    rw [hflag]
    rfl
  · obtain ⟨d2, f2, hio, h1, h2, h3, h4, h5, h6, h7, h8, hf⟩ :=
      release_eq (setDev osprds i (writerDev 1 A.pid)) i A
        { fA with f_flags := fA.f_flags ||| F_OSPRD_LOCKED } 0
    rw [setDev_same] at h1 h2 h3 h4 h5 h6 h7 h8
    have hw0 : d2.writeProcs = none := by rw [h1]; exact dropPid_single A.pid
    have hr0 : d2.readProcs = none := by rw [h2]; exact dropPid_none A.pid
    rw [hio]
    have hd : d2 = tickDev 1 := by
      apply dev_eq
      · rw [h5]; rfl
      · rw [h6]; rfl
      · rw [hr0]; rfl
      · rw [hw0]; rfl
      · rw [h7]; rfl
      · rw [h8]; rfl
      · rw [h3]; exact dropPid_none A.pid
      · rw [h4]; exact dropPid_none A.pid
    rw [hf, if_pos ⟨hr0, hw0⟩, hd]
    simp [lnot_locked]
  · exact tryacquire_write_idle osprds i B fB 1 (by omega) hwB hB

/-- C13, at a concrete input: tasks 1 and 2 on ramdisk 0. -/
theorem two_writers_scenario_witness :
    osprd_ioctl (setDev (world osprd_setup) 0 osprd_setup) 0 (taskOf 1 (fileOn0 true O_SYNC))
        (fileOn0 true O_SYNC) Cmd.OSPRDIOCTRYACQUIRE 0 =
      Outcome.ret 0 (writerDev 1 (taskOf 1 (fileOn0 true O_SYNC)).pid)
        { fileOn0 true O_SYNC with
          f_flags := (fileOn0 true O_SYNC).f_flags ||| F_OSPRD_LOCKED } ∧
    osprd_ioctl (setDev (world osprd_setup) 0 (writerDev 1 (taskOf 1 (fileOn0 true O_SYNC)).pid))
        0 (taskOf 2 (fileOn0 true O_SYNC)) (fileOn0 true O_SYNC) Cmd.OSPRDIOCTRYACQUIRE 0 =
      Outcome.ret (-EBUSY) (writerDev 1 (taskOf 1 (fileOn0 true O_SYNC)).pid)
        (fileOn0 true O_SYNC) ∧
    osprd_ioctl (setDev (world osprd_setup) 0 (writerDev 1 (taskOf 1 (fileOn0 true O_SYNC)).pid))
        0 (taskOf 1 (fileOn0 true O_SYNC))
        { fileOn0 true O_SYNC with
          f_flags := (fileOn0 true O_SYNC).f_flags ||| F_OSPRD_LOCKED }
        Cmd.OSPRDIOCRELEASE 0 =
      Outcome.ret 0 (tickDev 1) { fileOn0 true O_SYNC with f_flags := 0 } ∧
    osprd_ioctl (setDev (world osprd_setup) 0 (tickDev 1)) 0 (taskOf 2 (fileOn0 true O_SYNC))
        (fileOn0 true O_SYNC) Cmd.OSPRDIOCTRYACQUIRE 0 =
      Outcome.ret 0 (writerDev 2 (taskOf 2 (fileOn0 true O_SYNC)).pid)
        { fileOn0 true O_SYNC with
          f_flags := (fileOn0 true O_SYNC).f_flags ||| F_OSPRD_LOCKED } :=
  two_writers_scenario (world osprd_setup) 0 (taskOf 1 (fileOn0 true O_SYNC))
    (taskOf 2 (fileOn0 true O_SYNC)) (fileOn0 true O_SYNC) (fileOn0 true O_SYNC) (by decide)
    (noLocksElsewhere_taskOf _ 1 true O_SYNC) (noLocksElsewhere_taskOf _ 2 true O_SYNC) rfl rfl

theorem holders_readersList (pids : List Nat) : holders (readersList pids) = pids := by
  cases pids with
  | nil => rfl
  | cons p ps =>
    simp only [readersList, holders, List.map_map]
    have : ((fun q : process => q.info) ∘ fun x => newProc x 0 0) = id := by
      funext x; rfl
    rw [this, List.map_id]

theorem addToPidList_readersList (pids : List Nat) (p : Nat) (h : pids.length < 4294967295) :
    addToPidList (readersList pids) (newProc p 0 0) = readersList (p :: pids) := by
  cases pids with
  | nil =>
    simp only [addToPidList, readersList, List.map_cons, List.map_nil, List.length_cons,
      List.length_nil, uinc_small 0 (by omega)]
  | cons q qs =>
    have hu : uinc (qs.length + 1) = qs.length + 1 + 1 :=
      uinc_small _ (by simpa using h)
    simp only [addToPidList, readersList, List.map_cons, List.length_cons, hu]

/-- OSPRDIOCACQUIRE, in either mode, by a task that holds nothing, on a ramdisk
whose only holders are the readers `pids`: the task gets ticket `pids.length`
and reaches its wait. -/
theorem acquire_issue_readers (osprds : Nat → osprd_info) (i : Nat) (cur : task) (filp : file)
    (pids : List Nat) (hR : cur.pid ∉ pids) (hlen : pids.length < 4294967295)
    (hel : noLocksElsewhere osprds i cur) :
    osprd_ioctl (setDev osprds i (readersDev pids)) i cur filp Cmd.OSPRDIOCACQUIRE 0 =
      Outcome.acquireWait pids.length
        { readersDev pids with ticket_head := pids.length + 1 } filp := by
  have hr : cur.pid ∉ holders (readersDev pids).readProcs := by
    show cur.pid ∉ holders (readersList pids)
    rw [holders_readersList]; exact hR
  have hw : cur.pid ∉ holders (readersDev pids).writeProcs := by
    simp [readersDev, osprd_setup, holders]
  have hflag := scannedFlag_clear osprds i cur (readersDev pids) rfl hr hw hel
  have h := acquire_wait (setDev osprds i (readersDev pids)) i cur filp 0
    (by rw [setDev_same]; exact hr) (by rw [setDev_same]; exact hw)
    (by rw [setDev_same]; exact hflag)
  rw [h, setDev_same]
  have hu : uinc (readersDev pids).ticket_head = pids.length + 1 := uinc_small _ hlen
  rw [hu]
  rfl

/-- A read-mode OSPRDIOCACQUIRE in that situation is granted at once: the wait
condition holds for the ticket just handed out, and the grant makes the task
the newest reader. -/
theorem reader_granted (cur : task) (filp : file) (pids : List Nat)
    (hf : filp.f_mode_write = false) (hlen : pids.length < 4294967295) :
    acquire_pred filp.f_mode_write pids.length
        { readersDev pids with ticket_head := pids.length + 1 } = true ∧
    acquire_granted cur filp { readersDev pids with ticket_head := pids.length + 1 } =
      Outcome.ret 0 (readersDev (cur.pid :: pids))
        { filp with f_flags := filp.f_flags ||| F_OSPRD_LOCKED } := by
  constructor
  · rw [hf]
    simp [acquire_pred, readersDev, osprd_setup]
  · unfold acquire_granted
    rw [hf]
    simp only [Bool.false_eq_true, if_false]
    rw [incrementTicket_none _ rfl]
    congr 1
    apply dev_eq
    · rfl
    · exact uinc_small _ hlen
    · exact addToPidList_readersList pids cur.pid hlen
    · rfl
    · rfl
    · rfl
    · rfl
    · rfl

theorem WFpl_readersList (pids : List Nat) (hnd : pids.Nodup) (hb : ∀ x ∈ pids, x < PID_LIMIT) :
    WFpl (readersList pids) := by
  refine ⟨?_, by rw [holders_readersList]; exact hnd, by rw [holders_readersList]; exact hb⟩
  intro pl hpl
  cases pids with
  | nil => cases hpl
  | cons p ps =>
    simp only [readersList, Option.some.injEq] at hpl
    subst hpl
    exact ⟨by simp, by simp⟩

/-- After the releases `rel`, on a ramdisk without writer whose reader list is
well formed: `ticket_tail` is unchanged, there is still no writer, and the
readers left are those whose pid is not among the callers of `rel`. -/
theorem releaseAll_readers (osprds : Nat → osprd_info) (i : Nat) (rel : List (task × file))
    (d : osprd_info) (hwf : WFpl d.readProcs) (hw : d.writeProcs = none) :
    (releaseAll osprds i rel d).ticket_tail = d.ticket_tail ∧
    (releaseAll osprds i rel d).writeProcs = none ∧
    WFpl (releaseAll osprds i rel d).readProcs ∧
    holders (releaseAll osprds i rel d).readProcs =
      (holders d.readProcs).filter (fun x => decide (x ∉ rel.map (fun c => c.1.pid))) := by
  induction rel generalizing d with
  | nil => simp [releaseAll, hwf, hw]
  | cons c rest ih =>
    obtain ⟨d2, f2, hio, h1, h2, _, _, _, h6, _⟩ :=
      release_eq (setDev osprds i d) i c.1 c.2 0
    rw [setDev_same] at h1 h2 h6
    have hdev : (osprd_ioctl (setDev osprds i d) i c.1 c.2 Cmd.OSPRDIOCRELEASE 0).dev = d2 := by
      rw [hio]; rfl
    have hdrop := dropPid_WF d.readProcs c.1.pid hwf
    have hw2 : d2.writeProcs = none := by rw [h1, hw]; exact dropPid_none _
    have hwf2 : WFpl d2.readProcs := by rw [h2]; exact hdrop.1
    obtain ⟨a1, a2, a3, a4⟩ := ih d2 hwf2 hw2
    unfold releaseAll
    rw [hdev]
    refine ⟨by rw [a1, h6], a2, a3, ?_⟩
    rw [a4, h2, hdrop.2, List.Nodup.erase_eq_filter hwf.2.1, List.filter_filter]
    apply List.filter_congr
    intro x _
    simp only [List.map_cons, List.mem_cons, not_or, bne_iff_ne, ne_eq, Bool.decide_and,
      Bool.and_comm, decide_not]
    rfl

/-- The wait condition of a writer holding ticket `pids.length` behind the readers
`pids`, after the releases `rel`: true exactly when every reader has released. -/
theorem writer_pred_after_releases (osprds : Nat → osprd_info) (i : Nat) (pids : List Nat)
    (hnd : pids.Nodup) (hb : ∀ x ∈ pids, x < PID_LIMIT) (rel : List (task × file)) :
    acquire_pred true pids.length
        (releaseAll osprds i rel { readersDev pids with ticket_head := pids.length + 1 }) =
      decide (∀ x ∈ pids, x ∈ rel.map (fun c => c.1.pid)) := by
  obtain ⟨a1, a2, a3, a4⟩ := releaseAll_readers osprds i rel
    { readersDev pids with ticket_head := pids.length + 1 }
    (WFpl_readersList pids hnd hb) rfl
  have a4b : holders (releaseAll osprds i rel
      { readersDev pids with ticket_head := pids.length + 1 }).readProcs =
      pids.filter (fun x => decide (x ∉ rel.map (fun c => c.1.pid))) := by
    rw [a4]
    show (holders (readersList pids)).filter _ = _
    rw [holders_readersList]
  have a1b : (releaseAll osprds i rel
      { readersDev pids with ticket_head := pids.length + 1 }).ticket_tail = pids.length := a1
  rw [Bool.eq_iff_iff]
  simp only [acquire_pred, if_true, Bool.and_eq_true, decide_eq_true_eq, a1b, a2, true_and,
    and_true]
  constructor
  · intro hnone
    rw [hnone] at a4b
    have hnil : pids.filter (fun x => decide (x ∉ rel.map (fun c => c.1.pid))) = [] := a4b.symm
    intro x hx
    by_contra hxn
    have : x ∈ pids.filter (fun x => decide (x ∉ rel.map (fun c => c.1.pid))) :=
      List.mem_filter.mpr ⟨hx, by simpa using hxn⟩
    rw [hnil] at this
    cases this
  · intro hall
    apply holders_eq_nil_of_WF _ a3
    rw [a4b, List.filter_eq_nil_iff]
    intro x hx
    simpa using hall x hx

/-- C14. On a freshly set-up ramdisk, three tasks R1, R2, R3 with different pids
and a fourth task W, none holding a lock elsewhere: each read-mode
OSPRDIOCACQUIRE of R1, R2, R3 reaches its wait with tickets 0, 1, 2 and a true
wait condition, and is granted. The write-mode OSPRDIOCACQUIRE of W then waits
with ticket 3, and after any sequence of OSPRDIOCRELEASE calls its wait
condition is true exactly when R1, R2 and R3 have all released, in whatever
order. -/
theorem three_readers_then_writer (osprds : Nat → osprd_info) (i : Nat) (R1 R2 R3 W : task)
    (f1 f2 f3 fW : file)
    (hd : R1.pid ≠ R2.pid ∧ R1.pid ≠ R3.pid ∧ R2.pid ≠ R3.pid)
    (hW : W.pid ≠ R1.pid ∧ W.pid ≠ R2.pid ∧ W.pid ≠ R3.pid)
    (hb : R1.pid < PID_LIMIT ∧ R2.pid < PID_LIMIT ∧ R3.pid < PID_LIMIT)
    (hel : noLocksElsewhere osprds i R1 ∧ noLocksElsewhere osprds i R2 ∧
      noLocksElsewhere osprds i R3 ∧ noLocksElsewhere osprds i W)
    (hm : f1.f_mode_write = false ∧ f2.f_mode_write = false ∧ f3.f_mode_write = false ∧
      fW.f_mode_write = true) :
    (osprd_ioctl (setDev osprds i osprd_setup) i R1 f1 Cmd.OSPRDIOCACQUIRE 0 =
        Outcome.acquireWait 0 { osprd_setup with ticket_head := 1 } f1 ∧
      acquire_pred f1.f_mode_write 0 { osprd_setup with ticket_head := 1 } = true ∧
      acquire_granted R1 f1 { osprd_setup with ticket_head := 1 } =
        Outcome.ret 0 (readersDev [R1.pid])
          { f1 with f_flags := f1.f_flags ||| F_OSPRD_LOCKED }) ∧
    (osprd_ioctl (setDev osprds i (readersDev [R1.pid])) i R2 f2 Cmd.OSPRDIOCACQUIRE 0 =
        Outcome.acquireWait 1 { readersDev [R1.pid] with ticket_head := 2 } f2 ∧
      acquire_pred f2.f_mode_write 1 { readersDev [R1.pid] with ticket_head := 2 } = true ∧
      acquire_granted R2 f2 { readersDev [R1.pid] with ticket_head := 2 } =
        Outcome.ret 0 (readersDev [R2.pid, R1.pid])
          { f2 with f_flags := f2.f_flags ||| F_OSPRD_LOCKED }) ∧
    (osprd_ioctl (setDev osprds i (readersDev [R2.pid, R1.pid])) i R3 f3
          Cmd.OSPRDIOCACQUIRE 0 =
        Outcome.acquireWait 2 { readersDev [R2.pid, R1.pid] with ticket_head := 3 } f3 ∧
      acquire_pred f3.f_mode_write 2
        { readersDev [R2.pid, R1.pid] with ticket_head := 3 } = true ∧
      acquire_granted R3 f3 { readersDev [R2.pid, R1.pid] with ticket_head := 3 } =
        Outcome.ret 0 (readersDev [R3.pid, R2.pid, R1.pid])
          { f3 with f_flags := f3.f_flags ||| F_OSPRD_LOCKED }) ∧
    osprd_ioctl (setDev osprds i (readersDev [R3.pid, R2.pid, R1.pid])) i W fW
        Cmd.OSPRDIOCACQUIRE 0 =
      Outcome.acquireWait 3
        { readersDev [R3.pid, R2.pid, R1.pid] with ticket_head := 4 } fW ∧
    ∀ rel : List (task × file),
      acquire_pred fW.f_mode_write 3
          (releaseAll osprds i rel
            { readersDev [R3.pid, R2.pid, R1.pid] with ticket_head := 4 }) =
        decide (R1.pid ∈ rel.map (fun c => c.1.pid) ∧ R2.pid ∈ rel.map (fun c => c.1.pid) ∧
          R3.pid ∈ rel.map (fun c => c.1.pid)) := by
  obtain ⟨h12, h13, h23⟩ := hd
  obtain ⟨hW1, hW2, hW3⟩ := hW
  obtain ⟨hb1, hb2, hb3⟩ := hb
  obtain ⟨he1, he2, he3, heW⟩ := hel
  obtain ⟨hm1, hm2, hm3, hmW⟩ := hm
  refine ⟨⟨?_, ?_, ?_⟩, ⟨?_, ?_, ?_⟩, ⟨?_, ?_, ?_⟩, ?_, ?_⟩
  · exact acquire_issue_readers osprds i R1 f1 [] (by simp) (by simp) he1
  · exact (reader_granted R1 f1 [] hm1 (by simp)).1
  · exact (reader_granted R1 f1 [] hm1 (by simp)).2
  · exact acquire_issue_readers osprds i R2 f2 [R1.pid]
      (by simpa using fun e => h12 e.symm) (by simp) he2
  · exact (reader_granted R2 f2 [R1.pid] hm2 (by simp)).1
  · exact (reader_granted R2 f2 [R1.pid] hm2 (by simp)).2
  · exact acquire_issue_readers osprds i R3 f3 [R2.pid, R1.pid]
      (by simpa using ⟨fun e => h23 e.symm, fun e => h13 e.symm⟩) (by simp) he3
  · exact (reader_granted R3 f3 [R2.pid, R1.pid] hm3 (by simp)).1
  · exact (reader_granted R3 f3 [R2.pid, R1.pid] hm3 (by simp)).2
  · exact acquire_issue_readers osprds i W fW [R3.pid, R2.pid, R1.pid]
      (by simpa using ⟨hW3, hW2, hW1⟩) (by simp) heW
  · intro rel
    have hnd : [R3.pid, R2.pid, R1.pid].Nodup := by
      simp only [List.nodup_cons, List.mem_cons, List.mem_singleton, List.not_mem_nil,
        not_or, not_false_eq_true, List.nodup_nil, and_true]
      exact ⟨⟨fun e => h23 e.symm, fun e => h13 e.symm⟩, fun e => h12 e.symm⟩
    have hbd : ∀ x ∈ [R3.pid, R2.pid, R1.pid], x < PID_LIMIT := by
      intro x hx
      simp only [List.mem_cons, List.mem_singleton, List.not_mem_nil, or_false] at hx
      rcases hx with hx | hx | hx <;> rw [hx] <;> assumption
    have h := writer_pred_after_releases osprds i [R3.pid, R2.pid, R1.pid] hnd hbd rel
    rw [show ([R3.pid, R2.pid, R1.pid] : List Nat).length = 3 from rfl] at h
    rw [hmW, h]
    congr 1
    simp only [List.mem_cons, List.mem_singleton, List.not_mem_nil, or_false, forall_eq_or_imp,
      forall_eq, eq_iff_iff]
    constructor
    · rintro ⟨a, b, c⟩; exact ⟨c, b, a⟩
    · rintro ⟨a, b, c⟩; exact ⟨c, b, a⟩

/-- C14, at a concrete input: readers 1, 2, 3 and writer 4 on ramdisk 0. -/
theorem three_readers_then_writer_witness :
    (osprd_ioctl (setDev (world osprd_setup) 0 osprd_setup) 0 (readerTask 1) readFile
          Cmd.OSPRDIOCACQUIRE 0 =
        Outcome.acquireWait 0 { osprd_setup with ticket_head := 1 } readFile ∧
      acquire_pred readFile.f_mode_write 0 { osprd_setup with ticket_head := 1 } = true ∧
      acquire_granted (readerTask 1) readFile { osprd_setup with ticket_head := 1 } =
        Outcome.ret 0 (readersDev [(readerTask 1).pid])
          { readFile with f_flags := readFile.f_flags ||| F_OSPRD_LOCKED }) ∧
    (osprd_ioctl (setDev (world osprd_setup) 0 (readersDev [(readerTask 1).pid])) 0
          (readerTask 2) readFile Cmd.OSPRDIOCACQUIRE 0 =
        Outcome.acquireWait 1
          { readersDev [(readerTask 1).pid] with ticket_head := 2 } readFile ∧
      acquire_pred readFile.f_mode_write 1
        { readersDev [(readerTask 1).pid] with ticket_head := 2 } = true ∧
      acquire_granted (readerTask 2) readFile
          { readersDev [(readerTask 1).pid] with ticket_head := 2 } =
        Outcome.ret 0 (readersDev [(readerTask 2).pid, (readerTask 1).pid])
          { readFile with f_flags := readFile.f_flags ||| F_OSPRD_LOCKED }) ∧
    (osprd_ioctl
          (setDev (world osprd_setup) 0 (readersDev [(readerTask 2).pid, (readerTask 1).pid])) 0
          (readerTask 3) readFile Cmd.OSPRDIOCACQUIRE 0 =
        Outcome.acquireWait 2
          { readersDev [(readerTask 2).pid, (readerTask 1).pid] with ticket_head := 3 }
          readFile ∧
      acquire_pred readFile.f_mode_write 2
        { readersDev [(readerTask 2).pid, (readerTask 1).pid] with ticket_head := 3 } = true ∧
      acquire_granted (readerTask 3) readFile
          { readersDev [(readerTask 2).pid, (readerTask 1).pid] with ticket_head := 3 } =
        Outcome.ret 0
          (readersDev [(readerTask 3).pid, (readerTask 2).pid, (readerTask 1).pid])
          { readFile with f_flags := readFile.f_flags ||| F_OSPRD_LOCKED }) ∧
    osprd_ioctl
        (setDev (world osprd_setup) 0
          (readersDev [(readerTask 3).pid, (readerTask 2).pid, (readerTask 1).pid])) 0
        writerTask writeFile Cmd.OSPRDIOCACQUIRE 0 =
      Outcome.acquireWait 3
        { readersDev [(readerTask 3).pid, (readerTask 2).pid, (readerTask 1).pid] with
          ticket_head := 4 } writeFile ∧
    ∀ rel : List (task × file),
      acquire_pred writeFile.f_mode_write 3
          (releaseAll (world osprd_setup) 0 rel
            { readersDev [(readerTask 3).pid, (readerTask 2).pid, (readerTask 1).pid] with
              ticket_head := 4 }) =
        decide ((readerTask 1).pid ∈ rel.map (fun c => c.1.pid) ∧
          (readerTask 2).pid ∈ rel.map (fun c => c.1.pid) ∧
          (readerTask 3).pid ∈ rel.map (fun c => c.1.pid)) :=
  three_readers_then_writer (world osprd_setup) 0 (readerTask 1) (readerTask 2) (readerTask 3)
    writerTask readFile readFile readFile writeFile
    ⟨by decide, by decide, by decide⟩ ⟨by decide, by decide, by decide⟩
    ⟨by decide, by decide, by decide⟩
    ⟨noLocksElsewhere_taskOf _ 1 false O_SYNC, noLocksElsewhere_taskOf _ 2 false O_SYNC,
      noLocksElsewhere_taskOf _ 3 false O_SYNC, noLocksElsewhere_taskOf _ 4 true O_SYNC⟩
    ⟨rfl, rfl, rfl, rfl⟩

/-! ## The skipped tickets and the representation of the lists -/

/-- The five shapes of a step, seen from the ticket counters, `exitedTickets`
and the sleeping tasks: it leaves them alone; it hands out a ticket and calls
`incrementTicket`; it hands out a ticket and puts the caller to sleep; a sleeping
task whose ticket is `ticket_tail` leaves and `incrementTicket` is called; a
sleeping task whose ticket is not `ticket_tail` leaves and its ticket is pushed
on `exitedTickets`. -/
theorem Step_shape (i : Nat) (s t : Sys) (hst : Step i s t) :
    (t.blocked = s.blocked ∧ t.d.ticket_head = s.d.ticket_head ∧
      t.d.ticket_tail = s.d.ticket_tail ∧ t.d.exitedTickets = s.d.exitedTickets) ∨
    (t.blocked = s.blocked ∧ ∃ d0, t.d = incrementTicket d0 ∧
      d0.ticket_head = uinc s.d.ticket_head ∧ d0.ticket_tail = s.d.ticket_tail ∧
      d0.exitedTickets = s.d.exitedTickets) ∨
    (∃ w, t.blocked = w :: s.blocked ∧ w.curTicket = s.d.ticket_head ∧
      t.d.ticket_head = uinc s.d.ticket_head ∧ t.d.ticket_tail = s.d.ticket_tail ∧
      t.d.exitedTickets = s.d.exitedTickets) ∨
    (∃ w, w ∈ s.blocked ∧ t.blocked = s.blocked.erase w ∧ w.curTicket = s.d.ticket_tail ∧
      ∃ d0, t.d = incrementTicket d0 ∧ d0.ticket_head = s.d.ticket_head ∧
        d0.ticket_tail = s.d.ticket_tail ∧ d0.exitedTickets = s.d.exitedTickets) ∨
    (∃ w, w ∈ s.blocked ∧ t.blocked = s.blocked.erase w ∧ w.curTicket ≠ s.d.ticket_tail ∧
      t.d.ticket_head = s.d.ticket_head ∧ t.d.ticket_tail = s.d.ticket_tail ∧
      t.d.exitedTickets = addToTicketList s.d.exitedTickets w.curTicket) := by
  cases hst with
  | ioctl_ret osprds cur filp cmd arg r d2 f2 hd hc hio =>
    obtain ⟨db, bl⟩ := s
    simp only [] at hd hc
    subst hd
    cases cmd with
    | OSPRDIOCSECTOR =>
      obtain ⟨d, hd, _, _, _, _, h5, h6, h7⟩ := sector_eq osprds i cur filp arg
      rw [hd] at hio
      simp only [Outcome.ret.injEq] at hio
      obtain ⟨_, hdd, _⟩ := hio
      subst hdd
      exact Or.inl ⟨rfl, h5, h6, h7⟩
    | OSPRDIOCNOTIFY => rw [notify_eq] at hio; cases hio
    | OSPRDIOCACQUIRE =>
      by_cases hcnd : cur.pid ∉ holders (osprds i).readProcs ∧
          cur.pid ∉ holders (osprds i).writeProcs ∧ scannedFlag osprds i cur (osprds i) = 0
      · rw [acquire_wait osprds i cur filp arg hcnd.1 hcnd.2.1 hcnd.2.2] at hio; cases hio
      · rw [acquire_deadlock osprds i cur filp arg hcnd] at hio
        simp only [Outcome.ret.injEq] at hio
        obtain ⟨_, hdd, _⟩ := hio
        subst hdd
        exact Or.inr (Or.inl ⟨rfl, _, rfl, rfl, rfl, rfl⟩)
    | OSPRDIOCTRYACQUIRE =>
      by_cases hcnd : tryCond osprds i cur filp
      · obtain ⟨d0, hd, h1, h2, h3, _⟩ := tryacquire_ok_dev osprds i cur filp arg hcnd
        rw [hd] at hio
        simp only [Outcome.ret.injEq] at hio
        obtain ⟨_, hdd, _⟩ := hio
        subst hdd
        exact Or.inr (Or.inl ⟨rfl, d0, rfl, h1, h2, h3⟩)
      · rw [tryacquire_busy osprds i cur filp arg hcnd] at hio
        simp only [Outcome.ret.injEq] at hio
        obtain ⟨_, hdd, _⟩ := hio
        subst hdd
        exact Or.inl ⟨rfl, rfl, rfl, rfl⟩
    | OSPRDIOCRELEASE =>
      obtain ⟨d, f, hd, _, _, _, _, h5, h6, h7, _⟩ := release_eq osprds i cur filp arg
      rw [hd] at hio
      simp only [Outcome.ret.injEq] at hio
      obtain ⟨_, hdd, _⟩ := hio
      subst hdd
      exact Or.inl ⟨rfl, h5, h6, h7⟩
    | other =>
      simp only [osprd_ioctl, Outcome.ret.injEq] at hio
      obtain ⟨_, hdd, _⟩ := hio
      subst hdd
      exact Or.inl ⟨rfl, rfl, rfl, rfl⟩
  | ioctl_acquireWait osprds cur filp cmd arg tk d2 f2 hd hc hio =>
    obtain ⟨db, bl⟩ := s
    simp only [] at hd hc
    subst hd
    have hcmd := ioctl_acquireWait_cmd osprds i cur filp cmd arg tk d2 f2 hio
    subst hcmd
    by_cases hcnd : cur.pid ∉ holders (osprds i).readProcs ∧
        cur.pid ∉ holders (osprds i).writeProcs ∧ scannedFlag osprds i cur (osprds i) = 0
    · rw [acquire_wait osprds i cur filp arg hcnd.1 hcnd.2.1 hcnd.2.2] at hio
      simp only [Outcome.acquireWait.injEq] at hio
      obtain ⟨htk, hdd, _⟩ := hio
      subst hdd
      subst htk
      exact Or.inr (Or.inr (Or.inl ⟨_, rfl, rfl, rfl, rfl, rfl⟩))
    · rw [acquire_deadlock osprds i cur filp arg hcnd] at hio; cases hio
  | ioctl_notifyWait osprds cur filp cmd arg sec d2 f2 hd hc hio =>
    obtain ⟨db, bl⟩ := s
    simp only [] at hd hc
    subst hd
    have h := ioctl_notifyWait_lists osprds i cur filp cmd arg sec d2 f2 hio
    have hcmd := h.1
    subst hcmd
    rw [notify_eq] at hio
    simp only [Outcome.notifyWait.injEq] at hio
    obtain ⟨_, hdd, _⟩ := hio
    subst hdd
    exact Or.inl ⟨rfl, rfl, rfl, rfl⟩
  | granted w files r d2 f2 hw hpred hio =>
    obtain ⟨db, bl⟩ := s
    simp only [] at hw hpred hio
    have hp := (acquire_pred_true _ _ _ hpred).1
    unfold acquire_granted at hio
    split at hio
    · simp only [Outcome.ret.injEq] at hio
      obtain ⟨_, hdd, _⟩ := hio
      subst hdd
      exact Or.inr (Or.inr (Or.inr (Or.inl ⟨w, hw, rfl, hp, _, rfl, rfl, rfl, rfl⟩)))
    · simp only [Outcome.ret.injEq] at hio
      obtain ⟨_, hdd, _⟩ := hio
      subst hdd
      exact Or.inr (Or.inr (Or.inr (Or.inl ⟨w, hw, rfl, hp, _, rfl, rfl, rfl, rfl⟩)))
  | interrupted w r d2 f2 hw hio =>
    obtain ⟨db, bl⟩ := s
    simp only [] at hw hio
    unfold acquire_interrupted at hio
    split at hio
    · rename_i heq
      simp only [Outcome.ret.injEq] at hio
      obtain ⟨_, hdd, _⟩ := hio
      subst hdd
      exact Or.inr (Or.inr (Or.inr (Or.inl ⟨w, hw, rfl, heq.symm, _, rfl, rfl, rfl, rfl⟩)))
    · rename_i hne
      simp only [Outcome.ret.injEq] at hio
      obtain ⟨_, hdd, _⟩ := hio
      subst hdd
      exact Or.inr (Or.inr (Or.inr (Or.inr
        ⟨w, hw, rfl, fun e => hne e.symm, rfl, rfl, rfl⟩)))
  | close osprds cur filp r d2 f2 hd hnb hfi hio =>
    obtain ⟨db, bl⟩ := s
    simp only [] at hd hnb hio
    subst hd
    obtain ⟨d, f, hd, _, _, _, _, h5, h6, h7, _⟩ := close_last_eq osprds i cur filp hfi
    rw [hd] at hio
    simp only [Prod.mk.injEq, Option.some.injEq] at hio
    obtain ⟨_, hdd, _⟩ := hio
    subst hdd
    exact Or.inl ⟨rfl, h5, h6, h7⟩
  | write cur d2 hio =>
    obtain ⟨db, bl⟩ := s
    simp only [] at hio
    obtain ⟨_, _, h3, h4, h5⟩ := process_request_write_lists cur db d2 hio
    exact Or.inl ⟨rfl, h3, h4, h5⟩

theorem tickets_addToTicketList (l : Option ticketList) (x : Nat) :
    tickets (addToTicketList l x) = x :: tickets l := by
  cases l <;> rfl

theorem exited_reachable : Reachable 0 exitedSys :=
  Reachable.step _ _
    (Reachable.step _ _ queued_write_reachable
      (Step.ioctl_acquireWait (queuedSys writeHeldDev) (world (queuedSys writeHeldDev).d)
        (taskOf 3 (fileOn0 true 0)) (fileOn0 true 0) Cmd.OSPRDIOCACQUIRE 0 2
        { writeHeldDev with ticket_head := 3 } (fileOn0 true 0) rfl
        ⟨by decide, by decide, by decide, rfl⟩ (by decide)))
    (Step.interrupted
      { d := { writeHeldDev with ticket_head := 3 },
        blocked := [{ pid := 3, curTicket := 2, filp := fileOn0 true 0 },
                    { pid := 2, curTicket := 1, filp := fileOn0 true 0 }] }
      { pid := 3, curTicket := 2, filp := fileOn0 true 0 } (-ERESTARTSYS)
      exitedSys.d (fileOn0 true 0) (by decide) (by decide))

/-- C23. In every state reached from `osprd_setup`, whatever the number of
tickets handed out, `ticket_tail` is not a ticket of `exitedTickets`; so a ticket
passes the test `curTicket == ticket_tail` of the OSPRDIOCACQUIRE wait exactly
when it equals `ticket_tail` and `ticket_tail` is not in `exitedTickets`. -/
theorem ticket_tail_not_exited (i : Nat) (s : Sys) (h : Reachable i s) :
    s.d.ticket_tail ∉ tickets s.d.exitedTickets ∧
    isInTicketList s.d.exitedTickets s.d.ticket_tail = 0 ∧
    ∀ t : Nat, t = s.d.ticket_tail ↔
      (t = s.d.ticket_tail ∧ s.d.ticket_tail ∉ tickets s.d.exitedTickets) := by
  have key : s.d.ticket_tail ∉ tickets s.d.exitedTickets := by
    induction h with
    | setup => simp [osprd_setup, tickets]
    | step s t _ hst ih =>
      rcases Step_shape i s t hst with h1 | h1 | h1 | h1 | h1
      · rw [h1.2.2.1, h1.2.2.2]; exact ih
      · obtain ⟨_, d0, hd0, _⟩ := h1
        rw [hd0]
        exact (incrementTicket_spec d0).choose_spec.2.2.2.1
      · obtain ⟨w, _, _, _, h1, h2⟩ := h1
        rw [h1, h2]; exact ih
      · obtain ⟨w, _, _, _, d0, hd0, _⟩ := h1
        rw [hd0]
        exact (incrementTicket_spec d0).choose_spec.2.2.2.1
      · obtain ⟨w, _, _, hx, _, h1, h2⟩ := h1
        rw [h1, h2, tickets_addToTicketList]
        intro hm
        rcases List.mem_cons.mp hm with hm | hm
        · exact hx hm.symm
        · exact ih hm
  refine ⟨key, ?_, fun t => ⟨fun e => ⟨e, key⟩, fun e => e.1⟩⟩
  rw [isInTicketList_eq, if_neg key]

/-- C23, at a concrete state: task 1 holds the write lock of ramdisk 0, task 2
sleeps with ticket 1 and ticket 2 was given up, so `ticket_tail` is 1 and
`exitedTickets` holds ticket 2. -/
theorem ticket_tail_not_exited_witness :
    Reachable 0 exitedSys ∧ tickets exitedSys.d.exitedTickets = [2] ∧
    exitedSys.d.ticket_tail ∉ tickets exitedSys.d.exitedTickets ∧
    isInTicketList exitedSys.d.exitedTickets exitedSys.d.ticket_tail = 0 ∧
    ∀ t : Nat, t = exitedSys.d.ticket_tail ↔
      (t = exitedSys.d.ticket_tail ∧
        exitedSys.d.ticket_tail ∉ tickets exitedSys.d.exitedTickets) :=
  ⟨exited_reachable, rfl, ticket_tail_not_exited 0 exitedSys exited_reachable⟩

/-- C24. In every state reached from `osprd_setup`, each of `readProcs` and
`writeProcs` is NULL exactly when it records no holder, a non-NULL list has a
`size` equal to its number of nodes, and no pid occurs twice in it. -/
theorem holder_lists_represent (i : Nat) (s : Sys) (h : Reachable i s) :
    ((s.d.readProcs = none ↔ holders s.d.readProcs = []) ∧
      (∀ pl, s.d.readProcs = some pl → pl.size = pl.head.length) ∧
      (holders s.d.readProcs).Nodup) ∧
    ((s.d.writeProcs = none ↔ holders s.d.writeProcs = []) ∧
      (∀ pl, s.d.writeProcs = some pl → pl.size = pl.head.length) ∧
      (holders s.d.writeProcs).Nodup) := by
  obtain ⟨_, _, hr, hw, _⟩ := Reachable_Inv i s h
  have aux : ∀ l : Option pidList, WFpl l →
      (l = none ↔ holders l = []) ∧ (∀ pl, l = some pl → pl.size = pl.head.length) ∧
        (holders l).Nodup := by
    intro l hl
    refine ⟨⟨fun e => by rw [e]; rfl, fun e => ?_⟩, fun pl hpl => (hl.1 pl hpl).2, hl.2.1⟩
    cases hc : l with
    | none => rfl
    | some pl =>
      exfalso
      have hne := (hl.1 pl hc).1
      rw [hc] at e
      simp only [holders, List.map_eq_nil_iff] at e
      exact hne e
  exact ⟨aux _ hr, aux _ hw⟩

/-- C24, at a concrete state: task 1 holds the read lock of ramdisk 0. -/
theorem holder_lists_represent_witness :
    Reachable 0 { d := readHeldDev, blocked := [] } ∧
    holders readHeldDev.readProcs = [1] ∧
    ((readHeldDev.readProcs = none ↔ holders readHeldDev.readProcs = []) ∧
      (∀ pl, readHeldDev.readProcs = some pl → pl.size = pl.head.length) ∧
      (holders readHeldDev.readProcs).Nodup) ∧
    ((readHeldDev.writeProcs = none ↔ holders readHeldDev.writeProcs = []) ∧
      (∀ pl, readHeldDev.writeProcs = some pl → pl.size = pl.head.length) ∧
      (holders readHeldDev.writeProcs).Nodup) :=
  ⟨readHeld_reachable, rfl,
    holder_lists_represent 0 { d := readHeldDev, blocked := [] } readHeld_reachable⟩

/-! ## What `incrementTicket` removes -/

theorem udec_zero : udec 0 = UINT - 1 := by decide

theorem unlinkNextTicket_none (l : List Nat) (t : Nat) (h : t ∉ l) :
    unlinkNextTicket l t = none := by
  induction l with
  | nil => rfl
  | cons n rest ih =>
    simp only [List.mem_cons, not_or] at h
    have hn : ¬ n = t := fun e => h.1 e.symm
    simp [unlinkNextTicket, hn, ih h.2]

theorem unlinkNextTicket_erase (l : List Nat) (t : Nat) (h : t ∈ l) :
    unlinkNextTicket l t = some (l.erase t) := by
  induction l with
  | nil => simp at h
  | cons n rest ih =>
    by_cases hn : n = t
    · subst hn
      simp [unlinkNextTicket]
    · have h2 : t ∈ rest := by
        rcases List.mem_cons.mp h with h | h
        · exact absurd h.symm hn
        · exact h
      simp [unlinkNextTicket, hn, ih h2, List.erase_cons_tail]

theorem udec_safe (sz len : Nat) (h1 : sz < UINT) (h2 : sz = 0 ∨ len + 1 ≤ sz)
    (h3 : len + 1 < UINT) :
    udec sz < UINT ∧ len ≤ udec sz ∧ (udec sz = 0 → len = 0) := by
  rcases h2 with h2 | h2
  · subst h2
    rw [udec_zero]
    unfold UINT at *
    omega
  · rw [udec_pos sz (by omega) h1]
    omega

/-- A call of `removeFromTicketList` for a ticket that is in a list without
duplicates whose `size` is safe: exactly the node of that ticket goes, and
`size` stays safe. -/
theorem removeFromTicketList_erase (l : Option ticketList) (t : Nat)
    (hnd : (tickets l).Nodup) (hs : sizeSafe l) (hm : t ∈ tickets l)
    (hlen : ticketNodes l < UINT) :
    tickets (removeFromTicketList l t) = (tickets l).erase t ∧
      sizeSafe (removeFromTicketList l t) := by
  cases l with
  | none => simp [tickets] at hm
  | some tl =>
    obtain ⟨hd, sz⟩ := tl
    simp only [tickets] at hnd hm
    simp only [sizeSafe] at hs
    simp only [ticketNodes] at hlen
    cases hd with
    | nil => simp at hm
    | cons cur next =>
      simp only [List.length_cons] at hs hlen
      obtain ⟨u1, u2, u3⟩ := udec_safe sz next.length hs.1 hs.2 hlen
      by_cases hc : cur = t
      · subst hc
        have hnot : cur ∉ next := (List.nodup_cons.mp hnd).1
        cases next with
        | nil =>
          simp only [removeFromTicketList, if_true]
          split
          · exact ⟨by simp [tickets], trivial⟩
          · exact ⟨by simp [tickets], ⟨u1, Or.inr (by simp)⟩⟩
        | cons n rest =>
          simp only [List.mem_cons, not_or] at hnot
          have hn : ¬ n = cur := fun e => hnot.1 e.symm
          have hz : ¬ udec sz = 0 := fun e => by
            have := u3 e
            simp at this
          simp only [removeFromTicketList, if_true, hn, if_false,
            unlinkNextTicket_none rest cur hnot.2, hz]
          exact ⟨by simp [tickets], ⟨u1, Or.inr u2⟩⟩
      · have h2 : t ∈ next := by
          rcases List.mem_cons.mp hm with h | h
          · exact absurd h.symm hc
          · exact h
        simp only [removeFromTicketList, hc, if_false, unlinkNextTicket_erase next t h2]
        refine ⟨by simp [tickets, List.erase_cons_tail, hc], ⟨u1, Or.inr ?_⟩⟩
        simp only [List.length_cons, List.length_erase_of_mem h2]
        have : 0 < next.length := List.length_pos_of_mem h2
        omega

theorem ticketNodes_eq (l : Option ticketList) : ticketNodes l = (tickets l).length := by
  cases l <;> rfl

/-- The loop of `incrementTicket` on a duplicate-free `exitedTickets` with a safe
`size`, no exited ticket being the last value of `unsigned`: it stops at the
first value from `ticket_tail` on that is not an exited ticket, and removes
exactly the values it passed. -/
theorem incrementTicketLoop_exact (fuel : Nat) (d : osprd_info)
    (hf : ticketNodes d.exitedTickets ≤ fuel) (hnd : (tickets d.exitedTickets).Nodup)
    (hs : sizeSafe d.exitedTickets)
    (hx : ∀ x ∈ tickets d.exitedTickets, x + 1 < UINT) :
    d.ticket_tail ≤ (incrementTicketLoop fuel d).ticket_tail ∧
    (incrementTicketLoop fuel d).ticket_tail ∉ tickets d.exitedTickets ∧
    (∀ x, d.ticket_tail ≤ x → x < (incrementTicketLoop fuel d).ticket_tail →
      x ∈ tickets d.exitedTickets) ∧
    ∀ x, x ∈ tickets (incrementTicketLoop fuel d).exitedTickets ↔
      (x ∈ tickets d.exitedTickets ∧
        ¬ (d.ticket_tail ≤ x ∧ x < (incrementTicketLoop fuel d).ticket_tail)) := by
  induction fuel generalizing d with
  | zero =>
    have hnil : tickets d.exitedTickets = [] := by
      cases hl : d.exitedTickets with
      | none => rfl
      | some tl =>
        rw [hl] at hf
        simp only [ticketNodes, Nat.le_zero, List.length_eq_zero] at hf
        simp [tickets, hf]
    simp only [incrementTicketLoop]
    refine ⟨le_refl _, by simp [hnil], fun x h1 h2 => by omega, fun x => ?_⟩
    simp [hnil]
  | succ fuel ih =>
    by_cases hin : isInTicketList d.exitedTickets d.ticket_tail = 0
    · have hnm : d.ticket_tail ∉ tickets d.exitedTickets := fun hm =>
        (isInTicketList_ne_zero _ _).mpr hm hin
      simp only [incrementTicketLoop, hin, if_true]
      refine ⟨le_refl _, hnm, fun x h1 h2 => by omega, fun x => ⟨fun hx => ⟨hx, ?_⟩, fun hx => hx.1⟩⟩
      omega
    · have hm : d.ticket_tail ∈ tickets d.exitedTickets := (isInTicketList_ne_zero _ _).mp hin
      have hlen : ticketNodes d.exitedTickets < UINT := by
        rw [ticketNodes_eq]
        have := nodup_bounded_length (tickets d.exitedTickets) (UINT - 1) hnd
          (fun x h => by have := hx x h; omega)
        have h1 := one_lt_UINT
        omega
      obtain ⟨he, hs2⟩ := removeFromTicketList_erase d.exitedTickets d.ticket_tail hnd hs hm hlen
      have hnodes := removeFromTicketList_nodes d.exitedTickets d.ticket_tail hin
      have hu : uinc d.ticket_tail = d.ticket_tail + 1 := uinc_lt _ (hx _ hm)
      have hmem : ∀ x, x ∈ tickets (removeFromTicketList d.exitedTickets d.ticket_tail) ↔
          (x ≠ d.ticket_tail ∧ x ∈ tickets d.exitedTickets) := by
        intro x
        rw [he]
        exact hnd.mem_erase_iff
      have IH := ih
        { d with exitedTickets := removeFromTicketList d.exitedTickets d.ticket_tail,
                 ticket_tail := uinc d.ticket_tail }
        (by simp only []; omega) (by simp only []; rw [he]; exact hnd.erase _) hs2
        (by simp only []; intro x h; exact hx x ((hmem x).mp h).2)
      simp only [] at IH
      rw [hu] at IH
      obtain ⟨i1, i2, i3, i4⟩ := IH
      simp only [incrementTicketLoop, hin, if_false]
      rw [hu]
      refine ⟨by omega, ?_, ?_, ?_⟩
      · intro hx
        apply i2
        rw [hmem]
        exact ⟨by omega, hx⟩
      · intro x h1 h2
        by_cases hxe : x = d.ticket_tail
        · rw [hxe]; exact hm
        · exact ((hmem x).mp (i3 x (by omega) h2)).2
      · intro x
        rw [i4 x, hmem x]
        constructor
        · rintro ⟨⟨a, b⟩, c⟩
          exact ⟨b, fun e => c ⟨by omega, e.2⟩⟩
        · rintro ⟨a, b⟩
          exact ⟨⟨fun e => b ⟨by omega, by omega⟩, a⟩, fun e => b ⟨by omega, e.2⟩⟩

/-- C21, as amended. For every device state whose `exitedTickets` holds each
ticket at most once, whose `size` field is safe (0, or at least the number of
nodes) and in which neither `ticket_tail` nor an exited ticket is the last value
of `unsigned`, `incrementTicket` ends (any fuel from the number of nodes on gives
the same state) with `ticket_tail` the least value above the old `ticket_tail`
that is not in the old `exitedTickets`; the tickets strictly between the old and
the new `ticket_tail` are removed from `exitedTickets` and no other membership
changes. -/
theorem incrementTicket_exact (d : osprd_info) (hnd : (tickets d.exitedTickets).Nodup)
    (hs : sizeSafe d.exitedTickets) (ht : d.ticket_tail + 1 < UINT)
    (hx : ∀ x ∈ tickets d.exitedTickets, x + 1 < UINT) :
    (∀ k, incrementTicketLoop (ticketNodes d.exitedTickets + k)
        { d with ticket_tail := uinc d.ticket_tail } = incrementTicket d) ∧
    d.ticket_tail < (incrementTicket d).ticket_tail ∧
    (incrementTicket d).ticket_tail ∉ tickets d.exitedTickets ∧
    (∀ x, d.ticket_tail < x → x < (incrementTicket d).ticket_tail →
      x ∈ tickets d.exitedTickets) ∧
    (∀ x, d.ticket_tail < x → x < (incrementTicket d).ticket_tail →
      x ∉ tickets (incrementTicket d).exitedTickets) ∧
    (∀ x, ¬ (d.ticket_tail < x ∧ x < (incrementTicket d).ticket_tail) →
      (x ∈ tickets (incrementTicket d).exitedTickets ↔ x ∈ tickets d.exitedTickets)) := by
  have hu : uinc d.ticket_tail = d.ticket_tail + 1 := uinc_lt _ ht
  have hbreak := (incrementTicketLoop_break (ticketNodes d.exitedTickets)
    { d with ticket_tail := uinc d.ticket_tail } (le_refl _)).2
  obtain ⟨h1, h2, h3, h4⟩ := incrementTicketLoop_exact (ticketNodes d.exitedTickets)
    { d with ticket_tail := uinc d.ticket_tail } (le_refl _) hnd hs hx
  have hinc : incrementTicketLoop (ticketNodes d.exitedTickets)
      { d with ticket_tail := uinc d.ticket_tail } = incrementTicket d := rfl
  simp only [] at h1 h2 h3 h4
  rw [hinc] at h1 h2 h3 h4
  rw [hu] at h1 h3 h4
  refine ⟨hbreak, h1, h2, fun x a b => h3 x a b, fun x a b hx => ?_, fun x hx => ?_⟩
  · exact ((h4 x).mp hx).2 ⟨a, b⟩
  · exact ⟨fun e => ((h4 x).mp e).1, fun e => (h4 x).mpr ⟨e, fun c => hx ⟨c.1, c.2⟩⟩⟩

/-- C21 as amended, at a concrete state: tickets 5 and 6 were given up while
ticket 4 is served; `incrementTicket` moves `ticket_tail` to 7 and empties
`exitedTickets`. -/
theorem incrementTicket_exact_witness :
    (incrementTicket skipDev).ticket_tail = 7 ∧
    tickets (incrementTicket skipDev).exitedTickets = [] ∧
    ((∀ k, incrementTicketLoop (ticketNodes skipDev.exitedTickets + k)
        { skipDev with ticket_tail := uinc skipDev.ticket_tail } = incrementTicket skipDev) ∧
    skipDev.ticket_tail < (incrementTicket skipDev).ticket_tail ∧
    (incrementTicket skipDev).ticket_tail ∉ tickets skipDev.exitedTickets ∧
    (∀ x, skipDev.ticket_tail < x → x < (incrementTicket skipDev).ticket_tail →
      x ∈ tickets skipDev.exitedTickets) ∧
    (∀ x, skipDev.ticket_tail < x → x < (incrementTicket skipDev).ticket_tail →
      x ∉ tickets (incrementTicket skipDev).exitedTickets) ∧
    (∀ x, ¬ (skipDev.ticket_tail < x ∧ x < (incrementTicket skipDev).ticket_tail) →
      (x ∈ tickets (incrementTicket skipDev).exitedTickets ↔
        x ∈ tickets skipDev.exitedTickets))) :=
  ⟨by decide, by decide,
    incrementTicket_exact skipDev (by decide) ⟨by decide, Or.inl rfl⟩ (by decide)
      (by decide)⟩

/-- A removal from a duplicate-free ticket list whose `size` has not wrapped all
the way round: the node of the ticket goes and `size` is decremented once. -/
theorem removeFromTicketList_exact (tl : ticketList) (t : Nat) (hnd : tl.head.Nodup)
    (hm : t ∈ tl.head) (hsz : tl.size < UINT)
    (hq : sizeDeficit (some tl) + tl.head.length < UINT) :
    removeFromTicketList (some tl) t =
        some { head := tl.head.erase t, size := udec tl.size } ∧
      udec tl.size < UINT ∧ udec tl.size ≠ 0 ∧
      UINT - udec tl.size = sizeDeficit (some tl) + 1 := by
  obtain ⟨hd, sz⟩ := tl
  simp only [sizeDeficit] at hq
  simp only [] at hnd hm hsz hq ⊢
  have hpos : 0 < hd.length := List.length_pos_of_mem hm
  have hu : udec sz < UINT ∧ udec sz ≠ 0 ∧
      UINT - udec sz = (if sz = 0 then 0 else UINT - sz) + 1 := by
    by_cases h0 : sz = 0
    · subst h0
      rw [udec_zero]
      simp only [if_true]
      unfold UINT
      omega
    · rw [if_neg h0] at hq ⊢
      rw [udec_pos sz (by omega) hsz]
      omega
  refine ⟨?_, hu.1, hu.2.1, by simp only [sizeDeficit]; exact hu.2.2⟩
  cases hd with
  | nil => simp at hm
  | cons cur next =>
    by_cases hc : cur = t
    · subst hc
      have hnot : cur ∉ next := (List.nodup_cons.mp hnd).1
      cases next with
      | nil => simp [removeFromTicketList, hu.2.1]
      | cons n rest =>
        simp only [List.mem_cons, not_or] at hnot
        have hn : ¬ n = cur := fun e => hnot.1 e.symm
        simp [removeFromTicketList, hn, unlinkNextTicket_none rest cur hnot.2, hu.2.1]
    · have h2 : t ∈ next := by
        rcases List.mem_cons.mp hm with h | h
        · exact absurd h.symm hc
        · exact h
      simp [removeFromTicketList, hc, unlinkNextTicket_erase next t h2, List.erase_cons_tail]

/-- The loop of `incrementTicket` keeps `exitedTickets` duplicate-free and keeps
the sum of the removals recorded in `size` and the number of nodes. -/
theorem incrementTicketLoop_count (fuel : Nat) (d : osprd_info)
    (hnd : (tickets d.exitedTickets).Nodup)
    (hsz : ∀ tl, d.exitedTickets = some tl → tl.size < UINT)
    (hq : sizeDeficit d.exitedTickets + ticketNodes d.exitedTickets < UINT) :
    (tickets (incrementTicketLoop fuel d).exitedTickets).Nodup ∧
    (∀ tl, (incrementTicketLoop fuel d).exitedTickets = some tl → tl.size < UINT) ∧
    sizeDeficit (incrementTicketLoop fuel d).exitedTickets +
        ticketNodes (incrementTicketLoop fuel d).exitedTickets =
      sizeDeficit d.exitedTickets + ticketNodes d.exitedTickets := by
  induction fuel generalizing d with
  | zero => exact ⟨hnd, hsz, rfl⟩
  | succ fuel ih =>
    by_cases hin : isInTicketList d.exitedTickets d.ticket_tail = 0
    · have e : incrementTicketLoop (fuel + 1) d = d := by
        simp only [incrementTicketLoop, hin, if_true]
      rw [e]
      exact ⟨hnd, hsz, rfl⟩
    · have hm : d.ticket_tail ∈ tickets d.exitedTickets := (isInTicketList_ne_zero _ _).mp hin
      simp only [incrementTicketLoop, hin, if_false]
      cases hl : d.exitedTickets with
      | none => rw [hl] at hm; simp [tickets] at hm
      | some tl =>
        rw [hl] at hm hnd hq
        simp only [tickets] at hm hnd
        simp only [ticketNodes] at hq
        obtain ⟨e1, e2, e3, e4⟩ :=
          removeFromTicketList_exact tl d.ticket_tail hnd hm (hsz tl hl) hq
        have hpos : 0 < tl.head.length := List.length_pos_of_mem hm
        have hcount :
            sizeDeficit (some { head := tl.head.erase d.ticket_tail, size := udec tl.size }) +
              ticketNodes (some { head := tl.head.erase d.ticket_tail, size := udec tl.size }) =
            sizeDeficit (some tl) + tl.head.length := by
          simp only [sizeDeficit, ticketNodes, if_neg e3, List.length_erase_of_mem hm]
          simp only [sizeDeficit] at e4
          omega
        have IH := ih
          { d with exitedTickets := removeFromTicketList d.exitedTickets d.ticket_tail,
                   ticket_tail := uinc d.ticket_tail }
          (by simp only []; rw [hl, e1]; exact hnd.erase _)
          (by
            simp only []
            rw [hl, e1]
            intro tl2 h2
            cases h2
            exact e2)
          (by simp only []; rw [hl, e1, hcount]; exact hq)
        simp only [] at IH
        rw [hl] at IH
        refine ⟨IH.1, IH.2.1, ?_⟩
        rw [IH.2.2, e1, hcount]
        rfl

theorem sizeDeficit_addToTicketList (l : Option ticketList) (x : Nat) :
    sizeDeficit (addToTicketList l x) = sizeDeficit l ∧
    ticketNodes (addToTicketList l x) = ticketNodes l + 1 ∧
    ((∀ tl, l = some tl → tl.size < UINT) →
      ∀ tl, addToTicketList l x = some tl → tl.size < UINT) := by
  cases l with
  | none =>
    refine ⟨rfl, rfl, fun _ tl h => ?_⟩
    simp only [addToTicketList, Option.some.injEq] at h
    subst h
    exact Nat.lt_trans Nat.zero_lt_one one_lt_UINT
  | some tl0 =>
    refine ⟨rfl, rfl, fun h0 tl h => ?_⟩
    simp only [addToTicketList, Option.some.injEq] at h
    subst h
    exact h0 tl0 rfl

/-- A step that ends with `incrementTicket`, the sleeping tasks staying or some of
them leaving. -/
theorem ExitedInv_increment (n m : Nat) (d d0 : osprd_info) (b b2 : List Waiter)
    (he : ExitedInv n { d := d, blocked := b }) (h3 : d0.exitedTickets = d.exitedTickets)
    (hb : b2.Sublist b) (hnm : n ≤ m) (hm : m < UINT) :
    ExitedInv m { d := incrementTicket d0, blocked := b2 } := by
  obtain ⟨a1, a2, a3, a4, a5⟩ := he
  simp only [] at a1 a2 a3 a4 a5
  have hlen := hb.length_le
  obtain ⟨c1, c2, c3⟩ := incrementTicketLoop_count (ticketNodes d0.exitedTickets)
    { d0 with ticket_tail := uinc d0.ticket_tail }
    (by simp only []; rw [h3]; exact a3) (by simp only []; rw [h3]; exact a4)
    (by simp only []; rw [h3]; omega)
  have hinc : incrementTicketLoop (ticketNodes d0.exitedTickets)
      { d0 with ticket_tail := uinc d0.ticket_tail } = incrementTicket d0 := rfl
  rw [hinc] at c1 c2 c3
  simp only [] at c3
  rw [h3] at c3
  have hsub := (incrementTicket_spec d0).choose_spec.2.2.2.2
  refine ⟨a1.sublist (hb.map _), ?_, c1, c2, ?_⟩
  · intro w hw hx
    have := hsub _ hx
    rw [h3] at this
    exact a2 w (hb.subset hw) this
  · simp only []
    omega

/-- Every step keeps the invariant of `exitedTickets`. -/
theorem Step_ExitedInv (i n : Nat) (s t : Sys) (hs : TicketInv n s) (he : ExitedInv n s)
    (hst : Step i s t)
    (hn : (if t.d.ticket_head = s.d.ticket_head then n else n + 1) < UINT) :
    ExitedInv (if t.d.ticket_head = s.d.ticket_head then n else n + 1) t := by
  have hn0 : n < UINT := by
    split at hn <;> omega
  obtain ⟨sd, sb⟩ := s
  obtain ⟨td, tb⟩ := t
  obtain ⟨t1, t2, t3, t4⟩ := hs
  simp only [] at t1 t2 t3 t4 hn ⊢
  rcases Step_shape i _ _ hst with h | h | h | h | h
  · obtain ⟨hb, hh, _, hx⟩ := h
    simp only [] at hb hh hx
    subst hb
    rw [if_pos hh]
    obtain ⟨a1, a2, a3, a4, a5⟩ := he
    simp only [] at a1 a2 a3 a4 a5
    exact ⟨a1, by simp only []; rw [hx]; exact a2, by simp only []; rw [hx]; exact a3,
      by simp only []; rw [hx]; exact a4, by simp only []; rw [hx]; exact a5⟩
  · obtain ⟨hb, d0, hd0, hh, _, hx⟩ := h
    simp only [] at hb hd0 hh hx
    subst hb
    subst hd0
    have hhead : (incrementTicket d0).ticket_head = uinc n := by
      rw [(incrementTicket_frame d0).2.2.1, hh, t1]
    have hne : ¬ (incrementTicket d0).ticket_head = sd.ticket_head := by
      rw [hhead, t1]; exact uinc_ne n
    rw [if_neg hne] at hn ⊢
    exact ExitedInv_increment n (n + 1) sd d0 tb tb he hx (List.Sublist.refl _) (by omega) hn
  · obtain ⟨w, hb, hw, hh, _, hx⟩ := h
    simp only [] at hb hw hh hx
    subst hb
    have hne : ¬ td.ticket_head = sd.ticket_head := by
      rw [hh, t1]; exact uinc_ne n
    rw [if_neg hne] at hn ⊢
    obtain ⟨a1, a2, a3, a4, a5⟩ := he
    simp only [] at a1 a2 a3 a4 a5
    have hwn : w.curTicket = n := by rw [hw, t1]
    refine ⟨?_, ?_, by simp only []; rw [hx]; exact a3, by simp only []; rw [hx]; exact a4, ?_⟩
    · simp only [List.map_cons, List.nodup_cons]
      refine ⟨fun hmem => ?_, a1⟩
      obtain ⟨w2, hw2, e2⟩ := List.mem_map.mp hmem
      have := t4 w2 hw2
      omega
    · intro w2 hw2
      simp only []
      rw [hx]
      rcases List.mem_cons.mp hw2 with e | e
      · rw [e, hwn]
        intro hmem
        have := t3 n hmem
        omega
      · exact a2 w2 e
    · simp only [List.length_cons]
      rw [hx]
      omega
  · obtain ⟨w, hw, hb, _, d0, hd0, hh, _, hx⟩ := h
    simp only [] at hw hb hd0 hh hx
    subst hb
    subst hd0
    have hhead : (incrementTicket d0).ticket_head = sd.ticket_head := by
      rw [(incrementTicket_frame d0).2.2.1, hh]
    rw [if_pos hhead]
    exact ExitedInv_increment n n sd d0 sb (sb.erase w) he hx (List.erase_sublist w sb)
      (le_refl _) hn0
  · obtain ⟨w, hw, hb, _, hh, _, hx⟩ := h
    simp only [] at hw hb hh hx
    subst hb
    rw [if_pos hh]
    obtain ⟨a1, a2, a3, a4, a5⟩ := he
    simp only [] at a1 a2 a3 a4 a5
    have hsl : (sb.erase w).Sublist sb := List.erase_sublist w sb
    have hndb : sb.Nodup := List.Nodup.of_map _ a1
    obtain ⟨q1, q2, q3⟩ := sizeDeficit_addToTicketList sd.exitedTickets w.curTicket
    refine ⟨a1.sublist (hsl.map _), ?_, ?_, ?_, ?_⟩
    · intro w2 hw2
      simp only []
      rw [hx, tickets_addToTicketList]
      have hw3 := (hndb.mem_erase_iff).mp hw2
      intro hmem
      rcases List.mem_cons.mp hmem with e | e
      · exact hw3.1 (List.inj_on_of_nodup_map a1 hw3.2 hw e)
      · exact a2 w2 hw3.2 e
    · simp only []
      rw [hx, tickets_addToTicketList]
      exact List.nodup_cons.mpr ⟨a2 w hw, a3⟩
    · simp only []
      rw [hx]
      exact q3 a4
    · simp only []
      rw [hx, q1, q2, List.length_erase_of_mem hw]
      have : 0 < sb.length := List.length_pos_of_mem hw
      omega

/-- Every state reached with fewer than 2^32 tickets handed out satisfies the
invariant of `exitedTickets`. -/
theorem ReachableN_ExitedInv (i n : Nat) (s : Sys) (h : ReachableN i n s) (hn : n < UINT) :
    ExitedInv n s := by
  induction h with
  | setup =>
    refine ⟨by simp, by simp, by simp [osprd_setup, tickets], ?_, ?_⟩
    · intro tl h; simp [osprd_setup] at h
    · simp [osprd_setup, sizeDeficit, ticketNodes]
  | step m s t hr hst ih =>
    have hm : m < UINT := by
      split at hn <;> omega
    exact Step_ExitedInv i m s t (ReachableN_TicketInv i m s hr hm) (ih hm) hst hn

/-- In every state reached with fewer than 2^32 tickets handed out,
`exitedTickets` holds each ticket at most once, its `size` is safe, and none of
its tickets is the last value of `unsigned`. -/
theorem ReachableN_exited_safe (i n : Nat) (s : Sys) (h : ReachableN i n s) (hn : n < UINT) :
    (tickets s.d.exitedTickets).Nodup ∧ sizeSafe s.d.exitedTickets ∧
    ∀ x ∈ tickets s.d.exitedTickets, x + 1 < UINT := by
  obtain ⟨_, _, a3, a4, a5⟩ := ReachableN_ExitedInv i n s h hn
  obtain ⟨_, _, t3, _⟩ := ReachableN_TicketInv i n s h hn
  refine ⟨a3, ?_, fun x hx => by have := t3 x hx; omega⟩
  cases hl : s.d.exitedTickets with
  | none => trivial
  | some tl =>
    rw [hl] at a5
    simp only [sizeDeficit, ticketNodes] at a5
    refine ⟨a4 tl hl, ?_⟩
    by_cases h0 : tl.size = 0
    · exact Or.inl h0
    · right
      rw [if_neg h0] at a5
      have := a4 tl hl
      omega

/-- C21 fails as stated, in two ways. After 2^32 - 1 tickets were handed out and
served (a reachable state with `exitedTickets` empty), `incrementTicket` wraps
`ticket_tail` from 4294967295 to 0, which is not above the old value. And on
`exitedTickets` holding 5 and 9 once each with `size` 1, `incrementTicket` from
`ticket_tail` 4 stops at 6 with the whole list freed: ticket 9, which is not
between 4 and 6, is no longer in `exitedTickets`. -/
theorem incrementTicket_wraps_or_frees :
    Reachable 0 { d := tickDev 4294967295, blocked := [] } ∧
    (tickets (tickDev 4294967295).exitedTickets).Nodup ∧
    (tickDev 4294967295).ticket_tail = 4294967295 ∧
    (incrementTicket (tickDev 4294967295)).ticket_tail = 0 ∧
    (tickets staleSizeDev.exitedTickets).Nodup ∧
    staleSizeDev.ticket_tail = 4 ∧
    9 ∈ tickets staleSizeDev.exitedTickets ∧
    (incrementTicket staleSizeDev).ticket_tail = 6 ∧
    (incrementTicket staleSizeDev).exitedTickets = none ∧
    9 ∉ tickets (incrementTicket staleSizeDev).exitedTickets :=
  ⟨tick_reachable 4294967295 (by decide), by decide, rfl, by decide, by decide, rfl,
    by decide, by decide, by decide, by decide⟩

/-! ## The ticket of a refused OSPRDIOCACQUIRE -/

theorem incrementTicket_idle (d : osprd_info)
    (h : uinc d.ticket_tail ∉ tickets d.exitedTickets) :
    incrementTicket d = { d with ticket_tail := uinc d.ticket_tail } := by
  have h0 : isInTicketList d.exitedTickets (uinc d.ticket_tail) = 0 := by
    rw [isInTicketList_eq, if_neg h]
  unfold incrementTicket
  cases ticketNodes d.exitedTickets with
  | zero => rfl
  | succ n => simp only [incrementTicketLoop, h0, if_true]

/-- C22, as amended. An OSPRDIOCACQUIRE that returns -EDEADLK has taken a ticket
before the deadlock test: `ticket_head` is one more (modulo 2^32) than before,
the holder lists are unchanged and the flag `isHoldingOtherLocks` is reset. When
the ticket it took was the current one (`ticket_tail` equal to the old
`ticket_head`) and the next value is not in `exitedTickets`, `ticket_tail` is
advanced by one as well: it equals `ticket_head` again and `exitedTickets` is
unchanged. -/
theorem acquire_deadlock_takes_ticket (osprds : Nat → osprd_info) (i : Nat) (cur : task)
    (filp : file) (arg : Nat)
    (h : (osprd_ioctl osprds i cur filp Cmd.OSPRDIOCACQUIRE arg).retval = some (-EDEADLK)) :
    (osprd_ioctl osprds i cur filp Cmd.OSPRDIOCACQUIRE arg).dev.ticket_head =
      uinc (osprds i).ticket_head ∧
    (osprd_ioctl osprds i cur filp Cmd.OSPRDIOCACQUIRE arg).dev.readProcs =
      (osprds i).readProcs ∧
    (osprd_ioctl osprds i cur filp Cmd.OSPRDIOCACQUIRE arg).dev.writeProcs =
      (osprds i).writeProcs ∧
    (osprd_ioctl osprds i cur filp Cmd.OSPRDIOCACQUIRE arg).dev.isHoldingOtherLocks = 0 ∧
    (osprd_ioctl osprds i cur filp Cmd.OSPRDIOCACQUIRE arg).file = filp ∧
    ((osprds i).ticket_tail = (osprds i).ticket_head →
      uinc (osprds i).ticket_head ∉ tickets (osprds i).exitedTickets →
      (osprd_ioctl osprds i cur filp Cmd.OSPRDIOCACQUIRE arg).dev.ticket_tail =
        (osprd_ioctl osprds i cur filp Cmd.OSPRDIOCACQUIRE arg).dev.ticket_head ∧
      (osprd_ioctl osprds i cur filp Cmd.OSPRDIOCACQUIRE arg).dev.exitedTickets =
        (osprds i).exitedTickets) := by
  by_cases hcnd : cur.pid ∉ holders (osprds i).readProcs ∧
      cur.pid ∉ holders (osprds i).writeProcs ∧ scannedFlag osprds i cur (osprds i) = 0
  · rw [acquire_wait osprds i cur filp arg hcnd.1 hcnd.2.1 hcnd.2.2] at h
    simp [Outcome.retval] at h
  · rw [acquire_deadlock osprds i cur filp arg hcnd]
    simp only [Outcome.dev, Outcome.file]
    obtain ⟨f1, f2, f3, f4, _, _⟩ := incrementTicket_frame
      { osprds i with
        ticket_head := uinc (osprds i).ticket_head,
        isHoldingOtherLocks := 0 }
    refine ⟨f3, f1, f2, f4, True.intro, fun ht hx => ?_⟩
    rw [incrementTicket_idle _ (by simp only []; rw [ht]; exact hx)]
    simp only []
    rw [ht]
    exact ⟨rfl, True.intro⟩

/-- C22 as amended, at a concrete input: task 1 holds the read lock of ramdisk 0
with nobody waiting and calls OSPRDIOCACQUIRE again. -/
theorem acquire_deadlock_takes_ticket_witness :
    readHeldDev.ticket_head = 1 ∧ readHeldDev.ticket_tail = 1 ∧
    (osprd_ioctl (world readHeldDev) 0 (taskOf 1 (fileOn0 false F_OSPRD_LOCKED))
      (fileOn0 false F_OSPRD_LOCKED) Cmd.OSPRDIOCACQUIRE 0).retval = some (-EDEADLK) ∧
    (osprd_ioctl (world readHeldDev) 0 (taskOf 1 (fileOn0 false F_OSPRD_LOCKED))
      (fileOn0 false F_OSPRD_LOCKED) Cmd.OSPRDIOCACQUIRE 0).dev.ticket_head = 2 ∧
    (osprd_ioctl (world readHeldDev) 0 (taskOf 1 (fileOn0 false F_OSPRD_LOCKED))
      (fileOn0 false F_OSPRD_LOCKED) Cmd.OSPRDIOCACQUIRE 0).dev.ticket_tail = 2 ∧
    ((osprd_ioctl (world readHeldDev) 0 (taskOf 1 (fileOn0 false F_OSPRD_LOCKED))
        (fileOn0 false F_OSPRD_LOCKED) Cmd.OSPRDIOCACQUIRE 0).dev.ticket_head =
      uinc (world readHeldDev 0).ticket_head ∧
    (osprd_ioctl (world readHeldDev) 0 (taskOf 1 (fileOn0 false F_OSPRD_LOCKED))
        (fileOn0 false F_OSPRD_LOCKED) Cmd.OSPRDIOCACQUIRE 0).dev.readProcs =
      (world readHeldDev 0).readProcs ∧
    (osprd_ioctl (world readHeldDev) 0 (taskOf 1 (fileOn0 false F_OSPRD_LOCKED))
        (fileOn0 false F_OSPRD_LOCKED) Cmd.OSPRDIOCACQUIRE 0).dev.writeProcs =
      (world readHeldDev 0).writeProcs ∧
    (osprd_ioctl (world readHeldDev) 0 (taskOf 1 (fileOn0 false F_OSPRD_LOCKED))
        (fileOn0 false F_OSPRD_LOCKED) Cmd.OSPRDIOCACQUIRE 0).dev.isHoldingOtherLocks = 0 ∧
    (osprd_ioctl (world readHeldDev) 0 (taskOf 1 (fileOn0 false F_OSPRD_LOCKED))
        (fileOn0 false F_OSPRD_LOCKED) Cmd.OSPRDIOCACQUIRE 0).file =
      fileOn0 false F_OSPRD_LOCKED ∧
    ((world readHeldDev 0).ticket_tail = (world readHeldDev 0).ticket_head →
      uinc (world readHeldDev 0).ticket_head ∉ tickets (world readHeldDev 0).exitedTickets →
      (osprd_ioctl (world readHeldDev) 0 (taskOf 1 (fileOn0 false F_OSPRD_LOCKED))
          (fileOn0 false F_OSPRD_LOCKED) Cmd.OSPRDIOCACQUIRE 0).dev.ticket_tail =
        (osprd_ioctl (world readHeldDev) 0 (taskOf 1 (fileOn0 false F_OSPRD_LOCKED))
          (fileOn0 false F_OSPRD_LOCKED) Cmd.OSPRDIOCACQUIRE 0).dev.ticket_head ∧
      (osprd_ioctl (world readHeldDev) 0 (taskOf 1 (fileOn0 false F_OSPRD_LOCKED))
          (fileOn0 false F_OSPRD_LOCKED) Cmd.OSPRDIOCACQUIRE 0).dev.exitedTickets =
        (world readHeldDev 0).exitedTickets)) :=
  ⟨rfl, rfl, by decide, by decide, by decide,
    acquire_deadlock_takes_ticket (world readHeldDev) 0 (taskOf 1 (fileOn0 false F_OSPRD_LOCKED))
      (fileOn0 false F_OSPRD_LOCKED) 0 (by decide)⟩

/-- C22 fails as stated. Task 1 holds the write lock of ramdisk 0, task 2 sleeps
with ticket 1 and ticket 2 was given up (a reachable state with `ticket_head` 3,
`ticket_tail` 1 and `exitedTickets` holding 2). Task 1 calls OSPRDIOCACQUIRE
again: it gets -EDEADLK, and `ticket_head` is 4, `ticket_tail` is 3 and
`exitedTickets` holds no ticket after the call. -/
theorem acquire_deadlock_moves_counters :
    Reachable 0 exitedSys ∧
    callerOK 0 exitedSys (taskOf 1 (fileOn0 true F_OSPRD_LOCKED)) (fileOn0 true F_OSPRD_LOCKED) ∧
    exitedSys.d.ticket_head = 3 ∧ exitedSys.d.ticket_tail = 1 ∧
    tickets exitedSys.d.exitedTickets = [2] ∧
    (osprd_ioctl (world exitedSys.d) 0 (taskOf 1 (fileOn0 true F_OSPRD_LOCKED))
      (fileOn0 true F_OSPRD_LOCKED) Cmd.OSPRDIOCACQUIRE 0).retval = some (-EDEADLK) ∧
    (osprd_ioctl (world exitedSys.d) 0 (taskOf 1 (fileOn0 true F_OSPRD_LOCKED))
      (fileOn0 true F_OSPRD_LOCKED) Cmd.OSPRDIOCACQUIRE 0).dev.ticket_head = 4 ∧
    (osprd_ioctl (world exitedSys.d) 0 (taskOf 1 (fileOn0 true F_OSPRD_LOCKED))
      (fileOn0 true F_OSPRD_LOCKED) Cmd.OSPRDIOCACQUIRE 0).dev.ticket_tail = 3 ∧
    tickets (osprd_ioctl (world exitedSys.d) 0 (taskOf 1 (fileOn0 true F_OSPRD_LOCKED))
      (fileOn0 true F_OSPRD_LOCKED) Cmd.OSPRDIOCACQUIRE 0).dev.exitedTickets = [] :=
  ⟨exited_reachable, ⟨by decide, by decide, by decide, rfl⟩, rfl, rfl, rfl,
    by decide, by decide, by decide, by decide⟩

/-! ## The accesses of the notification code -/

theorem oneNotif_reachable : Reachable 0 { d := oneNotifDev, blocked := [] } :=
  Reachable.step _ _ Reachable.setup
    (Step.ioctl_notifyWait { d := osprd_setup, blocked := [] } (world osprd_setup)
      (taskOf 1 readFile) readFile Cmd.OSPRDIOCNOTIFY 33 32 oneNotifDev readFile rfl
      (callerOK_fresh _ _ _ (by decide) rfl) (by decide))

theorem farSector_reachable : Reachable 0 { d := farSectorDev, blocked := [] } :=
  Reachable.step _ _ oneNotif_reachable
    (Step.ioctl_ret { d := oneNotifDev, blocked := [] } (world oneNotifDev)
      (taskOf 2 writeFile) writeFile Cmd.OSPRDIOCSECTOR 16384 0 farSectorDev writeFile rfl
      (callerOK_fresh _ _ _ (by decide) rfl) (by decide))

/-- C25 fails on the code. Task 1 registered with OSPRDIOCNOTIFY, so `notifProcs`
is not empty; task 2 holds no write lock and has no record in `writeNlkProcs`
(its OSPRDIOCSECTOR call came before the registration and recorded nothing).
When a write of task 2 is processed, both lookups return NULL and `p->sect` is
read through the NULL pointer. -/
theorem write_notification_null_record :
    osprd_ioctl (world osprd_setup) 0 (taskOf 2 writeFile) writeFile Cmd.OSPRDIOCSECTOR 0 =
      Outcome.ret 0 osprd_setup writeFile ∧
    Reachable 0 { d := oneNotifDev, blocked := [] } ∧
    holders oneNotifDev.notifProcs = [1] ∧
    isInPidList oneNotifDev.writeProcs (taskOf 2 writeFile).pid = none ∧
    isInPidList oneNotifDev.writeNlkProcs (taskOf 2 writeFile).pid = none ∧
    writerRecord oneNotifDev (taskOf 2 writeFile) = none ∧
    osprd_process_request_write (taskOf 2 writeFile) oneNotifDev = none :=
  ⟨by decide, oneNotif_reachable, rfl, rfl, rfl, rfl, rfl⟩

/-- C26 fails on the code. OSPRDIOCNOTIFY with argument 33 waits on index 32 of
the 32-entry table, and once a write has cleared `reqNotif` of the record (as in
the reachable state `notifiedDev`) the wait condition reads `sectors[32]`.
OSPRDIOCSECTOR with byte offset 16384 records sector 32, and the write
notification of that caller then stores to `sectors[32]`. -/
theorem sectors_index_out_of_range :
    osprd_ioctl (world osprd_setup) 0 (taskOf 1 readFile) readFile Cmd.OSPRDIOCNOTIFY 33 =
      Outcome.notifyWait 32 oneNotifDev readFile ∧
    (newProc 1 1 0).sectors.length = 32 ∧
    Reachable 0 { d := notifiedDev, blocked := [] } ∧
    isInPidList notifiedDev.notifProcs 1 = some (markWritten 0 (newProc 1 1 0)) ∧
    notify_pred (markWritten 0 (newProc 1 1 0)) 32 = none ∧
    Reachable 0 { d := oneNotifDev, blocked := [] } ∧
    osprd_ioctl (world oneNotifDev) 0 (taskOf 2 writeFile) writeFile Cmd.OSPRDIOCSECTOR 16384 =
      Outcome.ret 0 farSectorDev writeFile ∧
    Reachable 0 { d := farSectorDev, blocked := [] } ∧
    writerSect farSectorDev (taskOf 2 writeFile) = 32 ∧
    osprd_process_request_write (taskOf 2 writeFile) farSectorDev = none :=
  ⟨by decide, rfl, notified_reachable, by decide, by decide, oneNotif_reachable, by decide,
    farSector_reachable, by decide, by decide⟩

/-! ## Processed writes and the wait of OSPRDIOCNOTIFY -/

/-- The write notification of a writer that has a record with `sect` below 32
is carried out, and changes neither `writeProcs` nor `writeNlkProcs`. -/
theorem process_request_write_some (w : task) (d : osprd_info) (q : process)
    (hq : writerRecord d w = some q) (hs : q.sect < 32) :
    ∃ d2, osprd_process_request_write w d = some d2 ∧
      d2.writeProcs = d.writeProcs ∧ d2.writeNlkProcs = d.writeNlkProcs := by
  unfold writerRecord at hq
  unfold osprd_process_request_write
  cases hn : d.notifProcs with
  | none => exact ⟨d, rfl, rfl, rfl⟩
  | some nl =>
    simp only []
    rw [hq]
    cases hh : nl.head with
    | nil => exact ⟨d, rfl, rfl, rfl⟩
    | cons r0 rest =>
      simp only []
      rw [if_pos hs]
      exact ⟨_, rfl, rfl, rfl⟩

theorem writerRecord_lists (d d2 : osprd_info) (w : task) (h1 : d2.writeProcs = d.writeProcs)
    (h2 : d2.writeNlkProcs = d.writeNlkProcs) : writerRecord d2 w = writerRecord d w := by
  unfold writerRecord
  rw [h1, h2]

/-- A run of writes by writers that each have a record with `sect` below 32 is
carried out. -/
theorem processWrites_some (ws : List task) (d : osprd_info)
    (h : ∀ w ∈ ws, ∃ q, writerRecord d w = some q ∧ q.sect < 32) :
    ∃ d2, processWrites ws d = some d2 := by
  induction ws generalizing d with
  | nil => exact ⟨d, rfl⟩
  | cons w ws ih =>
    obtain ⟨q, hq, hs⟩ := h w (List.mem_cons_self _ _)
    obtain ⟨d1, hd1, e1, e2⟩ := process_request_write_some w d q hq hs
    obtain ⟨d2, hd2⟩ := ih d1 (fun x hx => by
      rw [writerRecord_lists d d1 x e1 e2]
      exact h x (List.mem_cons_of_mem _ hx))
    exact ⟨d2, by simp only [processWrites, hd1, hd2]⟩

theorem targets_reachable : Reachable 0 { d := targetsDev, blocked := [] } :=
  Reachable.step _ _
    (Reachable.step _ _ oneNotif_reachable
      (Step.ioctl_ret { d := oneNotifDev, blocked := [] } (world oneNotifDev)
        (taskOf 2 writeFile) writeFile Cmd.OSPRDIOCSECTOR 1536 0
        { oneNotifDev with writeNlkProcs := some { head := [newProc 2 0 3], size := 1 } }
        writeFile rfl (callerOK_fresh _ _ _ (by decide) rfl) (by decide)))
    (Step.ioctl_ret _
      (world { oneNotifDev with writeNlkProcs := some { head := [newProc 2 0 3], size := 1 } })
      (taskOf 3 writeFile) writeFile Cmd.OSPRDIOCSECTOR 2560 0 targetsDev
      writeFile rfl (callerOK_fresh _ _ _ (by decide) rfl) (by decide))

/-- C12. For a sector `s` below 32, OSPRDIOCNOTIFY with argument `s + 1` (or 0 for
sector 0) registers a fresh record of the caller and waits on `sectors[s]` of
it; the condition of that wait is false on the fresh record, whatever was
written before the registration. Every run of writes by writers that have a
record with `sect` below 32 is carried out, and after it the condition is true
exactly when one of the writers had recorded target sector `s`: false with no
write, false after writes to other sectors only, true after a write to sector
`s`. In any state, a write by a writer whose record has `sect` below 32 is
carried out and makes the condition on the caller's record true if `sect = s`,
while with another `sect` the condition is true only if `sectors[s]` was 1
already. The last two conjuncts say the same of every write that was carried
out, whatever the records. -/
theorem notify_sector_targeting (s : Nat) (hs : s < 32) (osprds : Nat → osprd_info) (i : Nat)
    (cur : task) (filp : file) (arg : Nat) (harg : arg = s + 1 ∨ (arg = 0 ∧ s = 0)) :
    ∃ d1, osprd_ioctl osprds i cur filp Cmd.OSPRDIOCNOTIFY arg = Outcome.notifyWait s d1 filp ∧
      isInPidList d1.notifProcs cur.pid = some (newProc cur.pid 1 0) ∧
      notify_pred (newProc cur.pid 1 0) s = some false ∧
      (∀ ws, (∀ w ∈ ws, ∃ q, writerRecord d1 w = some q ∧ q.sect < 32) →
        ∃ d2 rec, processWrites ws d1 = some d2 ∧
          isInPidList d2.notifProcs cur.pid = some rec ∧
          notify_pred rec s = some (decide (s ∈ ws.map (writerSect d1)))) ∧
      (∀ (d : osprd_info) (w : task) (q rec : process),
        isInPidList d.notifProcs cur.pid = some rec → rec.sectors.length = 32 →
        writerRecord d w = some q → q.sect < 32 →
        ∃ d2, osprd_process_request_write w d = some d2 ∧
          isInPidList d2.notifProcs cur.pid = some (markWritten q.sect rec) ∧
          notify_pred (markWritten q.sect rec) s =
            some (decide (q.sect = s ∨ rec.sectors[s]? = some 1))) ∧
      (∀ ws d2, processWrites ws d1 = some d2 →
        ∃ rec, isInPidList d2.notifProcs cur.pid = some rec ∧
          notify_pred rec s = some (decide (s ∈ ws.map (writerSect d1)))) ∧
      (∀ (d d2 : osprd_info) (w : task) (rec : process),
        isInPidList d.notifProcs cur.pid = some rec → rec.sectors.length = 32 →
        osprd_process_request_write w d = some d2 →
        ∃ q, writerRecord d w = some q ∧
          isInPidList d2.notifProcs cur.pid = some (markWritten q.sect rec) ∧
          notify_pred (markWritten q.sect rec) s =
            some (decide (q.sect = s ∨ rec.sectors[s]? = some 1))) := by
  have hsec : (if arg ≠ 0 then arg - 1 else 0) = s := by
    rcases harg with h | ⟨h1, h2⟩
    · subst h; simp
    · subst h1; subst h2; simp
  obtain ⟨d1, hd1⟩ : ∃ d1, d1 =
      { osprds i with
        notifProcs := addToPidList (osprds i).notifProcs (newProc cur.pid 1 0) } := ⟨_, rfl⟩
  obtain ⟨rest, sz, hn⟩ : ∃ rest sz,
      d1.notifProcs = some { head := newProc cur.pid 1 0 :: rest, size := sz } := by
    rw [hd1]
    cases hx : (osprds i).notifProcs with
    | none => exact ⟨[], uinc 0, by simp [addToPidList, hx]⟩
    | some pl => exact ⟨pl.head, uinc pl.size, by simp [addToPidList, hx]⟩
  refine ⟨d1, ?_, ?_, ?_, ?_, ?_, ?_, ?_⟩
  · rw [notify_eq, hsec, hd1]
  · rw [hd1]
    exact isInPidList_addToPidList_self _ (newProc cur.pid 1 0)
  · rfl
  · intro ws hws
    obtain ⟨d2, hd2⟩ := processWrites_some ws d1 hws
    obtain ⟨rec, h1, h2⟩ := notify_pred_after_writes s hs d1 cur.pid rest sz hn ws d2 hd2
    exact ⟨d2, rec, hd2, h1, h2⟩
  · intro d w q rec hrec hlen hq hqs
    obtain ⟨d2, hd2, _, _⟩ := process_request_write_some w d q hq hqs
    obtain ⟨q2, hq2, h1, h2⟩ :=
      notify_pred_one_write s cur.pid d d2 w rec hrec (by rw [hlen]; exact hs) hd2
    rw [hq] at hq2
    cases hq2
    exact ⟨d2, hd2, h1, h2⟩
  · intro ws d2 hw
    exact notify_pred_after_writes s hs d1 cur.pid rest sz hn ws d2 hw
  · intro d d2 w rec hrec hlen hw
    exact notify_pred_one_write s cur.pid d d2 w rec hrec (by rw [hlen]; exact hs) hw

/-- C12, at a concrete input. Task 2 has recorded target sector 3 and task 3
target sector 5 (a reachable state) when task 1 registers for sector 3. A write
of task 3 is carried out and leaves the condition of the wait false; a write of
task 2 after it is carried out and makes the condition true. -/
theorem notify_sector_targeting_witness :
    Reachable 0 { d := targetsDev, blocked := [] } ∧
    osprd_ioctl (world targetsDev) 0 (taskOf 1 readFile) readFile Cmd.OSPRDIOCNOTIFY 4 =
      Outcome.notifyWait 3 targetsWaitDev readFile ∧
    (∃ d2 rec, processWrites [taskOf 3 writeFile] targetsWaitDev = some d2 ∧
      isInPidList d2.notifProcs 1 = some rec ∧ notify_pred rec 3 = some false) ∧
    (∃ d2 rec, processWrites [taskOf 3 writeFile, taskOf 2 writeFile] targetsWaitDev = some d2 ∧
      isInPidList d2.notifProcs 1 = some rec ∧ notify_pred rec 3 = some true) := by
  obtain ⟨d1, h1, _, _, h4, _⟩ :=
    notify_sector_targeting 3 (by decide) (world targetsDev) 0 (taskOf 1 readFile) readFile 4
      (Or.inl rfl)
  rw [notify_eq] at h1
  simp only [Outcome.notifyWait.injEq] at h1
  obtain ⟨_, hd, _⟩ := h1
  have hd1 : d1 = targetsWaitDev := hd.symm.trans (by decide)
  subst hd1
  have r3 : ∃ q, writerRecord targetsWaitDev (taskOf 3 writeFile) = some q ∧ q.sect < 32 :=
    ⟨newProc 3 0 5, by decide, by decide⟩
  have r2 : ∃ q, writerRecord targetsWaitDev (taskOf 2 writeFile) = some q ∧ q.sect < 32 :=
    ⟨newProc 2 0 3, by decide, by decide⟩
  refine ⟨targets_reachable, by decide, ?_, ?_⟩
  · obtain ⟨d2, rec, a, b, c⟩ := h4 [taskOf 3 writeFile] (fun w hw => by
      rw [List.mem_singleton.mp hw]; exact r3)
    exact ⟨d2, rec, a, b, c.trans (by decide)⟩
  · obtain ⟨d2, rec, a, b, c⟩ := h4 [taskOf 3 writeFile, taskOf 2 writeFile] (fun w hw => by
      rcases List.mem_cons.mp hw with e | e
      · rw [e]; exact r3
      · rw [List.mem_singleton.mp e]; exact r2)
    exact ⟨d2, rec, a, b, c.trans (by decide)⟩

/-! ## The interrupted wait -/

/-- On a duplicate-free `exitedTickets` with a safe `size`, neither `ticket_tail`
nor an exited ticket being the last value of `unsigned`, `incrementTicket` stops
at the least value above `ticket_tail` that is not an exited ticket and removes
exactly the tickets in between. -/
theorem incrementTicket_least (d : osprd_info) (hnd : (tickets d.exitedTickets).Nodup)
    (hs : sizeSafe d.exitedTickets) (ht : d.ticket_tail + 1 < UINT)
    (hx : ∀ x ∈ tickets d.exitedTickets, x + 1 < UINT) :
    d.ticket_tail < (incrementTicket d).ticket_tail ∧
    (incrementTicket d).ticket_tail ∉ tickets d.exitedTickets ∧
    (∀ x, d.ticket_tail < x → x < (incrementTicket d).ticket_tail →
      x ∈ tickets d.exitedTickets) ∧
    ∀ x, x ∈ tickets (incrementTicket d).exitedTickets ↔
      (x ∈ tickets d.exitedTickets ∧
        ¬ (d.ticket_tail < x ∧ x < (incrementTicket d).ticket_tail)) := by
  have hu : uinc d.ticket_tail = d.ticket_tail + 1 := uinc_lt _ ht
  obtain ⟨h1, h2, h3, h4⟩ := incrementTicketLoop_exact (ticketNodes d.exitedTickets)
    { d with ticket_tail := uinc d.ticket_tail } (le_refl _) hnd hs hx
  have hinc : incrementTicketLoop (ticketNodes d.exitedTickets)
      { d with ticket_tail := uinc d.ticket_tail } = incrementTicket d := rfl
  simp only [] at h1 h2 h3 h4
  rw [hinc] at h1 h2 h3 h4
  rw [hu] at h1 h3 h4
  exact ⟨h1, h2, fun x a b => h3 x a b, fun x => h4 x⟩

/-- C16, as amended. An OSPRDIOCACQUIRE wait that is interrupted returns
-ERESTARTSYS and leaves `readProcs`, `writeProcs` and the file (so its locked
flag) as they were, in every state. If the ticket `t` is not `ticket_tail`,
`ticket_tail` is unchanged and `t` is pushed on `exitedTickets`. If `t` is
`ticket_tail`, `ticket_tail` moves to `t + 1 + k` modulo 2^32 over `k` tickets of
`exitedTickets`; and when `exitedTickets` holds no ticket twice, its `size` is
safe and neither `t` nor an exited ticket is the last value of `unsigned`,
`ticket_tail` ends above `t` at the least value that is not in `exitedTickets`,
the tickets passed are removed from `exitedTickets` and no other ticket is. -/
theorem acquire_interrupted_spec (filp : file) (t : Nat) (d : osprd_info) :
    ∃ d2, acquire_interrupted filp t d = Outcome.ret (-ERESTARTSYS) d2 filp ∧
      d2.readProcs = d.readProcs ∧ d2.writeProcs = d.writeProcs ∧
      (t = d.ticket_tail →
        (∃ k, k ≤ ticketNodes d.exitedTickets ∧ d2.ticket_tail = (t + 1 + k) % UINT ∧
          (∀ j, j < k → (t + 1 + j) % UINT ∈ tickets d.exitedTickets) ∧
          d2.ticket_tail ∉ tickets d2.exitedTickets) ∧
        ((tickets d.exitedTickets).Nodup → sizeSafe d.exitedTickets → t + 1 < UINT →
          (∀ x ∈ tickets d.exitedTickets, x + 1 < UINT) →
          t < d2.ticket_tail ∧ d2.ticket_tail ∉ tickets d.exitedTickets ∧
          (∀ x, t < x → x < d2.ticket_tail → x ∈ tickets d.exitedTickets) ∧
          ∀ x, x ∈ tickets d2.exitedTickets ↔
            (x ∈ tickets d.exitedTickets ∧ ¬ (t < x ∧ x < d2.ticket_tail)))) ∧
      (t ≠ d.ticket_tail →
        d2.ticket_tail = d.ticket_tail ∧
        tickets d2.exitedTickets = t :: tickets d.exitedTickets) := by
  by_cases h : d.ticket_tail = t
  · refine ⟨incrementTicket d, ?_, (incrementTicket_frame d).1, (incrementTicket_frame d).2.1,
      ?_, ?_⟩
    · simp [acquire_interrupted, h]
    · intro _
      refine ⟨?_, ?_⟩
      · obtain ⟨k, hk, htail, hpass, hstop, _⟩ := incrementTicket_spec d
        rw [h] at htail hpass
        exact ⟨k, hk, htail, hpass, hstop⟩
      · intro hnd hs ht hx
        have hl := incrementTicket_least d hnd hs (by rw [h]; exact ht) hx
        rw [h] at hl
        exact hl
    · intro hne
      exact absurd h.symm hne
  · refine ⟨{ d with exitedTickets := addToTicketList d.exitedTickets t }, ?_, rfl, rfl, ?_, ?_⟩
    · simp [acquire_interrupted, h]
    · intro he
      exact absurd he.symm h
    · intro _
      refine ⟨rfl, ?_⟩
      cases hl : d.exitedTickets <;> simp [addToTicketList, tickets]

/-- C16 as amended, at a concrete input: the wait with ticket 4 is interrupted
while ticket 4 is served and the tickets 5 and 6 were given up. `ticket_tail`
ends at 7 and `exitedTickets` holds no ticket any more. -/
theorem acquire_interrupted_spec_witness :
    ∃ d2, acquire_interrupted readFile 4 skipDev = Outcome.ret (-ERESTARTSYS) d2 readFile ∧
      d2.ticket_tail = 7 ∧
      (4 < d2.ticket_tail ∧ d2.ticket_tail ∉ tickets skipDev.exitedTickets ∧
        (∀ x, 4 < x → x < d2.ticket_tail → x ∈ tickets skipDev.exitedTickets) ∧
        ∀ x, x ∈ tickets d2.exitedTickets ↔
          (x ∈ tickets skipDev.exitedTickets ∧ ¬ (4 < x ∧ x < d2.ticket_tail))) := by
  obtain ⟨d2, h1, _, _, h4, _⟩ := acquire_interrupted_spec readFile 4 skipDev
  have hd : d2 = incrementTicket skipDev := by
    have e : acquire_interrupted readFile 4 skipDev =
        Outcome.ret (-ERESTARTSYS) (incrementTicket skipDev) readFile := by decide
    rw [e] at h1
    simp only [Outcome.ret.injEq] at h1
    exact h1.2.1.symm
  refine ⟨d2, h1, by rw [hd]; decide, ?_⟩
  exact (h4 rfl).2 (by decide) ⟨by decide, Or.inl rfl⟩ (by decide) (by decide)

/-- C16 fails as stated, in two ways. On `exitedTickets` holding 5 and 6 once
each with `size` 1, the interrupted wait with ticket 4, the ticket served,
removes 5, frees the list with it and leaves `ticket_tail` at 6, a ticket that
was in `exitedTickets` and is not skipped. And after 2^32 - 1 tickets task 1
sleeps with ticket 4294967295, the ticket served (a reachable state); when its
wait is interrupted `ticket_tail` wraps to 0. -/
theorem acquire_interrupted_rests_or_wraps :
    (tickets restDev.exitedTickets).Nodup ∧ restDev.ticket_tail = 4 ∧
    6 ∈ tickets restDev.exitedTickets ∧
    (acquire_interrupted readFile 4 restDev).retval = some (-ERESTARTSYS) ∧
    (acquire_interrupted readFile 4 restDev).dev.ticket_tail = 6 ∧
    (acquire_interrupted readFile 4 restDev).dev.exitedTickets = none ∧
    Reachable 0 { d := wrapDev, blocked := [wrapWaiter] } ∧
    wrapWaiter.curTicket = wrapDev.ticket_tail ∧
    (acquire_interrupted wrapWaiter.filp wrapWaiter.curTicket wrapDev).retval =
      some (-ERESTARTSYS) ∧
    (acquire_interrupted wrapWaiter.filp wrapWaiter.curTicket wrapDev).dev.ticket_tail = 0 :=
  ⟨by decide, rfl, by decide, by decide, by decide, by decide, wrap_reachable, rfl,
    by decide, by decide⟩

/-! ## The return of OSPRDIOCNOTIFY -/

/-- C19, as amended. The return path of OSPRDIOCNOTIFY changes nothing of the
ramdisk and returns 0, whichever way the wait ended: `isInPidList` finds in
`notifProcs` what it found when the wait ended. In particular a record of the
caller that is in `notifProcs` when the wait ends with its condition satisfied
is still in `notifProcs` after the call returned 0. -/
theorem notify_return_keeps_record (filp : file) (waitRet : Int) (d : osprd_info) (pid : Nat) :
    (notify_woken filp waitRet d).dev = d ∧
    (notify_woken filp waitRet d).retval = some 0 ∧
    isInPidList (notify_woken filp waitRet d).dev.notifProcs pid =
      isInPidList d.notifProcs pid ∧
    ∀ (rec : process) (sector : Nat), isInPidList d.notifProcs pid = some rec →
      notify_pred rec sector = some true →
      (notify_woken filp 0 d).retval = some 0 ∧
      isInPidList (notify_woken filp 0 d).dev.notifProcs pid = some rec := by
  have h : ∀ r : Int, notify_woken filp r d = Outcome.ret 0 d filp := by
    intro r
    unfold notify_woken
    split <;> split <;> rfl
  refine ⟨by rw [h]; rfl, by rw [h]; rfl, by rw [h]; rfl, fun rec sector hrec _ => ?_⟩
  rw [h]
  exact ⟨rfl, hrec⟩

end Osprd
